import Mathlib

/-!
# Splitter.cpp: split search and node splitting of a gradient-boosted tree trainer

Shallow embedding of `Splitter.cpp`.  `double` values are exact rationals, so every
statement below is a statement over exact arithmetic.  `std::vector` is `List`; a read
outside a vector (undefined behaviour in the source) yields the default written at the
read, a write outside a vector is dropped.  `std::map<int,int>` is a key-sorted
association list.  A failing `assert` makes the enclosing function return `none`.
`abs` and `fabs` are the absolute value of a rational; the literals 0.0001, 0.000002 and
0.5f are the rationals 1/10000, 2/1000000 and 1/2.
-/

/-- Modelled from the spec: the node statistics type declared in Splitter.h (not in the
sources): the sum of gradients and the sum of Hessians of a node's instances. -/
structure nodeStat where
  sum_gd : ℚ
  sum_hess : ℚ
deriving DecidableEq

/-- Modelled from the spec: the default constructor of nodeStat declared in Splitter.h;
statistics start at zero (the source relies on it: "we set 0 during init"). -/
def nodeStat.zero : nodeStat := ⟨0, 0⟩

/-- Modelled from the spec: nodeStat::Add of Splitter.h, additive accumulation of one
gradient pair. -/
def nodeStat.Add (st : nodeStat) (gd hess : ℚ) : nodeStat :=
  ⟨st.sum_gd + gd, st.sum_hess + hess⟩

/-- Modelled from the spec: nodeStat::Subtract of Splitter.h; the receiver becomes parent
minus one child, which is the other child. -/
def nodeStat.Subtract (parent r_child : nodeStat) : nodeStat :=
  ⟨parent.sum_gd - r_child.sum_gd, parent.sum_hess - r_child.sum_hess⟩

/-- Modelled from the spec: the split point type declared in Splitter.h: best known
(gain, threshold value, feature id) triple of a node. -/
structure SplitPoint where
  m_fGain : ℚ
  m_fSplitValue : ℚ
  m_nFeatureId : Int
deriving DecidableEq

/-- Modelled from the spec: SplitPoint::UpdateSplitPoint of Splitter.h; the split point is
replaced when the offered gain improves on the current best, and the result tells whether
it was replaced. -/
def SplitPoint.UpdateSplitPoint (sp : SplitPoint) (fGain fSplitValue : ℚ) (nFeatureId : Int) :
    SplitPoint × Bool :=
  if fGain > sp.m_fGain then (⟨fGain, fSplitValue, nFeatureId⟩, true) else (sp, false)

/-- One entry of a feature column: the instance id and its value on the feature. -/
structure key_value where
  id : Nat
  featureValue : ℚ
deriving DecidableEq

/-- Gradient pair of one instance (an element of m_vGDPair_fixedPos). -/
structure gdpair where
  grad : ℚ
  hess : ℚ
deriving DecidableEq

/-- Arguments of one call of CalGain, recorded by the searches. -/
structure GainCall where
  parent : nodeStat
  r_child : nodeStat
  l_child : nodeStat
deriving DecidableEq

/-- The member variables of the class Splitter that Splitter.cpp reads or writes. -/
structure Splitter where
  m_vvFeaInxPair : List (List key_value)
  m_nodeIds : List Int
  m_vGDPair_fixedPos : List gdpair
  m_nodeStat : List nodeStat
  mapNodeIdToBufferPos : List (Int × Nat)
  m_labda : ℚ
  m_gamma : ℚ

/-! ## std::map<int,int> as a key-sorted association list -/

/-- Lookup of a key (map::find). -/
def mapFind : List (Int × Nat) → Int → Option Nat
  | [], _ => none
  | (a, b) :: t, k => if a = k then some b else mapFind t k

/-- Insertion as map::insert does it: an existing key keeps its value. -/
def mapInsert : List (Int × Nat) → Int → Nat → List (Int × Nat)
  | [], k, v => [(k, v)]
  | (a, b) :: t, k, v =>
    if k < a then (k, v) :: (a, b) :: t
    else if k = a then (a, b) :: t
    else (a, b) :: mapInsert t k v

/-- Removal of a key (map::erase). -/
def mapErase (m : List (Int × Nat)) (k : Int) : List (Int × Nat) :=
  m.filter (fun e => e.1 ≠ k)

/-- Subscript as map::operator[] does it: a missing key is inserted with value 0. -/
def mapIndex (m : List (Int × Nat)) (k : Int) : List (Int × Nat) × Nat :=
  match mapFind m k with
  | some p => (m, p)
  | none => (mapInsert m k 0, 0)

namespace Splitter

/-- Gradient pair of an instance, read from m_vGDPair_fixedPos. -/
def gdAt (s : Splitter) (insId : Nat) : gdpair :=
  s.m_vGDPair_fixedPos.getD insId ⟨0, 0⟩

/-- Node id of an instance, read from m_nodeIds. -/
def nodeIdAt (s : Splitter) (insId : Nat) : Int :=
  s.m_nodeIds.getD insId (-1)

/-- Splitter::CalGain; none when one of its two assertions fails. -/
def CalGain (s : Splitter) (parent r_child l_child : nodeStat) : Option ℚ :=
  if |parent.sum_gd - l_child.sum_gd - r_child.sum_gd| < 1 / 10000 ∧
      parent.sum_hess = l_child.sum_hess + r_child.sum_hess then
    let fGain := (l_child.sum_gd * l_child.sum_gd) / (l_child.sum_hess + s.m_labda) +
      (r_child.sum_gd * r_child.sum_gd) / (r_child.sum_hess + s.m_labda) -
      (parent.sum_gd * parent.sum_gd) / (parent.sum_hess + s.m_labda)
    some (fGain - s.m_gamma)
  else none

/-- Local variables of Splitter::BestSplitValue that live across loop iterations; calls
records the arguments of every CalGain call, each of which is followed by a call of
UpdateSplitPoint on the local bestSplit. (nCounter is never read and is left out.) -/
structure BestSplitLocals where
  bFirst : Bool
  r_child : nodeStat
  l_child : nodeStat
  last_fvalue : ℚ
  bestSplit : SplitPoint
  calls : List GainCall

/-- The block "try to find a split" of the loop of Splitter::BestSplitValue, for an entry
with value fvalue of the node. -/
def BestSplitValueTry (s : Splitter) (nFeatureId : Nat) (parent : nodeStat)
    (st : BestSplitLocals) (fvalue : ℚ) : Option BestSplitLocals :=
  if |fvalue - st.last_fvalue| > 2 / 1000000 ∧ st.r_child.sum_hess ≥ 1 then
    let l := nodeStat.Subtract parent st.r_child
    if l.sum_hess ≥ 1 then
      (s.CalGain parent st.r_child l).map fun loss_chg =>
        { st with
          l_child := l,
          bestSplit := (st.bestSplit.UpdateSplitPoint loss_chg
            ((fvalue + st.last_fvalue) * (1 / 2)) nFeatureId).1,
          calls := st.calls ++ [⟨parent, st.r_child, l⟩] }
    else some { st with l_child := l }
  else some st

/-- Body of the loop of Splitter::BestSplitValue for one entry of the column. -/
def BestSplitValueStep (s : Splitter) (nFeatureId : Nat) (parent : nodeStat) (nodeId : Int)
    (st : BestSplitLocals) (e : key_value) : Option BestSplitLocals :=
  let originalInsId := e.id
  let nid := s.nodeIdAt originalInsId
  if nid ≠ nodeId then some st
  else
    let fvalue := e.featureValue
    let gd := s.gdAt originalInsId
    if st.bFirst = true then
      some { st with bFirst := false, r_child := st.r_child.Add gd.grad gd.hess,
                     last_fvalue := fvalue }
    else
      (BestSplitValueTry s nFeatureId parent st fvalue).map fun st1 =>
        { st1 with r_child := st1.r_child.Add gd.grad gd.hess, last_fvalue := fvalue }

/-- The loop of Splitter::BestSplitValue over the column of feature nFeatureId; fresh is
the default-constructed SplitPoint (its constructor is declared in Splitter.h). -/
def BestSplitValueLoop (s : Splitter) (fresh : SplitPoint) (nFeatureId : Nat)
    (parent : nodeStat) (nodeId : Int) : Option BestSplitLocals :=
  (s.m_vvFeaInxPair.getD nFeatureId []).foldlM (BestSplitValueStep s nFeatureId parent nodeId)
    ⟨true, nodeStat.zero, nodeStat.zero, 0, fresh, []⟩

/-- Splitter::BestSplitValue; the result is (fBestSplitValue, fGain). -/
def BestSplitValue (s : Splitter) (fresh : SplitPoint) (nFeatureId : Nat)
    (parent : nodeStat) (nodeId : Int) : Option (ℚ × ℚ) :=
  (BestSplitValueLoop s fresh nFeatureId parent nodeId).map fun st =>
    (st.bestSplit.m_fSplitValue, st.bestSplit.m_fGain)

/-- Body of the loop of Splitter::EfficientFeaFinder for feature f. -/
def EfficientFeaFinderStep (s : Splitter) (fresh : SplitPoint) (parent : nodeStat)
    (nodeId : Int) (bestSplit : SplitPoint) (f : Nat) : Option SplitPoint :=
  (BestSplitValue s fresh f parent nodeId).map fun r =>
    (bestSplit.UpdateSplitPoint r.2 r.1 f).1

/-- Splitter::EfficientFeaFinder; the result is bestSplit after the call. -/
def EfficientFeaFinder (s : Splitter) (fresh : SplitPoint) (bestSplit : SplitPoint)
    (parent : nodeStat) (nodeId : Int) : Option SplitPoint :=
  (List.range s.m_vvFeaInxPair.length).foldlM (EfficientFeaFinderStep s fresh parent nodeId)
    bestSplit

/-- Variables of Splitter::FeaFinderAllNode that its loops write: the per-feature buffers
tempStat and vLastValue, the three output vectors, the buffer map (operator[] may insert
into it) and the record of the CalGain calls. -/
structure AllNodeLocals where
  tempStat : List nodeStat
  vLastValue : List ℚ
  vBest : List SplitPoint
  rchildStat : List nodeStat
  lchildStat : List nodeStat
  map : List (Int × Nat)
  calls : List GainCall

/-- The block "try to find a split" of the inner loop of Splitter::FeaFinderAllNode, for
an entry with value fvalue of the node at bufferPos. -/
def FeaFinderAllNodeTry (s : Splitter) (f : Nat) (st : AllNodeLocals) (bufferPos : Nat)
    (fvalue : ℚ) : Option AllNodeLocals :=
  let t := st.tempStat.getD bufferPos nodeStat.zero
  let last := st.vLastValue.getD bufferPos 0
  if |fvalue - last| > 2 / 1000000 ∧ t.sum_hess ≥ 1 then
    let parent := s.m_nodeStat.getD bufferPos nodeStat.zero
    let lTempStat := nodeStat.Subtract parent t
    if lTempStat.sum_hess ≥ 1 then
      (s.CalGain parent t lTempStat).map fun loss_chg =>
        let u := (st.vBest.getD bufferPos ⟨0, 0, 0⟩).UpdateSplitPoint loss_chg
          ((fvalue + last) * (1 / 2)) f
        if u.2 = true then
          { st with
            vBest := st.vBest.set bufferPos u.1,
            lchildStat := st.lchildStat.set bufferPos lTempStat,
            rchildStat := st.rchildStat.set bufferPos t,
            calls := st.calls ++ [⟨parent, t, lTempStat⟩] }
        else
          { st with
            vBest := st.vBest.set bufferPos u.1,
            calls := st.calls ++ [⟨parent, t, lTempStat⟩] }
    else some st
  else some st

/-- Body of the inner loop of Splitter::FeaFinderAllNode for one entry of column f. -/
def FeaFinderAllNodeStep (s : Splitter) (f : Nat) (st : AllNodeLocals) (e : key_value) :
    Option AllNodeLocals :=
  let insId := e.id
  let nid := s.nodeIdAt insId
  if nid = -1 then some st
  else
    let fvalue := e.featureValue
    let ix := mapIndex st.map nid
    let bufferPos := ix.2
    let gd := s.gdAt insId
    let t := st.tempStat.getD bufferPos nodeStat.zero
    if |t.sum_hess| < 1 / 10000 then
      some { st with
        map := ix.1,
        tempStat := st.tempStat.set bufferPos (t.Add gd.grad gd.hess),
        vLastValue := st.vLastValue.set bufferPos fvalue }
    else
      (FeaFinderAllNodeTry s f { st with map := ix.1 } bufferPos fvalue).map fun st1 =>
        { st1 with
          tempStat := st1.tempStat.set bufferPos
            ((st1.tempStat.getD bufferPos nodeStat.zero).Add gd.grad gd.hess),
          vLastValue := st1.vLastValue.set bufferPos fvalue }

/-- Body of the outer loop of Splitter::FeaFinderAllNode for feature f: the two buffers
are resized to the current size of the map, then the column is scanned. -/
def FeaFinderAllNodeFeature (s : Splitter) (st : AllNodeLocals) (f : Nat) :
    Option AllNodeLocals :=
  let bufferSize := st.map.length
  (s.m_vvFeaInxPair.getD f []).foldlM (FeaFinderAllNodeStep s f)
    { st with tempStat := List.replicate bufferSize nodeStat.zero,
              vLastValue := List.replicate bufferSize 0 }

/-- Splitter::FeaFinderAllNode; the result holds vBest, rchildStat, lchildStat and the
buffer map after the call. -/
def FeaFinderAllNode (s : Splitter) (vBest : List SplitPoint)
    (rchildStat lchildStat : List nodeStat) : Option AllNodeLocals :=
  (List.range s.m_vvFeaInxPair.length).foldlM (FeaFinderAllNodeFeature s)
    ⟨[], [], vBest, rchildStat, lchildStat, s.mapNodeIdToBufferPos, []⟩

/-- Loop of Splitter::ComputeGDSparse for instance i; the state is the gradient array and
rootStat. -/
def ComputeGDSparseStep (v_fPredValue m_vTrueValue_fixedPos : List ℚ)
    (st : List gdpair × nodeStat) (i : Nat) : List gdpair × nodeStat :=
  let gds := st.1.set i ⟨v_fPredValue.getD i 0 - m_vTrueValue_fixedPos.getD i 0, 1⟩
  let g := gds.getD i ⟨0, 0⟩
  (gds, ⟨st.2.sum_gd + g.grad, st.2.sum_hess + g.hess⟩)

/-- Splitter::ComputeGDSparse. -/
def ComputeGDSparse (s : Splitter) (v_fPredValue m_vTrueValue_fixedPos : List ℚ) : Splitter :=
  let nTotal := m_vTrueValue_fixedPos.length
  let r := (List.range nTotal).foldl (ComputeGDSparseStep v_fPredValue m_vTrueValue_fixedPos)
    (s.m_vGDPair_fixedPos, nodeStat.zero)
  { s with
    m_vGDPair_fixedPos := r.1,
    m_nodeStat := [r.2],
    mapNodeIdToBufferPos := mapInsert s.mapNodeIdToBufferPos 0 0 }

/-- Splitter::ComputeNodeStat; stat is the accumulator the source passes by reference
(there named nodeStat). -/
def ComputeNodeStat (s : Splitter) (nId : Int) (stat : nodeStat) : nodeStat :=
  (List.range s.m_nodeIds.length).foldl
    (fun acc i =>
      if s.nodeIdAt i ≠ nId then acc
      else acc.Add (s.gdAt i).grad (s.gdAt i).hess)
    stat

/-- First loop of Splitter::UpdateNodeIdForSparseData for one entry of the split column;
the state is (m_nodeIds, vMark). -/
def UpdateNodeIdColumnStep (fPivot : ℚ) (parentNodeId leftNodeId rightNodeId : Int)
    (st : List Int × List Int) (e : key_value) : List Int × List Int :=
  let insId := e.id
  let fvalue := e.featureValue
  if st.1.getD insId (-1) ≠ parentNodeId then (st.1, st.2.set insId (-1))
  else
    (st.1.set insId (if fvalue ≥ fPivot then rightNodeId else leftNodeId), st.2.set insId 1)

/-- Second loop of Splitter::UpdateNodeIdForSparseData for instance i. -/
def UpdateNodeIdRestStep (vMark : List Int) (parentNodeId leftNodeId : Int)
    (ids : List Int) (i : Nat) : List Int :=
  if vMark.getD i 0 ≠ 0 then ids
  else if parentNodeId = ids.getD i (-1) then ids.set i leftNodeId
  else ids

/-- Column of the feature with a signed id (m_vvFeaInxPair[fid]). -/
def columnOf (s : Splitter) (fid : Int) : List key_value :=
  if 0 ≤ fid then s.m_vvFeaInxPair.getD fid.toNat [] else []

/-- Splitter::UpdateNodeIdForSparseData. -/
def UpdateNodeIdForSparseData (s : Splitter) (sp : SplitPoint)
    (parentNodeId leftNodeId rightNodeId : Int) : Splitter :=
  let nNumofIns := s.m_nodeIds.length
  let fid := sp.m_nFeatureId
  let fPivot := sp.m_fSplitValue
  let vMark : List Int := List.replicate nNumofIns 0
  let r := (s.columnOf fid).foldl
    (UpdateNodeIdColumnStep fPivot parentNodeId leftNodeId rightNodeId) (s.m_nodeIds, vMark)
  { s with
    m_nodeIds := (List.range nNumofIns).foldl
      (UpdateNodeIdRestStep r.2 parentNodeId leftNodeId) r.1 }

/-- Splitter::ComputeWeightSparseData. -/
def ComputeWeightSparseData (s : Splitter) (bufferPos : Nat) : ℚ :=
  let predValue := -(s.m_nodeStat.getD bufferPos nodeStat.zero).sum_gd /
    ((s.m_nodeStat.getD bufferPos nodeStat.zero).sum_hess + s.m_labda)
  predValue

end Splitter

namespace Splitter

/-- What the first loop of UpdateNodeIdForSparseData does to the pair
(m_nodeIds[i], vMark[i]) when it meets an entry of instance i. -/
def UpdateNodeIdAt (fPivot : ℚ) (parentNodeId leftNodeId rightNodeId : Int)
    (st : Int × Int) (e : key_value) : Int × Int :=
  if st.1 ≠ parentNodeId then (st.1, -1)
  else (if e.featureValue ≥ fPivot then rightNodeId else leftNodeId, 1)

/-- What the second loop of UpdateNodeIdForSparseData leaves in m_nodeIds[i], from the pair
(m_nodeIds[i], vMark[i]) after the first loop. -/
def UpdateNodeIdRestAt (parentNodeId leftNodeId : Int) (st : Int × Int) : Int :=
  if st.2 ≠ 0 then st.1 else if parentNodeId = st.1 then leftNodeId else st.1

end Splitter

namespace Splitter

/-- Closed form of the gain of a split with right statistics r and left statistics
parent minus r. -/
def splitGain (s : Splitter) (parent r : nodeStat) : ℚ :=
  (parent.sum_gd - r.sum_gd) * (parent.sum_gd - r.sum_gd) /
      (parent.sum_hess - r.sum_hess + s.m_labda) +
    r.sum_gd * r.sum_gd / (r.sum_hess + s.m_labda) -
    parent.sum_gd * parent.sum_gd / (parent.sum_hess + s.m_labda) - s.m_gamma

/-- The three tests BestSplitValue makes before it calls CalGain. -/
@[reducible] def BestSplitCandidate (parent : nodeStat) (st : BestSplitLocals) (fvalue : ℚ) :
    Prop :=
  (|fvalue - st.last_fvalue| > 2 / 1000000 ∧ st.r_child.sum_hess ≥ 1) ∧
    (nodeStat.Subtract parent st.r_child).sum_hess ≥ 1

/-- The three tests FeaFinderAllNode makes before it calls CalGain. -/
@[reducible] def AllNodeCandidate (s : Splitter) (st : AllNodeLocals) (bufferPos : Nat)
    (fvalue : ℚ) : Prop :=
  (|fvalue - st.vLastValue.getD bufferPos 0| > 2 / 1000000 ∧
      (st.tempStat.getD bufferPos nodeStat.zero).sum_hess ≥ 1) ∧
    (nodeStat.Subtract (s.m_nodeStat.getD bufferPos nodeStat.zero)
      (st.tempStat.getD bufferPos nodeStat.zero)).sum_hess ≥ 1

/-- The recorded child statistics of every position whose best split differs from the one
in vBest0 meet the minimum child weight 1. -/
def MinChildOK (vBest0 : List SplitPoint) (st : AllNodeLocals) : Prop :=
  ∀ p, st.vBest.get? p ≠ vBest0.get? p →
    (∀ x, st.rchildStat.get? p = some x → x.sum_hess ≥ 1) ∧
    (∀ x, st.lchildStat.get? p = some x → x.sum_hess ≥ 1)

end Splitter

namespace Splitter

/-- The entries of a list of column entries whose instance is assigned to node n. -/
def ownedBy (s : Splitter) (n : Int) (l : List key_value) : List key_value :=
  l.filter (fun e => s.nodeIdAt e.id = n)

/-- Accumulated statistics of the instances of a list of column entries. -/
def accStat (s : Splitter) (l : List key_value) : nodeStat :=
  l.foldl (fun acc e => acc.Add (s.gdAt e.id).grad (s.gdAt e.id).hess) nodeStat.zero

/-- After the spec: an entry e of node n that follows the entries pre of its column is a
valid candidate when pre holds an entry owned by n, the value of e differs from the value
of the last such entry by more than 2e-6, the accumulated statistics R of the n-owned
entries of pre have sum_hess >= 1, and parent - R has sum_hess >= 1. -/
def CandidateAfter (s : Splitter) (n : Int) (parent : nodeStat) (pre : List key_value)
    (e : key_value) : Prop :=
  s.nodeIdAt e.id = n ∧
  ∃ prev, (s.ownedBy n pre).getLast? = some prev ∧
    |e.featureValue - prev.featureValue| > 2 / 1000000 ∧
    (s.accStat (s.ownedBy n pre)).sum_hess ≥ 1 ∧
    (nodeStat.Subtract parent (s.accStat (s.ownedBy n pre))).sum_hess ≥ 1

/-- After the spec: the accumulated statistics R of all n-owned entries before position i
of the column of feature f. -/
def scannedStat (s : Splitter) (n : Int) (f i : Nat) : nodeStat :=
  s.accStat (s.ownedBy n ((s.m_vvFeaInxPair.getD f []).take i))

/-- After the spec: position i of the column of feature f is a valid candidate for node n. -/
def ValidCandidate (s : Splitter) (n : Int) (parent : nodeStat) (f i : Nat) : Prop :=
  ∃ e, (s.m_vvFeaInxPair.getD f []).get? i = some e ∧
    s.CandidateAfter n parent ((s.m_vvFeaInxPair.getD f []).take i) e

/-- What the scan of BestSplitValue has established after the entries pre of a column. -/
def ScanInv (s : Splitter) (n : Int) (parent : nodeStat) (fresh : SplitPoint)
    (pre : List key_value) (st : BestSplitLocals) : Prop :=
  (st.bFirst = true ↔ s.ownedBy n pre = []) ∧
  st.r_child = s.accStat (s.ownedBy n pre) ∧
  (∀ prev, (s.ownedBy n pre).getLast? = some prev → st.last_fvalue = prev.featureValue) ∧
  fresh.m_fGain ≤ st.bestSplit.m_fGain ∧
  (∀ i e, pre.get? i = some e → s.CandidateAfter n parent (pre.take i) e →
    s.splitGain parent (s.accStat (s.ownedBy n (pre.take i))) ≤ st.bestSplit.m_fGain) ∧
  (st.bestSplit = fresh ∨ ∃ i e, pre.get? i = some e ∧
    s.CandidateAfter n parent (pre.take i) e ∧
    st.bestSplit.m_fGain = s.splitGain parent (s.accStat (s.ownedBy n (pre.take i))))

end Splitter

namespace Splitter

/-- Conditions on the state under which the batched search is compared with the search
for the node n kept at buffer position p: n is a node id and not the mark -1 of a removed
instance, every assignment is -1 or a key of the buffer map, n is the one key at position
p, p is below the size of the map, every instance has a gradient pair, and every gradient
pair has hess = 1. -/
structure SearchCtx (s : Splitter) (n : Int) (p : Nat) : Prop where
  hn : n ≠ -1
  hkey : ∀ x ∈ s.m_nodeIds, x = -1 ∨ ∃ q, mapFind s.mapNodeIdToBufferPos x = some q
  huniq : ∀ k, mapFind s.mapNodeIdToBufferPos k = some p → k = n
  hp : mapFind s.mapNodeIdToBufferPos n = some p
  hsize : p < s.mapNodeIdToBufferPos.length
  hgd : s.m_nodeIds.length ≤ s.m_vGDPair_fixedPos.length
  hhess : ∀ g ∈ s.m_vGDPair_fixedPos, g.hess = 1

/-- Relation between the variables of FeaFinderAllNode and those of BestSplitValue for
the node at buffer position p while both scan the column of feature f; outer is bestSplit
of EfficientFeaFinder before feature f. -/
def SimInner (s : Splitter) (p f : Nat) (outer : SplitPoint) (a : AllNodeLocals)
    (b : BestSplitLocals) : Prop :=
  a.map = s.mapNodeIdToBufferPos ∧ p < a.tempStat.length ∧ p < a.vLastValue.length ∧
  p < a.vBest.length ∧
  a.tempStat.getD p nodeStat.zero = b.r_child ∧
  (b.bFirst = true → b.r_child.sum_hess = 0) ∧
  (b.bFirst = false → 1 ≤ b.r_child.sum_hess ∧ a.vLastValue.getD p 0 = b.last_fvalue) ∧
  a.vBest.getD p ⟨0, 0, 0⟩ =
    (outer.UpdateSplitPoint b.bestSplit.m_fGain b.bestSplit.m_fSplitValue f).1

/-- Relation between the variables of FeaFinderAllNode and bestSplit of EfficientFeaFinder
for the node at buffer position p, between two features. -/
def SimOuter (s : Splitter) (p : Nat) (fresh : SplitPoint) (a : AllNodeLocals)
    (outer : SplitPoint) : Prop :=
  a.map = s.mapNodeIdToBufferPos ∧ p < a.vBest.length ∧
  a.vBest.getD p ⟨0, 0, 0⟩ = outer ∧ fresh.m_fGain ≤ outer.m_fGain

end Splitter

namespace Splitter

/-- Body of the loop of Splitter::MarkProcessed for instance i. -/
def MarkProcessedStep (nodeId : Int) (ids : List Int) (i : Nat) : List Int :=
  if ids.getD i (-1) = nodeId then ids.set i (-1) else ids

/-- Splitter::MarkProcessed. -/
def MarkProcessed (s : Splitter) (nodeId : Int) : Splitter :=
  { s with
    mapNodeIdToBufferPos := mapErase s.mapNodeIdToBufferPos nodeId,
    m_nodeIds := (List.range s.m_nodeIds.length).foldl (MarkProcessedStep nodeId) s.m_nodeIds }

end Splitter

namespace Splitter

/-- What holds of the arguments of a CalGain call made by a search: the left statistics are
parent minus right, and both children meet the minimum child weight 1. -/
def GainCallOK (c : GainCall) : Prop :=
  c.l_child = nodeStat.Subtract c.parent c.r_child ∧ c.r_child.sum_hess ≥ 1 ∧
    c.l_child.sum_hess ≥ 1

end Splitter

/-- Modelled from the spec: the tree node type, declared in a header that is not in the
sources: identifier, parent id, left and right child ids, split feature id and threshold,
level. -/
structure TreeNode where
  nodeId : Int
  parentId : Int
  leftChildId : Int
  rightChildId : Int
  featureId : Int
  fSplitValue : ℚ
  level : Int
deriving DecidableEq

/-- Modelled from the spec: the tree type RegTree, declared in a header that is not in the
sources; nodes is its vector of pointers to tree nodes. -/
structure RegTree where
  nodes : List Nat
deriving DecidableEq

/-- Read through a pointer to a tree node: the memory holding tree nodes is a list and a
pointer is a position in it. -/
def derefNode (mem : List TreeNode) (p : Nat) : TreeNode :=
  mem.getD p ⟨0, 0, 0, 0, 0, 0, 0⟩

/-- Write through a pointer to a tree node. -/
def writeNode (mem : List TreeNode) (p : Nat) (f : TreeNode → TreeNode) : List TreeNode :=
  mem.set p (f (derefNode mem p))

namespace Splitter

/-- Body of the loop of Splitter::UpdateNodeStat for index i; the state is
(mapNodeIdToBufferPos, m_nodeStat). -/
def UpdateNodeStatStep (mem : List TreeNode) (newSplittableNode : List Nat)
    (v_nodeStat : List nodeStat) (st : List (Int × Nat) × List nodeStat) (i : Nat) :
    List (Int × Nat) × List nodeStat :=
  (mapInsert st.1 (derefNode mem (newSplittableNode.getD i 0)).nodeId i,
    st.2 ++ [v_nodeStat.getD i nodeStat.zero])

/-- Splitter::UpdateNodeStat; none when one of its two assertions fails. -/
def UpdateNodeStat (s : Splitter) (mem : List TreeNode) (newSplittableNode : List Nat)
    (v_nodeStat : List nodeStat) : Option Splitter :=
  if s.mapNodeIdToBufferPos = [] ∧ newSplittableNode.length = v_nodeStat.length then
    let r := (List.range newSplittableNode.length).foldl
      (UpdateNodeStatStep mem newSplittableNode v_nodeStat) (s.mapNodeIdToBufferPos, [])
    some { s with mapNodeIdToBufferPos := r.1, m_nodeStat := r.2 }
  else none

/-- What Splitter::SplitNodeSparseData leaves behind: the members of the splitter, the
memory holding the tree nodes, and the three arguments it takes by reference. -/
structure SplitOutcome where
  splitter : Splitter
  mem : List TreeNode
  newSplittableNode : List Nat
  tree : RegTree
  m_nNumofNode : Int

/-- Splitter::SplitNodeSparseData; node is a pointer into mem, fresh is a
default-constructed TreeNode (its constructor is declared in the missing header), and the
two new nodes are allocated at the end of mem. -/
def SplitNodeSparseData (s : Splitter) (fresh : TreeNode) (mem : List TreeNode) (node : Nat)
    (newSplittableNode : List Nat) (sp : SplitPoint) (tree : RegTree) (m_nNumofNode : Int) :
    SplitOutcome :=
  let leftChild := mem.length
  let rightChild := mem.length + 1
  let m0 := mem ++ [fresh, fresh]
  let m1 := writeNode m0 leftChild (fun t => { t with nodeId := m_nNumofNode })
  let m2 := writeNode m1 leftChild (fun t => { t with parentId := (derefNode m1 node).nodeId })
  let m3 := writeNode m2 rightChild (fun t => { t with nodeId := m_nNumofNode + 1 })
  let m4 := writeNode m3 rightChild (fun t => { t with parentId := (derefNode m3 node).nodeId })
  let newSplittableNode1 := (newSplittableNode ++ [leftChild]) ++ [rightChild]
  let nodes1 := (tree.nodes ++ [leftChild]) ++ [rightChild]
  let m5 := writeNode m4 node (fun t => { t with leftChildId := (derefNode m4 leftChild).nodeId })
  let m6 := writeNode m5 node
    (fun t => { t with rightChildId := (derefNode m5 rightChild).nodeId })
  let m7 := writeNode m6 node (fun t => { t with featureId := sp.m_nFeatureId })
  let m8 := writeNode m7 node (fun t => { t with fSplitValue := sp.m_fSplitValue })
  let s1 := s.UpdateNodeIdForSparseData sp (derefNode m8 node).nodeId m_nNumofNode
    (m_nNumofNode + 1)
  let m_nNumofNode1 := m_nNumofNode + 2
  let m9 := writeNode m8 leftChild (fun t => { t with parentId := (derefNode m8 node).nodeId })
  let m10 := writeNode m9 rightChild (fun t => { t with parentId := (derefNode m9 node).nodeId })
  let m11 := writeNode m10 leftChild (fun t => { t with level := (derefNode m10 node).level + 1 })
  let m12 := writeNode m11 rightChild
    (fun t => { t with level := (derefNode m11 node).level + 1 })
  ⟨s1, m12, newSplittableNode1, ⟨nodes1⟩, m_nNumofNode1⟩

end Splitter

namespace Splitter

/-- After the spec: a and b are the values of two consecutive n-owned entries of the column
of feature f, the later one at position i, and they differ by more than 2e-6. -/
def BoundaryPair (s : Splitter) (n : Int) (f i : Nat) (a b : ℚ) : Prop :=
  ∃ e prev, (s.m_vvFeaInxPair.getD f []).get? i = some e ∧ s.nodeIdAt e.id = n ∧
    (s.ownedBy n ((s.m_vvFeaInxPair.getD f []).take i)).getLast? = some prev ∧
    a = prev.featureValue ∧ b = e.featureValue ∧ |b - a| > 2 / 1000000

/-- The node n is an active node kept at buffer position p: n is a node id and not the mark
-1, every assignment is -1 or a key of the buffer map, and n is the one key at position p. -/
structure NodeAt (s : Splitter) (n : Int) (p : Nat) : Prop where
  hn : n ≠ -1
  hkey : ∀ x ∈ s.m_nodeIds, x = -1 ∨ ∃ q, mapFind s.mapNodeIdToBufferPos x = some q
  huniq : ∀ k, mapFind s.mapNodeIdToBufferPos k = some p → k = n
  hp : mapFind s.mapNodeIdToBufferPos n = some p

/-- The best split and the child statistics recorded at buffer position p stem from the
candidate at position i of the column of feature f: the split value is the midpoint of the
boundary pair there, the right statistics are those of the n-owned entries before i, the
left statistics are m_nodeStat[p] minus the right statistics. -/
def RecordedAt (s : Splitter) (n : Int) (p : Nat) (st : AllNodeLocals) (f i : Nat) : Prop :=
  ∃ a b sp, s.BoundaryPair n f i a b ∧ st.vBest.get? p = some sp ∧
    sp.m_nFeatureId = (f : Int) ∧ sp.m_fSplitValue = (a + b) / 2 ∧
    (∀ x, st.rchildStat.get? p = some x → x = s.scannedStat n f i) ∧
    (∀ y, st.lchildStat.get? p = some y →
      y = nodeStat.Subtract (s.m_nodeStat.getD p nodeStat.zero) (s.scannedStat n f i))

/-- What the batched search has established for buffer position p between two entries:
the map is unchanged, and vBest[p] is as in vBest0 or was recorded at a candidate. -/
def BatchOut (s : Splitter) (n : Int) (p : Nat) (vBest0 : List SplitPoint)
    (st : AllNodeLocals) : Prop :=
  st.map = s.mapNodeIdToBufferPos ∧ st.vBest.length = vBest0.length ∧
  (st.vBest.get? p = vBest0.get? p ∨ ∃ f i, s.RecordedAt n p st f i)

/-- What the batched search has established for buffer position p after the entries pre
of the column it scans. -/
def BatchScan (s : Splitter) (n : Int) (p : Nat) (vBest0 : List SplitPoint)
    (pre : List key_value) (st : AllNodeLocals) : Prop :=
  s.BatchOut n p vBest0 st ∧ st.tempStat.length = st.vLastValue.length ∧
  (p < st.tempStat.length → st.tempStat.getD p nodeStat.zero = s.accStat (s.ownedBy n pre)) ∧
  (∀ prev, (s.ownedBy n pre).getLast? = some prev → p < st.vLastValue.length →
    st.vLastValue.getD p 0 = prev.featureValue)

end Splitter

namespace Splitter

/-- The local best split of BestSplitValue after the entries pre of the column of feature
f is the fresh one, or its split value is the midpoint of a boundary pair among pre. -/
def MidSplit (s : Splitter) (n : Int) (f : Nat) (fresh : SplitPoint) (pre : List key_value)
    (st : BestSplitLocals) : Prop :=
  st.bestSplit = fresh ∨ ∃ i e prev, pre.get? i = some e ∧ s.nodeIdAt e.id = n ∧
    (s.ownedBy n (pre.take i)).getLast? = some prev ∧
    |e.featureValue - prev.featureValue| > 2 / 1000000 ∧
    st.bestSplit.m_fSplitValue = (prev.featureValue + e.featureValue) / 2 ∧
    st.bestSplit.m_nFeatureId = (f : Int)

end Splitter

/-! ## Gain and leaf weight -/

namespace Splitter

/-- The gain of a split whose left statistics are parent minus right: both assertions of
CalGain hold and the value is the closed formula. -/
theorem CalGain_Subtract (s : Splitter) (parent r : nodeStat) :
    s.CalGain parent r (nodeStat.Subtract parent r) =
      some ((parent.sum_gd - r.sum_gd) * (parent.sum_gd - r.sum_gd) /
          (parent.sum_hess - r.sum_hess + s.m_labda) +
        r.sum_gd * r.sum_gd / (r.sum_hess + s.m_labda) -
        parent.sum_gd * parent.sum_gd / (parent.sum_hess + s.m_labda) - s.m_gamma) := by
  unfold CalGain nodeStat.Subtract
  have h1 : |parent.sum_gd - (parent.sum_gd - r.sum_gd) - r.sum_gd| < 1 / 10000 := by
    have : parent.sum_gd - (parent.sum_gd - r.sum_gd) - r.sum_gd = 0 := by ring
    rw [this]; norm_num
  have h2 : parent.sum_hess = parent.sum_hess - r.sum_hess + r.sum_hess := by ring
  simp only [h1, true_and]
  rw [if_pos h2]

/-- C7: whenever the two checked preconditions of CalGain hold, its result is
l.sum_gd^2/(l.sum_hess + lambda) + r.sum_gd^2/(r.sum_hess + lambda)
- parent.sum_gd^2/(parent.sum_hess + lambda) - gamma, gamma being subtracted once; and for
parent (0, 4), right (2, 2), left (-2, 2), lambda = 0, gamma = 0 the result is 4. -/
theorem CalGain_formula :
    (∀ (s : Splitter) (parent r l : nodeStat),
      |parent.sum_gd - l.sum_gd - r.sum_gd| < 1 / 10000 →
      parent.sum_hess = l.sum_hess + r.sum_hess →
      s.CalGain parent r l =
        some (l.sum_gd ^ 2 / (l.sum_hess + s.m_labda) + r.sum_gd ^ 2 / (r.sum_hess + s.m_labda)
          - parent.sum_gd ^ 2 / (parent.sum_hess + s.m_labda) - s.m_gamma)) ∧
    (∀ s : Splitter, s.m_labda = 0 → s.m_gamma = 0 →
      s.CalGain ⟨0, 4⟩ ⟨2, 2⟩ ⟨-2, 2⟩ = some 4) := by
  constructor
  · intro s parent r l h1 h2
    unfold CalGain
    rw [if_pos ⟨h1, h2⟩]
    simp only [pow_two]
  · intro s hl hg
    unfold CalGain
    simp only [hl, hg]
    norm_num

/-- Witness of C7: the gain of the worked example on a concrete splitter. -/
theorem CalGain_formula_witness :
    (⟨[], [], [], [], [], 0, 0⟩ : Splitter).CalGain ⟨0, 4⟩ ⟨2, 2⟩ ⟨-2, 2⟩ = some 4 :=
  CalGain_formula.2 ⟨[], [], [], [], [], 0, 0⟩ rfl rfl

/-- C8: for a valid buffer position p whose denominator is not zero the leaf weight is
-sum_gd / (sum_hess + lambda) of m_nodeStat[p]; for sum_gd = -4, sum_hess = 2, lambda = 1
it is 4/3. -/
theorem ComputeWeightSparseData_formula :
    (∀ (s : Splitter) (p : Nat) (st : nodeStat), s.m_nodeStat.get? p = some st →
      st.sum_hess + s.m_labda ≠ 0 →
      s.ComputeWeightSparseData p = -st.sum_gd / (st.sum_hess + s.m_labda)) ∧
    (∀ (s : Splitter) (p : Nat), s.m_nodeStat.get? p = some ⟨-4, 2⟩ → s.m_labda = 1 →
      s.ComputeWeightSparseData p = 4 / 3) := by
  constructor
  · intro s p st hp _
    unfold ComputeWeightSparseData
    simp only [List.getD_eq_getElem?_getD, ← List.get?_eq_getElem?, hp, Option.getD_some]
  · intro s p hp hl
    unfold ComputeWeightSparseData
    simp only [List.getD_eq_getElem?_getD, ← List.get?_eq_getElem?, hp, Option.getD_some, hl]
    norm_num

/-- Witness of C8: the leaf weight of the worked example on a concrete splitter. -/
theorem ComputeWeightSparseData_formula_witness :
    (⟨[], [], [], [⟨-4, 2⟩], [(0, 0)], 1, 0⟩ : Splitter).ComputeWeightSparseData 0 = 4 / 3 :=
  ComputeWeightSparseData_formula.2 ⟨[], [], [], [⟨-4, 2⟩], [(0, 0)], 1, 0⟩ 0 rfl rfl

end Splitter

/-! ## Gradient computation -/

namespace Splitter

/-- State of the loop of ComputeGDSparse after the first k instances. -/
theorem ComputeGDSparse_loop (pred tv : List ℚ) (gds0 : List gdpair) (k : Nat)
    (hk : k ≤ gds0.length) :
    ((List.range k).foldl (ComputeGDSparseStep pred tv) (gds0, nodeStat.zero)).1.length
        = gds0.length ∧
    (∀ i, i < k →
      ((List.range k).foldl (ComputeGDSparseStep pred tv) (gds0, nodeStat.zero)).1.get? i
        = some ⟨pred.getD i 0 - tv.getD i 0, 1⟩) ∧
    ((List.range k).foldl (ComputeGDSparseStep pred tv) (gds0, nodeStat.zero)).2
        = ⟨∑ i in Finset.range k, (pred.getD i 0 - tv.getD i 0), (k : ℚ)⟩ := by
  induction k with
  | zero => simp [nodeStat.zero]
  | succ k ih =>
    obtain ⟨hlen, hget, hroot⟩ := ih (Nat.le_of_succ_le hk)
    have hklt : k < ((List.range k).foldl (ComputeGDSparseStep pred tv)
        (gds0, nodeStat.zero)).1.length := by rw [hlen]; exact hk
    rw [List.range_succ, List.foldl_append]
    simp only [List.foldl_cons, List.foldl_nil]
    refine ⟨?_, ?_, ?_⟩
    · simp [ComputeGDSparseStep, hlen]
    · intro i hi
      by_cases hik : i = k
      · subst hik
        simp [ComputeGDSparseStep, List.getElem?_set, hklt]
      · have hlt : i < k := by omega
        have := hget i hlt
        simp only [ComputeGDSparseStep, List.get?_eq_getElem?] at this ⊢
        rw [List.getElem?_set_ne (by omega)]
        exact this
    · simp only [ComputeGDSparseStep, hroot]
      rw [Finset.sum_range_succ]
      simp [List.getD_eq_getElem?_getD, List.getElem?_set, hklt]

/-- C9: for predictions and targets of equal length n and a gradient array of length at
least n, after ComputeGDSparse every instance i < n has grad = prediction_i - target_i and
hess = 1, and m_nodeStat is the one-element list holding the sum of those gradients and
sum_hess = n. -/
theorem ComputeGDSparse_gradients (s : Splitter) (pred tv : List ℚ)
    (hlen : pred.length = tv.length) (hgd : tv.length ≤ s.m_vGDPair_fixedPos.length) :
    (∀ i, i < tv.length → ∃ p t, pred.get? i = some p ∧ tv.get? i = some t ∧
      (s.ComputeGDSparse pred tv).m_vGDPair_fixedPos.get? i = some ⟨p - t, 1⟩) ∧
    (s.ComputeGDSparse pred tv).m_nodeStat =
      [⟨∑ i in Finset.range tv.length, (pred.getD i 0 - tv.getD i 0), (tv.length : ℚ)⟩] := by
  obtain ⟨_, hget, hroot⟩ := ComputeGDSparse_loop pred tv s.m_vGDPair_fixedPos tv.length hgd
  constructor
  · intro i hi
    have hp : i < pred.length := by rw [hlen]; exact hi
    refine ⟨pred[i], tv[i], ?_, ?_, ?_⟩
    · simp [List.getElem?_eq_getElem hp]
    · simp [List.getElem?_eq_getElem hi]
    · have := hget i hi
      simp only [ComputeGDSparse]
      rw [this]
      simp [List.getD_eq_getElem?_getD, List.getElem?_eq_getElem hp,
        List.getElem?_eq_getElem hi]
  · simp only [ComputeGDSparse]
    rw [hroot]

/-- Witness of C9: two instances with predictions 3, 5 and targets 1, 8. -/
theorem ComputeGDSparse_gradients_witness :
    (∀ i, i < [(1 : ℚ), 8].length → ∃ p t, [(3 : ℚ), 5].get? i = some p ∧
      [(1 : ℚ), 8].get? i = some t ∧
      ((⟨[], [0, 0], [⟨0, 0⟩, ⟨7, 7⟩], [], [], 1, 0⟩ : Splitter).ComputeGDSparse
        [3, 5] [1, 8]).m_vGDPair_fixedPos.get? i = some ⟨p - t, 1⟩) ∧
    ((⟨[], [0, 0], [⟨0, 0⟩, ⟨7, 7⟩], [], [], 1, 0⟩ : Splitter).ComputeGDSparse
        [3, 5] [1, 8]).m_nodeStat =
      [⟨∑ i in Finset.range [(1 : ℚ), 8].length,
          ([(3 : ℚ), 5].getD i 0 - [(1 : ℚ), 8].getD i 0), ([(1 : ℚ), 8].length : ℚ)⟩] :=
  ComputeGDSparse_gradients ⟨[], [0, 0], [⟨0, 0⟩, ⟨7, 7⟩], [], [], 1, 0⟩ [3, 5] [1, 8]
    rfl (by decide)

/-- Inserting key 0 with value 0 yields the one-entry map exactly when the map was empty or
was that one-entry map already. -/
theorem mapInsert_zero_eq_singleton (m : List (Int × Nat)) :
    mapInsert m 0 0 = [(0, 0)] ↔ m = [] ∨ m = [(0, 0)] := by
  cases m with
  | nil => simp [mapInsert]
  | cons e t =>
    obtain ⟨a, b⟩ := e
    simp only [mapInsert]
    by_cases h1 : (0 : Int) < a
    · simp only [if_pos h1]
      constructor
      · intro h; simp at h
      · intro h; simp at h; omega
    · simp only [if_neg h1]
      by_cases h2 : (0 : Int) = a
      · simp [if_pos h2]
      · simp only [if_neg h2]
        constructor
        · intro h
          simp at h
          omega
        · intro h
          simp at h
          omega

/-- C10 fails as stated: with the prior map holding node 3 at position 1, the map after
ComputeGDSparse has two keys and is not the one-entry map sending node 0 to position 0. -/
theorem ComputeGDSparse_map_counterexample :
    ((⟨[], [], [], [], [(3, 1)], 1, 0⟩ : Splitter).ComputeGDSparse [] []).mapNodeIdToBufferPos
        = [(0, 0), (3, 1)] ∧
    ((⟨[], [], [], [], [(3, 1)], 1, 0⟩ : Splitter).ComputeGDSparse [] []).mapNodeIdToBufferPos
        ≠ [(0, 0)] := by
  constructor
  · simp [ComputeGDSparse, mapInsert]
  · simp [ComputeGDSparse, mapInsert]

/-- C10 (amended): after ComputeGDSparse the buffer map is the prior map with node 0
inserted at position 0 unless node 0 was a key already; it is exactly the one-entry map
sending node 0 to position 0 if and only if the prior map was empty or was that map
already. -/
theorem ComputeGDSparse_map (s : Splitter) (pred tv : List ℚ) :
    (s.ComputeGDSparse pred tv).mapNodeIdToBufferPos = mapInsert s.mapNodeIdToBufferPos 0 0 ∧
    ((s.ComputeGDSparse pred tv).mapNodeIdToBufferPos = [(0, 0)] ↔
      s.mapNodeIdToBufferPos = [] ∨ s.mapNodeIdToBufferPos = [(0, 0)]) := by
  constructor
  · rfl
  · exact mapInsert_zero_eq_singleton s.mapNodeIdToBufferPos

end Splitter

/-! ## Split execution -/

namespace Splitter

theorem UpdateNodeIdColumn_pointwise (fPivot : ℚ) (parent left right : Int)
    (col : List key_value) (i : Nat) :
    ∀ (ids marks : List Int), marks.length = ids.length → i < ids.length →
    (col.foldl (UpdateNodeIdColumnStep fPivot parent left right) (ids, marks)).1.length
      = ids.length ∧
    (col.foldl (UpdateNodeIdColumnStep fPivot parent left right) (ids, marks)).2.length
      = ids.length ∧
    ((col.foldl (UpdateNodeIdColumnStep fPivot parent left right) (ids, marks)).1.getD i (-1),
     (col.foldl (UpdateNodeIdColumnStep fPivot parent left right) (ids, marks)).2.getD i 0)
      = (col.filter (fun e => e.id = i)).foldl (UpdateNodeIdAt fPivot parent left right)
          (ids.getD i (-1), marks.getD i 0) := by
  induction col with
  | nil => intro ids marks hm hi; simp [hm]
  | cons e col ih =>
    intro ids marks hm hi
    simp only [List.foldl_cons]
    have hlen1 : (UpdateNodeIdColumnStep fPivot parent left right (ids, marks) e).1.length
        = ids.length := by
      unfold UpdateNodeIdColumnStep; dsimp only; split <;> simp
    have hlen2 : (UpdateNodeIdColumnStep fPivot parent left right (ids, marks) e).2.length
        = ids.length := by
      unfold UpdateNodeIdColumnStep; dsimp only; split <;> simp [hm]
    obtain ⟨h1, h2, h3⟩ := ih (UpdateNodeIdColumnStep fPivot parent left right (ids, marks) e).1
      (UpdateNodeIdColumnStep fPivot parent left right (ids, marks) e).2
      (by rw [hlen1, hlen2]) (by rw [hlen1]; exact hi)
    refine ⟨by rw [h1, hlen1], by rw [h2, hlen1], ?_⟩
    rw [h3]
    have hmi : i < marks.length := by rw [hm]; exact hi
    by_cases hei : e.id = i
    · have hf : (e :: col).filter (fun e => decide (e.id = i))
          = e :: col.filter (fun e => decide (e.id = i)) := by simp [hei]
      rw [hf, List.foldl_cons]
      congr 1
      subst hei
      unfold UpdateNodeIdColumnStep UpdateNodeIdAt
      dsimp only
      split <;> simp [List.getD_eq_getElem?_getD, List.getElem?_set, hi, hmi]
    · have hf : (e :: col).filter (fun e => decide (e.id = i))
          = col.filter (fun e => decide (e.id = i)) := by simp [hei]
      rw [hf]
      congr 1
      unfold UpdateNodeIdColumnStep
      dsimp only
      split <;> simp [List.getD_eq_getElem?_getD, List.getElem?_set, hei]


theorem UpdateNodeIdRestStep_length (marks : List Int) (parent left : Int) (l : List Int)
    (k : Nat) : (UpdateNodeIdRestStep marks parent left l k).length = l.length := by
  unfold UpdateNodeIdRestStep
  split
  · rfl
  · split
    · simp
    · rfl

theorem UpdateNodeIdRestStep_getD (marks : List Int) (parent left : Int) (l : List Int)
    (k i : Nat) (hk : k < l.length) :
    (UpdateNodeIdRestStep marks parent left l k).getD i (-1) =
      if i = k then UpdateNodeIdRestAt parent left (l.getD k (-1), marks.getD k 0)
      else l.getD i (-1) := by
  unfold UpdateNodeIdRestStep UpdateNodeIdRestAt
  dsimp only
  by_cases hik : i = k
  · subst hik
    rw [if_pos rfl]
    split
    · rfl
    · split
      · simp [List.getD_eq_getElem?_getD, List.getElem?_set, hk]
      · rfl
  · rw [if_neg hik]
    split
    · rfl
    · split
      · simp [List.getD_eq_getElem?_getD, List.getElem?_set, Ne.symm hik]
      · rfl

theorem UpdateNodeIdRest_pointwise (marks : List Int) (parent left : Int) (ids : List Int)
    (k : Nat) (hk : k ≤ ids.length) :
    ((List.range k).foldl (UpdateNodeIdRestStep marks parent left) ids).length = ids.length ∧
    ∀ i, ((List.range k).foldl (UpdateNodeIdRestStep marks parent left) ids).getD i (-1)
      = if i < k then UpdateNodeIdRestAt parent left (ids.getD i (-1), marks.getD i 0)
        else ids.getD i (-1) := by
  induction k with
  | zero => simp
  | succ k ih =>
    obtain ⟨hlen, hget⟩ := ih (Nat.le_of_succ_le hk)
    rw [List.range_succ, List.foldl_append]
    simp only [List.foldl_cons, List.foldl_nil]
    have hkk := hget k
    simp only [lt_irrefl, if_false] at hkk
    have hklt : k < ((List.range k).foldl (UpdateNodeIdRestStep marks parent left) ids).length := by
      rw [hlen]; exact hk
    constructor
    · rw [UpdateNodeIdRestStep_length, hlen]
    · intro i
      rw [UpdateNodeIdRestStep_getD marks parent left _ k i hklt, hkk, hget i]
      by_cases hik : i = k
      · subst hik
        simp
      · rw [if_neg hik]
        by_cases hlt : i < k
        · simp [hlt, Nat.lt_succ_of_lt hlt]
        · have : ¬ i < k + 1 := by omega
          simp [hlt, this]

/-- The assignment of instance i after UpdateNodeIdForSparseData, from its assignment
before and the entries of instance i in the split column. -/
theorem UpdateNodeIdForSparseData_at (s : Splitter) (sp : SplitPoint)
    (parent left right : Int) (i : Nat) (hi : i < s.m_nodeIds.length) :
    (s.UpdateNodeIdForSparseData sp parent left right).m_nodeIds.getD i (-1) =
      UpdateNodeIdRestAt parent left
        (((s.columnOf sp.m_nFeatureId).filter (fun e => e.id = i)).foldl
          (UpdateNodeIdAt sp.m_fSplitValue parent left right) (s.m_nodeIds.getD i (-1), 0)) := by
  obtain ⟨h1, h2, h3⟩ := UpdateNodeIdColumn_pointwise sp.m_fSplitValue parent left right
    (s.columnOf sp.m_nFeatureId) i s.m_nodeIds (List.replicate s.m_nodeIds.length 0)
    (by simp) hi
  obtain ⟨_, h5⟩ := UpdateNodeIdRest_pointwise
    ((s.columnOf sp.m_nFeatureId).foldl
      (UpdateNodeIdColumnStep sp.m_fSplitValue parent left right)
      (s.m_nodeIds, List.replicate s.m_nodeIds.length 0)).2 parent left
    ((s.columnOf sp.m_nFeatureId).foldl
      (UpdateNodeIdColumnStep sp.m_fSplitValue parent left right)
      (s.m_nodeIds, List.replicate s.m_nodeIds.length 0)).1 s.m_nodeIds.length (by rw [h1])
  simp only [UpdateNodeIdForSparseData]
  rw [h5 i, if_pos hi, h3]
  simp [List.getD_eq_getElem?_getD, hi]

/-- UpdateNodeIdForSparseData keeps the number of instances. -/
theorem UpdateNodeIdForSparseData_length (s : Splitter) (sp : SplitPoint)
    (parent left right : Int) :
    (s.UpdateNodeIdForSparseData sp parent left right).m_nodeIds.length
      = s.m_nodeIds.length := by
  by_cases h0 : s.m_nodeIds.length = 0
  · have hnil : s.m_nodeIds = [] := List.length_eq_zero.mp h0
    simp only [UpdateNodeIdForSparseData, hnil]
    simp only [List.length_nil, List.range_zero, List.foldl_nil]
    induction s.columnOf sp.m_nFeatureId with
    | nil => simp
    | cons e col ih =>
      simp only [List.foldl_cons]
      have : UpdateNodeIdColumnStep sp.m_fSplitValue parent left right
          ([], List.replicate 0 0) e = ([], List.replicate 0 0) := by
        unfold UpdateNodeIdColumnStep; dsimp only; split <;> simp
      rw [this]; exact ih
  · have hpos : 0 < s.m_nodeIds.length := Nat.pos_of_ne_zero h0
    obtain ⟨h1, _, _⟩ := UpdateNodeIdColumn_pointwise sp.m_fSplitValue parent left right
      (s.columnOf sp.m_nFeatureId) 0 s.m_nodeIds (List.replicate s.m_nodeIds.length 0)
      (by simp) hpos
    obtain ⟨h4, _⟩ := UpdateNodeIdRest_pointwise
      ((s.columnOf sp.m_nFeatureId).foldl
        (UpdateNodeIdColumnStep sp.m_fSplitValue parent left right)
        (s.m_nodeIds, List.replicate s.m_nodeIds.length 0)).2 parent left
      ((s.columnOf sp.m_nFeatureId).foldl
        (UpdateNodeIdColumnStep sp.m_fSplitValue parent left right)
        (s.m_nodeIds, List.replicate s.m_nodeIds.length 0)).1 s.m_nodeIds.length (by rw [h1])
    simp only [UpdateNodeIdForSparseData]
    rw [h4, h1]


theorem getD_lt_get_some (l : List Int) (i : Nat) (h : i < l.length) :
    l.get? i = some (l.getD i (-1)) := by
  simp [List.getD_eq_getElem?_getD, List.getElem?_eq_getElem h]

/-- Once an instance has left the parent, the first loop never changes its node id. -/
theorem UpdateNodeIdAt_foldl_ne (fPivot : ℚ) (parent left right : Int)
    (occ : List key_value) :
    ∀ st : Int × Int, st.1 ≠ parent →
      (occ.foldl (UpdateNodeIdAt fPivot parent left right) st).1 = st.1 := by
  induction occ with
  | nil => intro st _; rfl
  | cons e occ ih =>
    intro st h
    simp only [List.foldl_cons]
    have hstep : UpdateNodeIdAt fPivot parent left right st e = (st.1, -1) := by
      unfold UpdateNodeIdAt; rw [if_pos h]
    rw [hstep, ih (st.1, -1) h]

theorem UpdateNodeIdRestAt_ne (parent left : Int) (st : Int × Int) (h : st.1 ≠ parent) :
    UpdateNodeIdRestAt parent left st = st.1 := by
  unfold UpdateNodeIdRestAt
  split
  · rfl
  · rw [if_neg (Ne.symm h)]

/-- Final node id of an instance that did not belong to the parent: unchanged. -/
theorem UpdateNodeIdForSparseData_other (s : Splitter) (sp : SplitPoint)
    (parent left right : Int) (i : Nat) (hi : i < s.m_nodeIds.length)
    (hne : s.m_nodeIds.getD i (-1) ≠ parent) :
    (s.UpdateNodeIdForSparseData sp parent left right).m_nodeIds.getD i (-1)
      = s.m_nodeIds.getD i (-1) := by
  rw [UpdateNodeIdForSparseData_at s sp parent left right i hi]
  have h := UpdateNodeIdAt_foldl_ne sp.m_fSplitValue parent left right
    ((s.columnOf sp.m_nFeatureId).filter (fun e => e.id = i)) (s.m_nodeIds.getD i (-1), 0) hne
  rw [UpdateNodeIdRestAt_ne parent left _ (by rw [h]; exact hne), h]

/-- Final node id of an instance of the parent: one of the two children. -/
theorem UpdateNodeIdForSparseData_child (s : Splitter) (sp : SplitPoint)
    (parent left right : Int) (hl : left ≠ parent) (hr : right ≠ parent)
    (i : Nat) (hi : i < s.m_nodeIds.length)
    (hp : s.m_nodeIds.getD i (-1) = parent) :
    (s.UpdateNodeIdForSparseData sp parent left right).m_nodeIds.getD i (-1) = left ∨
    (s.UpdateNodeIdForSparseData sp parent left right).m_nodeIds.getD i (-1) = right := by
  rw [UpdateNodeIdForSparseData_at s sp parent left right i hi, hp]
  cases hocc : (s.columnOf sp.m_nFeatureId).filter (fun e => e.id = i) with
  | nil =>
    left
    simp [UpdateNodeIdRestAt]
  | cons e occ =>
    simp only [List.foldl_cons]
    have hstep : UpdateNodeIdAt sp.m_fSplitValue parent left right (parent, 0) e
        = (if e.featureValue ≥ sp.m_fSplitValue then right else left, 1) := by
      unfold UpdateNodeIdAt; simp
    rw [hstep]
    have hne : (if e.featureValue ≥ sp.m_fSplitValue then right else left) ≠ parent := by
      split
      · exact hr
      · exact hl
    have h := UpdateNodeIdAt_foldl_ne sp.m_fSplitValue parent left right occ
      (if e.featureValue ≥ sp.m_fSplitValue then right else left, 1) hne
    rw [UpdateNodeIdRestAt_ne parent left _ (by rw [h]; exact hne), h]
    dsimp only
    split
    · right; rfl
    · left; rfl

/-- ComputeNodeStat from zero as two sums over the instances. -/
theorem ComputeNodeStat_loop (s : Splitter) (nId : Int) (k : Nat) :
    (List.range k).foldl
      (fun acc i => if s.nodeIdAt i ≠ nId then acc
        else nodeStat.Add acc (s.gdAt i).grad (s.gdAt i).hess) nodeStat.zero
    = ⟨∑ i in Finset.range k, (if s.nodeIdAt i = nId then (s.gdAt i).grad else 0),
       ∑ i in Finset.range k, (if s.nodeIdAt i = nId then (s.gdAt i).hess else 0)⟩ := by
  induction k with
  | zero => simp [nodeStat.zero]
  | succ k ih =>
    rw [List.range_succ, List.foldl_append, ih]
    simp only [List.foldl_cons, List.foldl_nil, Finset.sum_range_succ]
    by_cases h : s.nodeIdAt k = nId
    · simp [h, nodeStat.Add]
    · simp [h]

theorem ComputeNodeStat_eq_sum (s : Splitter) (nId : Int) :
    s.ComputeNodeStat nId nodeStat.zero
    = ⟨∑ i in Finset.range s.m_nodeIds.length,
          (if s.nodeIdAt i = nId then (s.gdAt i).grad else 0),
       ∑ i in Finset.range s.m_nodeIds.length,
          (if s.nodeIdAt i = nId then (s.gdAt i).hess else 0)⟩ :=
  ComputeNodeStat_loop s nId s.m_nodeIds.length

/-- C4: an instance i assigned to the parent that occurs at most once in the split column
is assigned to the right child when it occurs there with value >= threshold, to the left
child when it occurs with value < threshold, and to the left child when it does not
occur. -/
theorem UpdateNodeIdForSparseData_partition (s : Splitter) (sp : SplitPoint)
    (parentNodeId leftNodeId rightNodeId : Int) (i : Nat)
    (hi : s.m_nodeIds.get? i = some parentNodeId)
    (honce : ((s.columnOf sp.m_nFeatureId).filter (fun e => e.id = i)).length ≤ 1) :
    (∀ e ∈ s.columnOf sp.m_nFeatureId, e.id = i → e.featureValue ≥ sp.m_fSplitValue →
      (s.UpdateNodeIdForSparseData sp parentNodeId leftNodeId rightNodeId).m_nodeIds.get? i
        = some rightNodeId) ∧
    (∀ e ∈ s.columnOf sp.m_nFeatureId, e.id = i → e.featureValue < sp.m_fSplitValue →
      (s.UpdateNodeIdForSparseData sp parentNodeId leftNodeId rightNodeId).m_nodeIds.get? i
        = some leftNodeId) ∧
    ((∀ e ∈ s.columnOf sp.m_nFeatureId, e.id ≠ i) →
      (s.UpdateNodeIdForSparseData sp parentNodeId leftNodeId rightNodeId).m_nodeIds.get? i
        = some leftNodeId) := by
  have hlt : i < s.m_nodeIds.length := by
    rw [List.get?_eq_getElem?] at hi
    exact (List.getElem?_eq_some_iff.mp hi).1
  have hx : s.m_nodeIds.getD i (-1) = parentNodeId := by
    rw [List.get?_eq_getElem?] at hi
    simp [List.getD_eq_getElem?_getD, hi]
  have hlen := UpdateNodeIdForSparseData_length s sp parentNodeId leftNodeId rightNodeId
  have hfin := UpdateNodeIdForSparseData_at s sp parentNodeId leftNodeId rightNodeId i hlt
  rw [hx] at hfin
  have hget := getD_lt_get_some
    (s.UpdateNodeIdForSparseData sp parentNodeId leftNodeId rightNodeId).m_nodeIds i
    (by rw [hlen]; exact hlt)
  rw [hget, hfin]
  cases hocc : (s.columnOf sp.m_nFeatureId).filter (fun e => e.id = i) with
  | nil =>
    have hno : ∀ e ∈ s.columnOf sp.m_nFeatureId, e.id ≠ i := by
      intro e he hid
      have : e ∈ (s.columnOf sp.m_nFeatureId).filter (fun e => e.id = i) := by
        simp [List.mem_filter, he, hid]
      rw [hocc] at this
      simp at this
    refine ⟨fun e he hid _ => absurd hid (hno e he), fun e he hid _ => absurd hid (hno e he), ?_⟩
    intro _
    simp [UpdateNodeIdRestAt]
  | cons e0 occ =>
    rw [hocc] at honce
    have hnil : occ = [] := by
      cases occ with
      | nil => rfl
      | cons a t => simp at honce
    subst hnil
    have hmem : ∀ e ∈ s.columnOf sp.m_nFeatureId, e.id = i → e = e0 := by
      intro e he hid
      have : e ∈ (s.columnOf sp.m_nFeatureId).filter (fun e => e.id = i) := by
        simp [List.mem_filter, he, hid]
      rw [hocc] at this
      simpa using this
    have he0 : e0 ∈ s.columnOf sp.m_nFeatureId ∧ e0.id = i := by
      have : e0 ∈ (s.columnOf sp.m_nFeatureId).filter (fun e => e.id = i) := by
        rw [hocc]; simp
      simpa [List.mem_filter] using this
    simp only [List.foldl_cons, List.foldl_nil]
    refine ⟨?_, ?_, ?_⟩
    · intro e he hid hge
      rw [hmem e he hid] at hge
      simp [UpdateNodeIdAt, UpdateNodeIdRestAt, hge]
    · intro e he hid hlt2
      rw [hmem e he hid] at hlt2
      have : ¬ e0.featureValue ≥ sp.m_fSplitValue := not_le.mpr hlt2
      simp [UpdateNodeIdAt, UpdateNodeIdRestAt, this]
    · intro hno
      exact absurd he0.2 (hno e0 he0.1)

/-- Witness of C4: three instances of node 0, the split column holds instance 0 with value 1
and instance 2 with value 5, the threshold is 3; instance 2 is taken. -/
theorem UpdateNodeIdForSparseData_partition_witness :
    (∀ e ∈ (⟨[[⟨0, 1⟩, ⟨2, 5⟩]], [0, 0, 0], [], [], [], 1, 0⟩ : Splitter).columnOf 0,
      e.id = 2 → e.featureValue ≥ 3 →
      ((⟨[[⟨0, 1⟩, ⟨2, 5⟩]], [0, 0, 0], [], [], [], 1, 0⟩ : Splitter).UpdateNodeIdForSparseData
        ⟨0, 3, 0⟩ 0 1 2).m_nodeIds.get? 2 = some 2) ∧
    (∀ e ∈ (⟨[[⟨0, 1⟩, ⟨2, 5⟩]], [0, 0, 0], [], [], [], 1, 0⟩ : Splitter).columnOf 0,
      e.id = 2 → e.featureValue < 3 →
      ((⟨[[⟨0, 1⟩, ⟨2, 5⟩]], [0, 0, 0], [], [], [], 1, 0⟩ : Splitter).UpdateNodeIdForSparseData
        ⟨0, 3, 0⟩ 0 1 2).m_nodeIds.get? 2 = some 1) ∧
    ((∀ e ∈ (⟨[[⟨0, 1⟩, ⟨2, 5⟩]], [0, 0, 0], [], [], [], 1, 0⟩ : Splitter).columnOf 0,
      e.id ≠ 2) →
      ((⟨[[⟨0, 1⟩, ⟨2, 5⟩]], [0, 0, 0], [], [], [], 1, 0⟩ : Splitter).UpdateNodeIdForSparseData
        ⟨0, 3, 0⟩ 0 1 2).m_nodeIds.get? 2 = some 1) :=
  UpdateNodeIdForSparseData_partition ⟨[[⟨0, 1⟩, ⟨2, 5⟩]], [0, 0, 0], [], [], [], 1, 0⟩
    ⟨0, 3, 0⟩ 0 1 2 2 rfl (by simp [columnOf])

/-- C5: when both child ids differ from the parent id, no entry of m_nodeIds equals the
parent id after UpdateNodeIdForSparseData, whatever the assignment array, the split point
and the columns (instances absent from the split column or repeated in it included). -/
theorem UpdateNodeIdForSparseData_no_parent (s : Splitter) (sp : SplitPoint)
    (parentNodeId leftNodeId rightNodeId : Int)
    (hl : leftNodeId ≠ parentNodeId) (hr : rightNodeId ≠ parentNodeId) :
    ∀ x ∈ (s.UpdateNodeIdForSparseData sp parentNodeId leftNodeId rightNodeId).m_nodeIds,
      x ≠ parentNodeId := by
  intro x hx
  obtain ⟨i, hi, hxi⟩ := List.getElem_of_mem hx
  have hlen := UpdateNodeIdForSparseData_length s sp parentNodeId leftNodeId rightNodeId
  have hlt : i < s.m_nodeIds.length := by rw [← hlen]; exact hi
  have hgd : (s.UpdateNodeIdForSparseData sp parentNodeId leftNodeId rightNodeId).m_nodeIds.getD
      i (-1) = x := by
    simp [List.getD_eq_getElem?_getD, List.getElem?_eq_getElem hi, hxi]
  by_cases hp : s.m_nodeIds.getD i (-1) = parentNodeId
  · rcases UpdateNodeIdForSparseData_child s sp parentNodeId leftNodeId rightNodeId hl hr i hlt hp
      with h | h
    · rw [← hgd, h]; exact hl
    · rw [← hgd, h]; exact hr
  · rw [← hgd, UpdateNodeIdForSparseData_other s sp parentNodeId leftNodeId rightNodeId i hlt hp]
    exact hp

/-- Witness of C5: instance 0 occurs twice in the split column, instance 1 is absent from
it, instance 3 belongs to another node. -/
theorem UpdateNodeIdForSparseData_no_parent_witness :
    (0 : Int) ∉ ((⟨[[⟨0, 1⟩, ⟨0, 5⟩, ⟨2, 4⟩]], [0, 0, 0, 7], [], [], [], 1, 0⟩ :
      Splitter).UpdateNodeIdForSparseData ⟨0, 3, 0⟩ 0 1 2).m_nodeIds :=
  fun h => UpdateNodeIdForSparseData_no_parent
    ⟨[[⟨0, 1⟩, ⟨0, 5⟩, ⟨2, 4⟩]], [0, 0, 0, 7], [], [], [], 1, 0⟩
    ⟨0, 3, 0⟩ 0 1 2 (by decide) (by decide) 0 h rfl

/-- C6: when no instance bears the left or the right id and the three ids are pairwise
distinct, the statistics ComputeNodeStat accumulates from zero for the left id plus those
for the right id after UpdateNodeIdForSparseData equal those it accumulates for the parent
id before the call, in sum_gd and in sum_hess. -/
theorem UpdateNodeIdForSparseData_conserves (s : Splitter) (sp : SplitPoint)
    (parentNodeId leftNodeId rightNodeId : Int)
    (hnl : ∀ x ∈ s.m_nodeIds, x ≠ leftNodeId) (hnr : ∀ x ∈ s.m_nodeIds, x ≠ rightNodeId)
    (hlr : leftNodeId ≠ rightNodeId) (hl : leftNodeId ≠ parentNodeId)
    (hr : rightNodeId ≠ parentNodeId) :
    ((s.UpdateNodeIdForSparseData sp parentNodeId leftNodeId rightNodeId).ComputeNodeStat
        leftNodeId nodeStat.zero).sum_gd +
      ((s.UpdateNodeIdForSparseData sp parentNodeId leftNodeId rightNodeId).ComputeNodeStat
        rightNodeId nodeStat.zero).sum_gd
      = (s.ComputeNodeStat parentNodeId nodeStat.zero).sum_gd ∧
    ((s.UpdateNodeIdForSparseData sp parentNodeId leftNodeId rightNodeId).ComputeNodeStat
        leftNodeId nodeStat.zero).sum_hess +
      ((s.UpdateNodeIdForSparseData sp parentNodeId leftNodeId rightNodeId).ComputeNodeStat
        rightNodeId nodeStat.zero).sum_hess
      = (s.ComputeNodeStat parentNodeId nodeStat.zero).sum_hess := by
  have hlen := UpdateNodeIdForSparseData_length s sp parentNodeId leftNodeId rightNodeId
  have hgd : ∀ i, (s.UpdateNodeIdForSparseData sp parentNodeId leftNodeId rightNodeId).gdAt i
      = s.gdAt i := fun _ => rfl
  have key : ∀ (w : Nat → ℚ) (i : Nat), i ∈ Finset.range s.m_nodeIds.length →
      (if (s.UpdateNodeIdForSparseData sp parentNodeId leftNodeId rightNodeId).nodeIdAt i
          = leftNodeId then w i else 0) +
      (if (s.UpdateNodeIdForSparseData sp parentNodeId leftNodeId rightNodeId).nodeIdAt i
          = rightNodeId then w i else 0)
      = (if s.nodeIdAt i = parentNodeId then w i else 0) := by
    intro w i hi
    have hlt : i < s.m_nodeIds.length := Finset.mem_range.mp hi
    have hmem : s.m_nodeIds.getD i (-1) ∈ s.m_nodeIds := by
      simp [List.getD_eq_getElem?_getD, List.getElem?_eq_getElem hlt]
    unfold nodeIdAt
    by_cases hp : s.m_nodeIds.getD i (-1) = parentNodeId
    · rcases UpdateNodeIdForSparseData_child s sp parentNodeId leftNodeId rightNodeId hl hr i
        hlt hp with h | h
      · rw [h, if_pos rfl, if_neg hlr, if_pos hp, add_zero]
      · rw [h, if_neg (Ne.symm hlr), if_pos rfl, if_pos hp, zero_add]
    · rw [UpdateNodeIdForSparseData_other s sp parentNodeId leftNodeId rightNodeId i hlt hp,
        if_neg (hnl _ hmem), if_neg (hnr _ hmem), if_neg hp, add_zero]
  rw [ComputeNodeStat_eq_sum, ComputeNodeStat_eq_sum, ComputeNodeStat_eq_sum, hlen]
  dsimp only
  constructor
  · rw [← Finset.sum_add_distrib]
    exact Finset.sum_congr rfl (fun i hi => by
      rw [hgd]; exact key (fun i => (s.gdAt i).grad) i hi)
  · rw [← Finset.sum_add_distrib]
    exact Finset.sum_congr rfl (fun i hi => by
      rw [hgd]; exact key (fun i => (s.gdAt i).hess) i hi)

/-- Witness of C6: four instances, three of node 0 and one of node 7; node 0 is split into
nodes 1 and 2 on the first feature at threshold 3. -/
theorem UpdateNodeIdForSparseData_conserves_witness :
    (((⟨[[⟨0, 1⟩, ⟨2, 5⟩]], [0, 0, 0, 7], [⟨1, 1⟩, ⟨2, 1⟩, ⟨3, 1⟩, ⟨4, 1⟩], [], [], 1, 0⟩ :
        Splitter).UpdateNodeIdForSparseData ⟨0, 3, 0⟩ 0 1 2).ComputeNodeStat 1 nodeStat.zero).sum_gd +
      (((⟨[[⟨0, 1⟩, ⟨2, 5⟩]], [0, 0, 0, 7], [⟨1, 1⟩, ⟨2, 1⟩, ⟨3, 1⟩, ⟨4, 1⟩], [], [], 1, 0⟩ :
        Splitter).UpdateNodeIdForSparseData ⟨0, 3, 0⟩ 0 1 2).ComputeNodeStat 2 nodeStat.zero).sum_gd
      = ((⟨[[⟨0, 1⟩, ⟨2, 5⟩]], [0, 0, 0, 7], [⟨1, 1⟩, ⟨2, 1⟩, ⟨3, 1⟩, ⟨4, 1⟩], [], [], 1, 0⟩ :
        Splitter).ComputeNodeStat 0 nodeStat.zero).sum_gd ∧
    (((⟨[[⟨0, 1⟩, ⟨2, 5⟩]], [0, 0, 0, 7], [⟨1, 1⟩, ⟨2, 1⟩, ⟨3, 1⟩, ⟨4, 1⟩], [], [], 1, 0⟩ :
        Splitter).UpdateNodeIdForSparseData ⟨0, 3, 0⟩ 0 1 2).ComputeNodeStat 1 nodeStat.zero).sum_hess +
      (((⟨[[⟨0, 1⟩, ⟨2, 5⟩]], [0, 0, 0, 7], [⟨1, 1⟩, ⟨2, 1⟩, ⟨3, 1⟩, ⟨4, 1⟩], [], [], 1, 0⟩ :
        Splitter).UpdateNodeIdForSparseData ⟨0, 3, 0⟩ 0 1 2).ComputeNodeStat 2 nodeStat.zero).sum_hess
      = ((⟨[[⟨0, 1⟩, ⟨2, 5⟩]], [0, 0, 0, 7], [⟨1, 1⟩, ⟨2, 1⟩, ⟨3, 1⟩, ⟨4, 1⟩], [], [], 1, 0⟩ :
        Splitter).ComputeNodeStat 0 nodeStat.zero).sum_hess :=
  UpdateNodeIdForSparseData_conserves
    ⟨[[⟨0, 1⟩, ⟨2, 5⟩]], [0, 0, 0, 7], [⟨1, 1⟩, ⟨2, 1⟩, ⟨3, 1⟩, ⟨4, 1⟩], [], [], 1, 0⟩
    ⟨0, 3, 0⟩ 0 1 2 (by decide) (by decide) (by decide) (by decide) (by decide)

end Splitter

/-! ## Split search -/

/-- Invariant-carrying run of a fallible loop: when every step succeeds and carries the
invariant from the entries seen so far to one more entry, the loop succeeds and the
invariant holds for all entries. -/
theorem foldlM_prefix_invariant {σ α : Type} (f : σ → α → Option σ)
    (I : List α → σ → Prop)
    (hstep : ∀ pre a st, I pre st → ∃ st2, f st a = some st2 ∧ I (pre ++ [a]) st2) :
    ∀ (l pre : List α) (st : σ), I pre st →
      ∃ st2, l.foldlM f st = some st2 ∧ I (pre ++ l) st2 := by
  intro l
  induction l with
  | nil => intro pre st h; exact ⟨st, rfl, by simpa using h⟩
  | cons a l ih =>
    intro pre st h
    obtain ⟨st1, h1, h2⟩ := hstep pre a st h
    obtain ⟨st2, h3, h4⟩ := ih (pre ++ [a]) st1 h2
    refine ⟨st2, ?_, by simpa using h4⟩
    simp only [List.foldlM_cons, h1]
    exact h3

/-- Writing back the value just read leaves a vector unchanged. -/
theorem set_getD_self {α : Type} (l : List α) (i : Nat) (d : α) : l.set i (l.getD i d) = l := by
  apply List.ext_getElem?
  intro j
  by_cases hij : i = j
  · subst hij
    by_cases hi : i < l.length
    · simp [List.getElem?_set, hi, List.getD_eq_getElem?_getD, List.getElem?_eq_getElem hi]
    · simp [List.getElem?_set, hi]
      omega
  · simp [List.getElem?_set, hij]

namespace Splitter

theorem CalGain_Subtract_splitGain (s : Splitter) (parent r : nodeStat) :
    s.CalGain parent r (nodeStat.Subtract parent r) = some (s.splitGain parent r) :=
  CalGain_Subtract s parent r

theorem UpdateSplitPoint_fst (sp : SplitPoint) (g v : ℚ) (f : Int) :
    (sp.UpdateSplitPoint g v f).1 = if g > sp.m_fGain then ⟨g, v, f⟩ else sp := by
  unfold SplitPoint.UpdateSplitPoint
  split <;> rfl

theorem UpdateSplitPoint_snd (sp : SplitPoint) (g v : ℚ) (f : Int) :
    ((sp.UpdateSplitPoint g v f).2 = true) ↔ g > sp.m_fGain := by
  unfold SplitPoint.UpdateSplitPoint
  split <;> simp [*]

/-- The try block of BestSplitValue on a candidate: CalGain is called and its result is
offered to the local best split. -/
theorem BestSplitValueTry_candidate (s : Splitter) (f : Nat) (parent : nodeStat)
    (st : BestSplitLocals) (v : ℚ) (h : BestSplitCandidate parent st v) :
    BestSplitValueTry s f parent st v = some
      { st with
        l_child := nodeStat.Subtract parent st.r_child,
        bestSplit := (st.bestSplit.UpdateSplitPoint (s.splitGain parent st.r_child)
          ((v + st.last_fvalue) * (1 / 2)) f).1,
        calls := st.calls ++ [⟨parent, st.r_child, nodeStat.Subtract parent st.r_child⟩] } := by
  unfold BestSplitValueTry
  dsimp only
  rw [if_pos h.1, if_pos h.2, CalGain_Subtract_splitGain]
  rfl

/-- The try block of BestSplitValue on an entry that is no candidate: at most l_child is
written. -/
theorem BestSplitValueTry_not_candidate (s : Splitter) (f : Nat) (parent : nodeStat)
    (st : BestSplitLocals) (v : ℚ) (h : ¬ BestSplitCandidate parent st v) :
    ∃ l, BestSplitValueTry s f parent st v = some { st with l_child := l } := by
  unfold BestSplitValueTry
  dsimp only
  by_cases h1 : |v - st.last_fvalue| > 2 / 1000000 ∧ st.r_child.sum_hess ≥ 1
  · have h2 : ¬ (nodeStat.Subtract parent st.r_child).sum_hess ≥ 1 := fun h2 => h ⟨h1, h2⟩
    rw [if_pos h1, if_neg h2]
    exact ⟨_, rfl⟩
  · rw [if_neg h1]
    exact ⟨st.l_child, rfl⟩

/-- The try block of FeaFinderAllNode on a candidate that improves the best split of its
buffer position. -/
theorem FeaFinderAllNodeTry_improved (s : Splitter) (f : Nat) (st : AllNodeLocals) (b : Nat)
    (v : ℚ) (h : AllNodeCandidate s st b v)
    (hg : s.splitGain (s.m_nodeStat.getD b nodeStat.zero) (st.tempStat.getD b nodeStat.zero)
      > (st.vBest.getD b ⟨0, 0, 0⟩).m_fGain) :
    FeaFinderAllNodeTry s f st b v = some
      { st with
        vBest := st.vBest.set b
          ⟨s.splitGain (s.m_nodeStat.getD b nodeStat.zero) (st.tempStat.getD b nodeStat.zero),
            (v + st.vLastValue.getD b 0) * (1 / 2), f⟩,
        lchildStat := st.lchildStat.set b (nodeStat.Subtract
          (s.m_nodeStat.getD b nodeStat.zero) (st.tempStat.getD b nodeStat.zero)),
        rchildStat := st.rchildStat.set b (st.tempStat.getD b nodeStat.zero),
        calls := st.calls ++ [⟨s.m_nodeStat.getD b nodeStat.zero,
          st.tempStat.getD b nodeStat.zero,
          nodeStat.Subtract (s.m_nodeStat.getD b nodeStat.zero)
            (st.tempStat.getD b nodeStat.zero)⟩] } := by
  unfold FeaFinderAllNodeTry
  dsimp only
  rw [if_pos h.1, if_pos h.2, CalGain_Subtract_splitGain]
  simp only [Option.map_some', UpdateSplitPoint_snd, UpdateSplitPoint_fst, if_pos hg]

/-- The try block of FeaFinderAllNode on a candidate that does not improve the best split:
only the record of calls grows. -/
theorem FeaFinderAllNodeTry_not_improved (s : Splitter) (f : Nat) (st : AllNodeLocals) (b : Nat)
    (v : ℚ) (h : AllNodeCandidate s st b v)
    (hg : ¬ s.splitGain (s.m_nodeStat.getD b nodeStat.zero) (st.tempStat.getD b nodeStat.zero)
      > (st.vBest.getD b ⟨0, 0, 0⟩).m_fGain) :
    FeaFinderAllNodeTry s f st b v = some
      { st with
        calls := st.calls ++ [⟨s.m_nodeStat.getD b nodeStat.zero,
          st.tempStat.getD b nodeStat.zero,
          nodeStat.Subtract (s.m_nodeStat.getD b nodeStat.zero)
            (st.tempStat.getD b nodeStat.zero)⟩] } := by
  unfold FeaFinderAllNodeTry
  dsimp only
  rw [if_pos h.1, if_pos h.2, CalGain_Subtract_splitGain]
  simp only [Option.map_some', UpdateSplitPoint_snd, UpdateSplitPoint_fst, if_neg hg,
    set_getD_self]

/-- The try block of FeaFinderAllNode on an entry that is no candidate changes nothing. -/
theorem FeaFinderAllNodeTry_not_candidate (s : Splitter) (f : Nat) (st : AllNodeLocals)
    (b : Nat) (v : ℚ) (h : ¬ AllNodeCandidate s st b v) :
    FeaFinderAllNodeTry s f st b v = some st := by
  unfold FeaFinderAllNodeTry
  dsimp only
  by_cases h1 : |v - st.vLastValue.getD b 0| > 2 / 1000000 ∧
      (st.tempStat.getD b nodeStat.zero).sum_hess ≥ 1
  · have h2 : ¬ (nodeStat.Subtract (s.m_nodeStat.getD b nodeStat.zero)
        (st.tempStat.getD b nodeStat.zero)).sum_hess ≥ 1 := fun h2 => h ⟨h1, h2⟩
    rw [if_pos h1, if_neg h2]
  · rw [if_neg h1]

end Splitter

namespace Splitter

theorem FeaFinderAllNodeTry_MinChildOK (s : Splitter) (f : Nat) (vBest0 : List SplitPoint)
    (st : AllNodeLocals) (b : Nat) (v : ℚ) (h : MinChildOK vBest0 st) :
    ∃ st1, FeaFinderAllNodeTry s f st b v = some st1 ∧ MinChildOK vBest0 st1 ∧
      st1.tempStat = st.tempStat ∧ st1.vLastValue = st.vLastValue ∧ st1.map = st.map := by
  by_cases hc : AllNodeCandidate s st b v
  · by_cases hg : s.splitGain (s.m_nodeStat.getD b nodeStat.zero)
        (st.tempStat.getD b nodeStat.zero) > (st.vBest.getD b ⟨0, 0, 0⟩).m_fGain
    · refine ⟨_, FeaFinderAllNodeTry_improved s f st b v hc hg, ?_, rfl, rfl, rfl⟩
      intro p hp
      dsimp only at hp ⊢
      by_cases hpb : b = p
      · subst hpb
        constructor
        · intro x hx
          rw [List.get?_eq_getElem?, List.getElem?_set] at hx
          simp only [if_true] at hx
          split at hx
          · cases hx; exact hc.1.2
          · cases hx
        · intro x hx
          rw [List.get?_eq_getElem?, List.getElem?_set] at hx
          simp only [if_true] at hx
          split at hx
          · cases hx; exact hc.2
          · cases hx
      · simp only [List.get?_eq_getElem?, List.getElem?_set_ne hpb] at hp ⊢
        simpa only [List.get?_eq_getElem?] using
          h p (by simpa only [List.get?_eq_getElem?] using hp)
    · exact ⟨_, FeaFinderAllNodeTry_not_improved s f st b v hc hg, h, rfl, rfl, rfl⟩
  · exact ⟨_, FeaFinderAllNodeTry_not_candidate s f st b v hc, h, rfl, rfl, rfl⟩

theorem FeaFinderAllNodeStep_MinChildOK (s : Splitter) (f : Nat) (vBest0 : List SplitPoint)
    (st : AllNodeLocals) (e : key_value) (h : MinChildOK vBest0 st) :
    ∃ st2, FeaFinderAllNodeStep s f st e = some st2 ∧ MinChildOK vBest0 st2 := by
  unfold FeaFinderAllNodeStep
  dsimp only
  split
  · exact ⟨st, rfl, h⟩
  · split
    · exact ⟨_, rfl, h⟩
    · obtain ⟨st1, h1, h2, _⟩ := FeaFinderAllNodeTry_MinChildOK s f vBest0
        { st with map := (mapIndex st.map (s.nodeIdAt e.id)).1 }
        (mapIndex st.map (s.nodeIdAt e.id)).2 e.featureValue h
      rw [h1]
      exact ⟨_, rfl, h2⟩

theorem FeaFinderAllNodeFeature_MinChildOK (s : Splitter) (vBest0 : List SplitPoint)
    (st : AllNodeLocals) (f : Nat) (h : MinChildOK vBest0 st) :
    ∃ st2, FeaFinderAllNodeFeature s st f = some st2 ∧ MinChildOK vBest0 st2 := by
  unfold FeaFinderAllNodeFeature
  have := foldlM_prefix_invariant (FeaFinderAllNodeStep s f) (fun _ st => MinChildOK vBest0 st)
    (fun _ a st hst => FeaFinderAllNodeStep_MinChildOK s f vBest0 st a hst)
    (s.m_vvFeaInxPair.getD f []) []
    { st with tempStat := List.replicate st.map.length nodeStat.zero,
              vLastValue := List.replicate st.map.length 0 } h
  exact this

theorem BestSplitValueStep_calls (s : Splitter) (f : Nat) (parent : nodeStat) (n : Int)
    (st : BestSplitLocals) (e : key_value)
    (h : ∀ c ∈ st.calls, c.r_child.sum_hess ≥ 1 ∧ c.l_child.sum_hess ≥ 1) :
    ∃ st2, BestSplitValueStep s f parent n st e = some st2 ∧
      ∀ c ∈ st2.calls, c.r_child.sum_hess ≥ 1 ∧ c.l_child.sum_hess ≥ 1 := by
  unfold BestSplitValueStep
  dsimp only
  split
  · exact ⟨st, rfl, h⟩
  · split
    · exact ⟨_, rfl, h⟩
    · by_cases hc : BestSplitCandidate parent st e.featureValue
      · rw [BestSplitValueTry_candidate s f parent st e.featureValue hc]
        refine ⟨_, rfl, ?_⟩
        intro c hcm
        simp only [Option.map_some', List.mem_append, List.mem_singleton] at hcm
        rcases hcm with hcm | hcm
        · exact h c hcm
        · subst hcm
          exact ⟨hc.1.2, hc.2⟩
      · obtain ⟨l, hl⟩ := BestSplitValueTry_not_candidate s f parent st e.featureValue hc
        rw [hl]
        exact ⟨_, rfl, h⟩

/-- C3: FeaFinderAllNode always completes, and at every buffer position p whose vBest[p]
was updated during the run (its content after the run differs from the one before)
the recorded rchildStat[p].sum_hess and lchildStat[p].sum_hess are at least 1; likewise
BestSplitValue completes and every candidate it passes to UpdateSplitPoint has
r_child.sum_hess >= 1 and l_child.sum_hess >= 1. -/
theorem min_child_weight_respected (s : Splitter) (fresh : SplitPoint) :
    (∀ (vBest : List SplitPoint) (rchildStat lchildStat : List nodeStat),
      ∃ out, s.FeaFinderAllNode vBest rchildStat lchildStat = some out ∧
        ∀ p, out.vBest.get? p ≠ vBest.get? p →
          (∀ x, out.rchildStat.get? p = some x → x.sum_hess ≥ 1) ∧
          (∀ x, out.lchildStat.get? p = some x → x.sum_hess ≥ 1)) ∧
    (∀ (nFeatureId : Nat) (parent : nodeStat) (nodeId : Int),
      ∃ st, s.BestSplitValueLoop fresh nFeatureId parent nodeId = some st ∧
        ∀ c ∈ st.calls, c.r_child.sum_hess ≥ 1 ∧ c.l_child.sum_hess ≥ 1) := by
  constructor
  · intro vBest rchildStat lchildStat
    have := foldlM_prefix_invariant (FeaFinderAllNodeFeature s)
      (fun _ st => MinChildOK vBest st)
      (fun _ a st hst => FeaFinderAllNodeFeature_MinChildOK s vBest st a hst)
      (List.range s.m_vvFeaInxPair.length) []
      ⟨[], [], vBest, rchildStat, lchildStat, s.mapNodeIdToBufferPos, []⟩
      (fun p hp => absurd rfl hp)
    exact this
  · intro nFeatureId parent nodeId
    have := foldlM_prefix_invariant (BestSplitValueStep s nFeatureId parent nodeId)
      (fun _ st => ∀ c ∈ st.calls, c.r_child.sum_hess ≥ 1 ∧ c.l_child.sum_hess ≥ 1)
      (fun _ a st hst => BestSplitValueStep_calls s nFeatureId parent nodeId st a hst)
      (s.m_vvFeaInxPair.getD nFeatureId []) []
      ⟨true, nodeStat.zero, nodeStat.zero, 0, fresh, []⟩
      (fun c hc => by simp at hc)
    exact this

end Splitter

/-! ## Single-node search returns the maximum gain -/

theorem get_append_singleton_old {α : Type} (pre : List α) (a e : α) (i : Nat)
    (h : pre.get? i = some e) :
    (pre ++ [a]).get? i = some e ∧ (pre ++ [a]).take i = pre.take i := by
  rw [List.get?_eq_getElem?] at h
  have hi : i < pre.length := (List.getElem?_eq_some_iff.mp h).1
  constructor
  · rw [List.get?_eq_getElem?, List.getElem?_append_left hi]; exact h
  · rw [List.take_append_of_le_length (Nat.le_of_lt hi)]

theorem get_append_singleton_cases {α : Type} (pre : List α) (a e : α) (i : Nat)
    (h : (pre ++ [a]).get? i = some e) :
    (pre.get? i = some e ∧ (pre ++ [a]).take i = pre.take i) ∨
    (i = pre.length ∧ e = a ∧ (pre ++ [a]).take i = pre) := by
  rw [List.get?_eq_getElem?] at h
  by_cases hi : i < pre.length
  · left
    rw [List.getElem?_append_left hi] at h
    exact ⟨by rw [List.get?_eq_getElem?]; exact h,
      by rw [List.take_append_of_le_length (Nat.le_of_lt hi)]⟩
  · right
    have hlen : i < (pre ++ [a]).length := (List.getElem?_eq_some_iff.mp h).1
    simp only [List.length_append, List.length_singleton] at hlen
    have hil : i = pre.length := by omega
    subst hil
    refine ⟨rfl, ?_, by simp⟩
    simp at h
    exact h.symm

namespace Splitter

theorem ownedBy_append_owned (s : Splitter) (n : Int) (pre : List key_value) (a : key_value)
    (h : s.nodeIdAt a.id = n) : s.ownedBy n (pre ++ [a]) = s.ownedBy n pre ++ [a] := by
  simp [ownedBy, List.filter_append, h]

theorem ownedBy_append_other (s : Splitter) (n : Int) (pre : List key_value) (a : key_value)
    (h : s.nodeIdAt a.id ≠ n) : s.ownedBy n (pre ++ [a]) = s.ownedBy n pre := by
  simp [ownedBy, List.filter_append, h]

theorem accStat_append (s : Splitter) (l : List key_value) (a : key_value) :
    s.accStat (l ++ [a]) = (s.accStat l).Add (s.gdAt a.id).grad (s.gdAt a.id).hess := by
  simp [accStat, List.foldl_append]

/-- One step of the scan of BestSplitValue keeps the scan invariant. -/
theorem BestSplitValueStep_ScanInv (s : Splitter) (f : Nat) (parent : nodeStat) (n : Int)
    (fresh : SplitPoint) (pre : List key_value) (a : key_value) (st : BestSplitLocals)
    (h : s.ScanInv n parent fresh pre st) :
    ∃ st2, BestSplitValueStep s f parent n st a = some st2 ∧
      s.ScanInv n parent fresh (pre ++ [a]) st2 := by
  obtain ⟨hF, hR, hL, hB1, hB2, hB3⟩ := h
  have hB3mono : st.bestSplit = fresh ∨ ∃ i e, (pre ++ [a]).get? i = some e ∧
      s.CandidateAfter n parent ((pre ++ [a]).take i) e ∧
      st.bestSplit.m_fGain = s.splitGain parent (s.accStat (s.ownedBy n ((pre ++ [a]).take i))) := by
    rcases hB3 with h | ⟨i, e, h1, h2, h3⟩
    · exact Or.inl h
    · obtain ⟨g1, g2⟩ := get_append_singleton_old pre a e i h1
      exact Or.inr ⟨i, e, g1, by rw [g2]; exact h2, by rw [g2]; exact h3⟩
  unfold BestSplitValueStep
  dsimp only
  by_cases hn : s.nodeIdAt a.id = n
  · rw [if_neg (not_not.mpr hn)]
    have hown := ownedBy_append_owned s n pre a hn
    by_cases hf : st.bFirst = true
    · -- first entry of the node
      have hnil : s.ownedBy n pre = [] := hF.mp hf
      rw [if_pos hf]
      refine ⟨_, rfl, ?_, ?_, ?_, hB1, ?_, hB3mono⟩
      · simp [hown]
      · dsimp only; rw [hown, accStat_append, hR]
      · intro prev hprev
        rw [hown, List.getLast?_append] at hprev
        simp at hprev
        rw [← hprev]
      · intro i e hie hc
        rcases get_append_singleton_cases pre a e i hie with ⟨g1, g2⟩ | ⟨_, _, g2⟩
        · rw [g2] at hc ⊢; exact hB2 i e g1 hc
        · rw [g2] at hc
          obtain ⟨_, prev, hprev, _⟩ := hc
          rw [hnil] at hprev
          simp at hprev
    · -- a later entry of the node
      rw [if_neg hf]
      have hne : s.ownedBy n pre ≠ [] := fun hnil => hf (hF.mpr hnil)
      obtain ⟨prev, hprev⟩ : ∃ prev, (s.ownedBy n pre).getLast? = some prev := by
        cases hgl : (s.ownedBy n pre).getLast? with
        | none => exact absurd (List.getLast?_eq_none_iff.mp hgl) hne
        | some x => exact ⟨x, rfl⟩
      have hlast := hL prev hprev
      have hiff : BestSplitCandidate parent st a.featureValue ↔
          s.CandidateAfter n parent pre a := by
        unfold BestSplitCandidate CandidateAfter
        rw [hR, hlast]
        constructor
        · rintro ⟨⟨h1, h2⟩, h3⟩
          exact ⟨hn, prev, hprev, h1, h2, h3⟩
        · rintro ⟨_, prev2, hprev2, h1, h2, h3⟩
          rw [hprev] at hprev2
          cases hprev2
          exact ⟨⟨h1, h2⟩, h3⟩
      by_cases hc : BestSplitCandidate parent st a.featureValue
      · rw [BestSplitValueTry_candidate s f parent st a.featureValue hc]
        simp only [Option.map_some']
        refine ⟨_, rfl, ?_, ?_, ?_, ?_, ?_, ?_⟩
        · simp [hown, hf]
        · dsimp only; rw [hown, accStat_append, hR]
        · intro p hp
          rw [hown, List.getLast?_append] at hp
          simp at hp
          rw [← hp]
        · dsimp only
          rw [UpdateSplitPoint_fst]
          split
          · rename_i hg; exact le_trans hB1 (le_of_lt hg)
          · exact hB1
        · intro i e hie hce
          dsimp only
          rw [UpdateSplitPoint_fst]
          rcases get_append_singleton_cases pre a e i hie with ⟨g1, g2⟩ | ⟨_, _, g2⟩
          · rw [g2] at hce ⊢
            have := hB2 i e g1 hce
            split
            · rename_i hg; exact le_trans this (le_of_lt hg)
            · exact this
          · rw [g2, ← hR]
            split
            · exact le_refl _
            · rename_i hg; exact not_lt.mp hg
        · dsimp only
          rw [UpdateSplitPoint_fst]
          split
          · right
            refine ⟨pre.length, a, by simp, ?_, ?_⟩
            · simp only [List.take_left']
              exact hiff.mp hc
            · simp only [List.take_left']
              rw [hR]
          · exact hB3mono
      · obtain ⟨l, hl⟩ := BestSplitValueTry_not_candidate s f parent st a.featureValue hc
        rw [hl]
        simp only [Option.map_some']
        refine ⟨_, rfl, ?_, ?_, ?_, hB1, ?_, hB3mono⟩
        · simp [hown, hf]
        · dsimp only; rw [hown, accStat_append, hR]
        · intro p hp
          rw [hown, List.getLast?_append] at hp
          simp at hp
          rw [← hp]
        · intro i e hie hce
          rcases get_append_singleton_cases pre a e i hie with ⟨g1, g2⟩ | ⟨_, g3, g2⟩
          · rw [g2] at hce ⊢; exact hB2 i e g1 hce
          · rw [g2] at hce
            subst g3
            exact absurd (hiff.mpr hce) hc
  · rw [if_pos hn]
    have hown := ownedBy_append_other s n pre a hn
    refine ⟨st, rfl, ?_, ?_, ?_, hB1, ?_, hB3mono⟩
    · rw [hown]; exact hF
    · rw [hown]; exact hR
    · rw [hown]; exact hL
    · intro i e hie hce
      rcases get_append_singleton_cases pre a e i hie with ⟨g1, g2⟩ | ⟨_, g3, g2⟩
      · rw [g2] at hce ⊢; exact hB2 i e g1 hce
      · subst g3
        exact absurd hce.1 hn

/-- The scan of BestSplitValue over a whole column completes and establishes the scan
invariant for the column. -/
theorem BestSplitValueLoop_ScanInv (s : Splitter) (fresh : SplitPoint) (f : Nat)
    (parent : nodeStat) (n : Int) :
    ∃ st, s.BestSplitValueLoop fresh f parent n = some st ∧
      s.ScanInv n parent fresh (s.m_vvFeaInxPair.getD f []) st := by
  have h0 : s.ScanInv n parent fresh [] ⟨true, nodeStat.zero, nodeStat.zero, 0, fresh, []⟩ := by
    refine ⟨by simp [ownedBy], by simp [ownedBy, accStat], ?_, le_refl _, ?_, Or.inl rfl⟩
    · intro prev hprev; simp [ownedBy] at hprev
    · intro i e hie; simp at hie
  have := foldlM_prefix_invariant (BestSplitValueStep s f parent n)
    (fun pre st => s.ScanInv n parent fresh pre st)
    (fun pre a st hst => BestSplitValueStep_ScanInv s f parent n fresh pre a st hst)
    (s.m_vvFeaInxPair.getD f []) [] _ h0
  rw [List.nil_append] at this
  exact this

/-- What EfficientFeaFinder has established after the features fs. -/
theorem EfficientFeaFinderStep_max (s : Splitter) (fresh : SplitPoint) (parent : nodeStat)
    (n : Int) (fs : List Nat) (f : Nat) (b : SplitPoint)
    (h1 : fresh.m_fGain ≤ b.m_fGain)
    (h2 : ∀ g ∈ fs, ∀ i, s.ValidCandidate n parent g i →
      s.splitGain parent (s.scannedStat n g i) ≤ b.m_fGain)
    (h3 : b = fresh ∨ ∃ g ∈ fs, ∃ i, s.ValidCandidate n parent g i ∧
      b.m_fGain = s.splitGain parent (s.scannedStat n g i)) :
    ∃ b2, EfficientFeaFinderStep s fresh parent n b f = some b2 ∧
      fresh.m_fGain ≤ b2.m_fGain ∧
      (∀ g ∈ fs ++ [f], ∀ i, s.ValidCandidate n parent g i →
        s.splitGain parent (s.scannedStat n g i) ≤ b2.m_fGain) ∧
      (b2 = fresh ∨ ∃ g ∈ fs ++ [f], ∃ i, s.ValidCandidate n parent g i ∧
        b2.m_fGain = s.splitGain parent (s.scannedStat n g i)) := by
  obtain ⟨st, hst, _, _, _, hB1, hB2, hB3⟩ := BestSplitValueLoop_ScanInv s fresh f parent n
  have hB2v : ∀ i, s.ValidCandidate n parent f i →
      s.splitGain parent (s.scannedStat n f i) ≤ st.bestSplit.m_fGain := by
    rintro i ⟨e, he, hc⟩
    exact hB2 i e he hc
  have h3mono : b = fresh ∨ ∃ g ∈ fs ++ [f], ∃ i, s.ValidCandidate n parent g i ∧
      b.m_fGain = s.splitGain parent (s.scannedStat n g i) := by
    rcases h3 with h | ⟨g, hg, i, hv, he⟩
    · exact Or.inl h
    · exact Or.inr ⟨g, List.mem_append_left _ hg, i, hv, he⟩
  unfold EfficientFeaFinderStep BestSplitValue
  rw [hst]
  simp only [Option.map_some']
  refine ⟨_, rfl, ?_, ?_, ?_⟩
  · rw [UpdateSplitPoint_fst]
    split
    · exact hB1
    · exact h1
  · intro g hg i hv
    rw [UpdateSplitPoint_fst]
    rcases List.mem_append.mp hg with hg | hg
    · have := h2 g hg i hv
      split
      · rename_i hlt; exact le_trans this (le_of_lt hlt)
      · exact this
    · rw [List.mem_singleton] at hg
      subst hg
      have := hB2v i hv
      split
      · exact this
      · rename_i hlt; exact le_trans this (not_lt.mp hlt)
  · rw [UpdateSplitPoint_fst]
    split
    · rename_i hlt
      right
      rcases hB3 with h | ⟨i, e, he, hc, hg⟩
      · rw [h] at hlt
        exact absurd (lt_of_lt_of_le hlt h1) (lt_irrefl _)
      · exact ⟨f, by simp, i, ⟨e, he, hc⟩, hg⟩
    · exact h3mono

/-- A feature without a column has no valid candidate. -/
theorem ValidCandidate_lt (s : Splitter) (n : Int) (parent : nodeStat) (f i : Nat)
    (h : s.ValidCandidate n parent f i) : f < s.m_vvFeaInxPair.length := by
  by_contra hf
  obtain ⟨e, he, _⟩ := h
  have : s.m_vvFeaInxPair.getD f [] = [] := by
    simp [List.getD_eq_getElem?_getD, List.getElem?_eq_none (not_lt.mp hf)]
  rw [this] at he
  simp at he

/-- C2: for every node n and parent statistics, EfficientFeaFinder on a fresh bestSplit
completes and the gain it leaves is the greatest element of the set made of the fresh
split point's sentinel gain and the gains CalGain(parent, R, parent - R) of the valid
candidates of all features; when no feature has a valid candidate bestSplit is left at
its sentinel value. -/
theorem EfficientFeaFinder_max_gain (s : Splitter) (fresh : SplitPoint) (parent : nodeStat)
    (nodeId : Int) :
    ∃ b, s.EfficientFeaFinder fresh fresh parent nodeId = some b ∧
      IsGreatest {g | g = fresh.m_fGain ∨ ∃ f i, s.ValidCandidate nodeId parent f i ∧
        s.CalGain parent (s.scannedStat nodeId f i)
          (nodeStat.Subtract parent (s.scannedStat nodeId f i)) = some g} b.m_fGain ∧
      ((∀ f i, ¬ s.ValidCandidate nodeId parent f i) → b = fresh) := by
  have := foldlM_prefix_invariant (EfficientFeaFinderStep s fresh parent nodeId)
    (fun fs b => fresh.m_fGain ≤ b.m_fGain ∧
      (∀ g ∈ fs, ∀ i, s.ValidCandidate nodeId parent g i →
        s.splitGain parent (s.scannedStat nodeId g i) ≤ b.m_fGain) ∧
      (b = fresh ∨ ∃ g ∈ fs, ∃ i, s.ValidCandidate nodeId parent g i ∧
        b.m_fGain = s.splitGain parent (s.scannedStat nodeId g i)))
    (fun fs f b hb => EfficientFeaFinderStep_max s fresh parent nodeId fs f b hb.1 hb.2.1 hb.2.2)
    (List.range s.m_vvFeaInxPair.length) [] fresh
    ⟨le_refl _, fun g hg => by simp at hg, Or.inl rfl⟩
  obtain ⟨b, hb, h1, h2, h3⟩ := this
  simp only [List.nil_append] at h2 h3
  refine ⟨b, hb, ⟨?_, ?_⟩, ?_⟩
  · rcases h3 with h | ⟨g, _, i, hv, he⟩
    · left; rw [h]
    · right
      exact ⟨g, i, hv, by rw [CalGain_Subtract_splitGain, he]⟩
  · rintro g (hg | ⟨f, i, hv, hg⟩)
    · rw [hg]; exact h1
    · rw [CalGain_Subtract_splitGain] at hg
      cases hg
      exact h2 f (List.mem_range.mpr (ValidCandidate_lt s nodeId parent f i hv)) i hv
  · intro hno
    rcases h3 with h | ⟨g, _, i, hv, _⟩
    · exact h
    · exact absurd hv (hno g i)

end Splitter

/-! ## Batched search equals per-node search -/

/-- Two fallible loops over the same list whose steps keep a relation between their states
both succeed and end in related states. -/
theorem foldlM_simulation {σ τ α : Type} (f : σ → α → Option σ) (g : τ → α → Option τ)
    (R : σ → τ → Prop)
    (hstep : ∀ a x y, R x y → ∃ x2 y2, f x a = some x2 ∧ g y a = some y2 ∧ R x2 y2) :
    ∀ (l : List α) (x : σ) (y : τ), R x y →
      ∃ x2 y2, l.foldlM f x = some x2 ∧ l.foldlM g y = some y2 ∧ R x2 y2 := by
  intro l
  induction l with
  | nil => intro x y h; exact ⟨x, y, rfl, rfl, h⟩
  | cons a l ih =>
    intro x y h
    obtain ⟨x1, y1, h1, h2, h3⟩ := hstep a x y h
    obtain ⟨x2, y2, h4, h5, h6⟩ := ih x1 y1 h3
    refine ⟨x2, y2, ?_, ?_, h6⟩
    · simp only [List.foldlM_cons, h1]; exact h4
    · simp only [List.foldlM_cons, h2]; exact h5

theorem getD_set_self {α : Type} (l : List α) (i : Nat) (x d : α) (h : i < l.length) :
    (l.set i x).getD i d = x := by
  simp [List.getD_eq_getElem?_getD, List.getElem?_set, h]

theorem getD_set_other {α : Type} (l : List α) (i j : Nat) (x d : α) (h : i ≠ j) :
    (l.set i x).getD j d = l.getD j d := by
  simp [List.getD_eq_getElem?_getD, List.getElem?_set, h]

theorem mapIndex_found (m : List (Int × Nat)) (k : Int) (q : Nat) (h : mapFind m k = some q) :
    mapIndex m k = (m, q) := by
  unfold mapIndex
  rw [h]

theorem mapFind_mem (m : List (Int × Nat)) (k : Int) (q : Nat) (h : mapFind m k = some q) :
    (k, q) ∈ m := by
  induction m with
  | nil => simp [mapFind] at h
  | cons e t ih =>
    obtain ⟨a, b⟩ := e
    simp only [mapFind] at h
    by_cases hak : a = k
    · rw [if_pos hak] at h
      cases h
      subst hak
      simp
    · rw [if_neg hak] at h
      exact List.mem_cons_of_mem _ (ih h)

namespace Splitter

/-- Offering a candidate to the merged best split is the same as offering it to the local
best split and merging afterwards. -/
theorem UpdateSplitPoint_merge (outer loc : SplitPoint) (g v : ℚ) (f : Int) :
    ((outer.UpdateSplitPoint loc.m_fGain loc.m_fSplitValue f).1.UpdateSplitPoint g v f).1 =
      (outer.UpdateSplitPoint (loc.UpdateSplitPoint g v f).1.m_fGain
        (loc.UpdateSplitPoint g v f).1.m_fSplitValue f).1 := by
  simp only [UpdateSplitPoint_fst]
  by_cases h1 : loc.m_fGain > outer.m_fGain
  · by_cases h2 : g > loc.m_fGain
    · have h3 : g > outer.m_fGain := lt_trans h1 h2
      simp [h1, h2, h3]
    · simp [h1, h2]
  · by_cases h2 : g > loc.m_fGain
    · by_cases h3 : g > outer.m_fGain
      · simp [h1, h2, h3]
      · simp [h1, h2, h3]
    · have h3 : ¬ g > outer.m_fGain := fun h3 => h2 (lt_of_le_of_lt (not_lt.mp h1) h3)
      simp [h1, h2, h3]

/-- The try block of FeaFinderAllNode always completes; it writes vBest at bufferPos only
and leaves the two buffers and the map as they are. -/
theorem FeaFinderAllNodeTry_frame (s : Splitter) (f : Nat) (st : AllNodeLocals) (b : Nat)
    (v : ℚ) :
    ∃ st1, FeaFinderAllNodeTry s f st b v = some st1 ∧
      st1.tempStat = st.tempStat ∧ st1.vLastValue = st.vLastValue ∧ st1.map = st.map ∧
      st1.vBest = if AllNodeCandidate s st b v then
          st.vBest.set b ((st.vBest.getD b ⟨0, 0, 0⟩).UpdateSplitPoint
            (s.splitGain (s.m_nodeStat.getD b nodeStat.zero) (st.tempStat.getD b nodeStat.zero))
            ((v + st.vLastValue.getD b 0) * (1 / 2)) f).1
        else st.vBest := by
  by_cases hc : AllNodeCandidate s st b v
  · rw [if_pos hc]
    by_cases hg : s.splitGain (s.m_nodeStat.getD b nodeStat.zero)
        (st.tempStat.getD b nodeStat.zero) > (st.vBest.getD b ⟨0, 0, 0⟩).m_fGain
    · refine ⟨_, FeaFinderAllNodeTry_improved s f st b v hc hg, rfl, rfl, rfl, ?_⟩
      rw [UpdateSplitPoint_fst, if_pos hg]
    · refine ⟨_, FeaFinderAllNodeTry_not_improved s f st b v hc hg, rfl, rfl, rfl, ?_⟩
      rw [UpdateSplitPoint_fst, if_neg hg, set_getD_self]
  · rw [if_neg hc]
    exact ⟨_, FeaFinderAllNodeTry_not_candidate s f st b v hc, rfl, rfl, rfl, rfl⟩

end Splitter

namespace Splitter

theorem nodeIdAt_mem (s : Splitter) (i : Nat) (h : s.nodeIdAt i ≠ -1) :
    i < s.m_nodeIds.length ∧ s.nodeIdAt i ∈ s.m_nodeIds := by
  unfold nodeIdAt at h ⊢
  by_cases hi : i < s.m_nodeIds.length
  · refine ⟨hi, ?_⟩
    simp [List.getD_eq_getElem?_getD, List.getElem?_eq_getElem hi]
  · exfalso
    apply h
    simp [List.getD_eq_getElem?_getD, List.getElem?_eq_none (not_lt.mp hi)]

theorem gdAt_hess (s : Splitter) (n : Int) (p : Nat) (hctx : s.SearchCtx n p) (i : Nat)
    (hi : i < s.m_nodeIds.length) : (s.gdAt i).hess = 1 := by
  have hlt : i < s.m_vGDPair_fixedPos.length := lt_of_lt_of_le hi hctx.hgd
  apply hctx.hhess
  unfold gdAt
  simp [List.getD_eq_getElem?_getD, List.getElem?_eq_getElem hlt]

/-- One entry of the column keeps the relation between the batched search and the search
for node n. -/
theorem FeaFinderAllNodeStep_sim (s : Splitter) (n : Int) (p f : Nat) (outer : SplitPoint)
    (parent : nodeStat) (hctx : s.SearchCtx n p)
    (hpar : s.m_nodeStat.getD p nodeStat.zero = parent)
    (e : key_value) (a : AllNodeLocals) (b : BestSplitLocals)
    (h : s.SimInner p f outer a b) :
    ∃ a2 b2, FeaFinderAllNodeStep s f a e = some a2 ∧
      BestSplitValueStep s f parent n b e = some b2 ∧ s.SimInner p f outer a2 b2 := by
  obtain ⟨hmap, hT, hV, hBst, hr, hF1, hF2, hbest⟩ := h
  unfold FeaFinderAllNodeStep BestSplitValueStep
  dsimp only
  by_cases h1 : s.nodeIdAt e.id = -1
  · have h2 : s.nodeIdAt e.id ≠ n := by rw [h1]; exact Ne.symm hctx.hn
    rw [if_pos h1, if_pos h2]
    exact ⟨a, b, rfl, rfl, hmap, hT, hV, hBst, hr, hF1, hF2, hbest⟩
  · rw [if_neg h1]
    obtain ⟨hlt, hmem⟩ := nodeIdAt_mem s e.id h1
    obtain ⟨q, hq⟩ := (hctx.hkey _ hmem).resolve_left h1
    rw [hmap, mapIndex_found _ _ _ hq]
    dsimp only
    by_cases hn : s.nodeIdAt e.id = n
    · have hqp : q = p := by
        rw [hn, hctx.hp] at hq
        cases hq
        rfl
      subst hqp
      rw [if_neg (not_not.mpr hn)]
      have hhess : (s.gdAt e.id).hess = 1 := gdAt_hess s n q hctx e.id hlt
      by_cases hf : b.bFirst = true
      · have h0 := hF1 hf
        have hA : |(a.tempStat.getD q nodeStat.zero).sum_hess| < 1 / 10000 := by
          rw [hr, h0]; norm_num
        rw [if_pos hA, if_pos hf]
        refine ⟨_, _, rfl, rfl, rfl, ?_, ?_, hBst, ?_, ?_, ?_, hbest⟩
        · simpa using hT
        · simpa using hV
        · dsimp only
          rw [getD_set_self _ _ _ _ hT, hr]
        · intro hcontra; simp at hcontra
        · intro _
          dsimp only
          refine ⟨?_, getD_set_self _ _ _ _ hV⟩
          simp [nodeStat.Add, h0, hhess]
      · have hfalse : b.bFirst = false := by simpa using hf
        obtain ⟨hge, hlast⟩ := hF2 hfalse
        have hA : ¬ |(a.tempStat.getD q nodeStat.zero).sum_hess| < 1 / 10000 := by
          rw [hr, abs_of_nonneg (by linarith)]
          intro hlt2
          linarith
        rw [if_neg hA, if_neg hf]
        obtain ⟨a1, ha1, hts, hvl, hmp, hvb⟩ := FeaFinderAllNodeTry_frame s f
          { a with map := s.mapNodeIdToBufferPos } q e.featureValue
        rw [ha1]
        simp only [Option.map_some']
        have hiff : AllNodeCandidate s { a with map := s.mapNodeIdToBufferPos } q e.featureValue ↔
            BestSplitCandidate parent b e.featureValue := by
          unfold AllNodeCandidate BestSplitCandidate
          dsimp only
          rw [hr, hlast, hpar]
        have hT1 : q < a1.tempStat.length := by rw [hts]; exact hT
        have hV1 : q < a1.vLastValue.length := by rw [hvl]; exact hV
        have hstat : ∀ (x : BestSplitLocals), x.r_child = b.r_child →
            1 ≤ (x.r_child.Add (s.gdAt e.id).grad (s.gdAt e.id).hess).sum_hess := by
          intro x hx
          simp only [nodeStat.Add, hx, hhess]
          linarith
        by_cases hc : BestSplitCandidate parent b e.featureValue
        · rw [if_pos (hiff.mpr hc)] at hvb
          rw [BestSplitValueTry_candidate s f parent b e.featureValue hc]
          simp only [Option.map_some']
          refine ⟨_, _, rfl, rfl, hmp, ?_, ?_, ?_, ?_, ?_, ?_, ?_⟩
          · simpa using hT1
          · simpa using hV1
          · rw [hvb]; simpa using hBst
          · dsimp only
            rw [getD_set_self _ _ _ _ hT1, hts]
            dsimp only
            rw [hr]
          · intro hcontra; exact absurd hcontra (by rw [hfalse]; simp)
          · intro _
            exact ⟨hstat _ rfl, getD_set_self _ _ _ _ hV1⟩
          · dsimp only
            rw [hvb, getD_set_self _ _ _ _ hBst]
            dsimp only
            rw [hbest, hr, hlast, hpar, UpdateSplitPoint_merge]
        · rw [if_neg (fun hcA => hc (hiff.mp hcA))] at hvb
          obtain ⟨l, hl⟩ := BestSplitValueTry_not_candidate s f parent b e.featureValue hc
          rw [hl]
          simp only [Option.map_some']
          refine ⟨_, _, rfl, rfl, hmp, ?_, ?_, ?_, ?_, ?_, ?_, ?_⟩
          · simpa using hT1
          · simpa using hV1
          · rw [hvb]; exact hBst
          · dsimp only
            rw [getD_set_self _ _ _ _ hT1, hts]
            dsimp only
            rw [hr]
          · intro hcontra; exact absurd hcontra (by rw [hfalse]; simp)
          · intro _
            exact ⟨hstat _ rfl, getD_set_self _ _ _ _ hV1⟩
          · dsimp only
            rw [hvb]
            exact hbest
    · have hqp : q ≠ p := fun hqp => hn (hctx.huniq _ (hqp ▸ hq))
      rw [if_pos hn]
      by_cases hfirst : |(a.tempStat.getD q nodeStat.zero).sum_hess| < 1 / 10000
      · rw [if_pos hfirst]
        refine ⟨_, b, rfl, rfl, rfl, ?_, ?_, hBst, ?_, hF1, ?_, hbest⟩
        · simpa using hT
        · simpa using hV
        · dsimp only
          rw [getD_set_other _ _ _ _ _ hqp]
          exact hr
        · intro hb
          dsimp only
          rw [getD_set_other _ _ _ _ _ hqp]
          exact hF2 hb
      · rw [if_neg hfirst]
        obtain ⟨a1, ha1, hts, hvl, hmp, hvb⟩ := FeaFinderAllNodeTry_frame s f
          { a with map := s.mapNodeIdToBufferPos } q e.featureValue
        rw [ha1]
        simp only [Option.map_some']
        have hvb1 : a1.vBest.length = a.vBest.length ∧
            a1.vBest.getD p ⟨0, 0, 0⟩ = a.vBest.getD p ⟨0, 0, 0⟩ := by
          rw [hvb]
          split
          · exact ⟨by simp, getD_set_other _ _ _ _ _ hqp⟩
          · exact ⟨rfl, rfl⟩
        refine ⟨_, b, rfl, rfl, hmp, ?_, ?_, ?_, ?_, hF1, ?_, ?_⟩
        · rw [List.length_set, hts]; exact hT
        · rw [List.length_set, hvl]; exact hV
        · rw [hvb1.1]; exact hBst
        · dsimp only
          rw [getD_set_other _ _ _ _ _ hqp, hts]
          exact hr
        · intro hb
          dsimp only
          rw [getD_set_other _ _ _ _ _ hqp, hvl]
          exact hF2 hb
        · dsimp only
          rw [hvb1.2]
          exact hbest

/-- One feature keeps the relation between the batched search and EfficientFeaFinder for
node n. -/
theorem FeaFinderAllNodeFeature_sim (s : Splitter) (n : Int) (p : Nat) (fresh : SplitPoint)
    (parent : nodeStat) (hctx : s.SearchCtx n p)
    (hpar : s.m_nodeStat.getD p nodeStat.zero = parent)
    (f : Nat) (a : AllNodeLocals) (outer : SplitPoint) (h : s.SimOuter p fresh a outer) :
    ∃ a2 o2, FeaFinderAllNodeFeature s a f = some a2 ∧
      EfficientFeaFinderStep s fresh parent n outer f = some o2 ∧
      s.SimOuter p fresh a2 o2 := by
  obtain ⟨hmap, hBst, hbest, hge⟩ := h
  have hsz : p < a.map.length := by rw [hmap]; exact hctx.hsize
  have h0 : s.SimInner p f outer
      { a with tempStat := List.replicate a.map.length nodeStat.zero,
               vLastValue := List.replicate a.map.length 0 }
      ⟨true, nodeStat.zero, nodeStat.zero, 0, fresh, []⟩ := by
    refine ⟨hmap, by simpa using hsz, by simpa using hsz, hBst, ?_, ?_, ?_, ?_⟩
    · simp [List.getD_eq_getElem?_getD, List.getElem?_replicate, hsz]
    · intro _; rfl
    · intro hcontra; simp at hcontra
    · dsimp only
      rw [hbest, UpdateSplitPoint_fst, if_neg (not_lt.mpr hge)]
  obtain ⟨a2, b2, ha2, hb2, hmap2, _, _, hBst2, _, _, _, hbest2⟩ :=
    foldlM_simulation (FeaFinderAllNodeStep s f) (BestSplitValueStep s f parent n)
      (s.SimInner p f outer)
      (fun e x y hxy => FeaFinderAllNodeStep_sim s n p f outer parent hctx hpar e x y hxy)
      (s.m_vvFeaInxPair.getD f []) _ _ h0
  refine ⟨a2, _, ha2, ?_, hmap2, hBst2, hbest2, ?_⟩
  · unfold EfficientFeaFinderStep BestSplitValue BestSplitValueLoop
    rw [hb2]
    rfl
  · rw [UpdateSplitPoint_fst]
    split
    · rename_i hlt; exact le_trans hge (le_of_lt hlt)
    · exact hge

/-- The size of the map is at least the number of positions that each hold a key. -/
theorem mapSize_ge (m : List (Int × Nat)) (len : Nat)
    (h : ∀ q, q < len → ∃ k, mapFind m k = some q) : len ≤ m.length := by
  have hsub : List.range len ⊆ m.map Prod.snd := by
    intro q hq
    obtain ⟨k, hk⟩ := h q (List.mem_range.mp hq)
    exact List.mem_map.mpr ⟨(k, q), mapFind_mem m k q hk, rfl⟩
  have := ((List.nodup_range len).subperm hsub).length_le
  simpa using this

/-- C1: in a state in which every assignment entry is -1 or a key of the buffer map, every
position q of m_nodeStat is the position of exactly one node and m_nodeStat[q] holds the
statistics of that node, every instance has a gradient pair and every gradient pair has
hess = 1, and every vBest entry is a fresh split point: for every active node n (a node
id, so not -1) at position p, FeaFinderAllNode completes, and EfficientFeaFinder run on a
fresh split point with parent = m_nodeStat[p] and nodeId = n completes with exactly the
split point (gain, split value, feature id) that FeaFinderAllNode leaves in vBest[p]. -/
theorem FeaFinderAllNode_eq_EfficientFeaFinder (s : Splitter) (vBest : List SplitPoint)
    (rchildStat lchildStat : List nodeStat) (fresh : SplitPoint) (n : Int) (p : Nat)
    (hids : ∀ x ∈ s.m_nodeIds, x = -1 ∨ ∃ q, mapFind s.mapNodeIdToBufferPos x = some q)
    (hstat : ∀ q, q < s.m_nodeStat.length →
      ∃ m, (∀ k, mapFind s.mapNodeIdToBufferPos k = some q ↔ k = m) ∧
        s.m_nodeStat.get? q = some (s.ComputeNodeStat m nodeStat.zero))
    (hgd : s.m_nodeIds.length ≤ s.m_vGDPair_fixedPos.length)
    (hhess : ∀ g ∈ s.m_vGDPair_fixedPos, g.hess = 1)
    (hfresh : ∀ sp ∈ vBest, sp = fresh)
    (hn : n ≠ -1) (hp : mapFind s.mapNodeIdToBufferPos n = some p)
    (hpS : p < s.m_nodeStat.length) (hpV : p < vBest.length) :
    ∃ out parent b, s.FeaFinderAllNode vBest rchildStat lchildStat = some out ∧
      s.m_nodeStat.get? p = some parent ∧
      s.EfficientFeaFinder fresh fresh parent n = some b ∧
      out.vBest.get? p = some b := by
  have huniq : ∀ k, mapFind s.mapNodeIdToBufferPos k = some p → k = n := by
    obtain ⟨m, hm, _⟩ := hstat p hpS
    intro k hk
    rw [(hm k).mp hk, (hm n).mp hp]
  have hsize : p < s.mapNodeIdToBufferPos.length := by
    refine lt_of_lt_of_le hpS (mapSize_ge _ _ ?_)
    intro q hq
    obtain ⟨m, hm, _⟩ := hstat q hq
    exact ⟨m, (hm m).mpr rfl⟩
  have hctx : s.SearchCtx n p := ⟨hn, hids, huniq, hp, hsize, hgd, hhess⟩
  have hparent : s.m_nodeStat.get? p = some (s.m_nodeStat.getD p nodeStat.zero) := by
    simp [List.getD_eq_getElem?_getD, List.getElem?_eq_getElem hpS]
  have h0 : s.SimOuter p fresh
      ⟨[], [], vBest, rchildStat, lchildStat, s.mapNodeIdToBufferPos, []⟩ fresh := by
    refine ⟨rfl, hpV, ?_, le_refl _⟩
    apply hfresh
    simp [List.getD_eq_getElem?_getD, List.getElem?_eq_getElem hpV]
  obtain ⟨out, b, hout, hb, _, hlen, hbest, _⟩ :=
    foldlM_simulation (FeaFinderAllNodeFeature s)
      (EfficientFeaFinderStep s fresh (s.m_nodeStat.getD p nodeStat.zero) n)
      (s.SimOuter p fresh)
      (fun f x y hxy => FeaFinderAllNodeFeature_sim s n p fresh _ hctx rfl f x y hxy)
      (List.range s.m_vvFeaInxPair.length) _ _ h0
  refine ⟨out, _, b, hout, hparent, hb, ?_⟩
  rw [← hbest]
  simp [List.getD_eq_getElem?_getD, List.getElem?_eq_getElem hlen]

end Splitter

namespace Splitter

/-- Witness of C1: two active nodes 1 and 2 at buffer positions 0 and 1, two instances
each, one feature; node 1 at position 0 is taken. -/
theorem FeaFinderAllNode_eq_EfficientFeaFinder_witness :
    ∃ out parent b,
      (⟨[[⟨0, 1⟩, ⟨1, 2⟩, ⟨2, 3⟩, ⟨3, 4⟩]], [1, 2, 1, 2],
        [⟨-1, 1⟩, ⟨-2, 1⟩, ⟨1, 1⟩, ⟨2, 1⟩], [⟨0, 2⟩, ⟨0, 2⟩], [(1, 0), (2, 1)], 1, 0⟩ :
        Splitter).FeaFinderAllNode [⟨0, 0, -1⟩, ⟨0, 0, -1⟩] [⟨0, 0⟩, ⟨0, 0⟩] [⟨0, 0⟩, ⟨0, 0⟩]
        = some out ∧
      (⟨[[⟨0, 1⟩, ⟨1, 2⟩, ⟨2, 3⟩, ⟨3, 4⟩]], [1, 2, 1, 2],
        [⟨-1, 1⟩, ⟨-2, 1⟩, ⟨1, 1⟩, ⟨2, 1⟩], [⟨0, 2⟩, ⟨0, 2⟩], [(1, 0), (2, 1)], 1, 0⟩ :
        Splitter).m_nodeStat.get? 0 = some parent ∧
      (⟨[[⟨0, 1⟩, ⟨1, 2⟩, ⟨2, 3⟩, ⟨3, 4⟩]], [1, 2, 1, 2],
        [⟨-1, 1⟩, ⟨-2, 1⟩, ⟨1, 1⟩, ⟨2, 1⟩], [⟨0, 2⟩, ⟨0, 2⟩], [(1, 0), (2, 1)], 1, 0⟩ :
        Splitter).EfficientFeaFinder ⟨0, 0, -1⟩ ⟨0, 0, -1⟩ parent 1 = some b ∧
      out.vBest.get? 0 = some b :=
  FeaFinderAllNode_eq_EfficientFeaFinder
    ⟨[[⟨0, 1⟩, ⟨1, 2⟩, ⟨2, 3⟩, ⟨3, 4⟩]], [1, 2, 1, 2],
      [⟨-1, 1⟩, ⟨-2, 1⟩, ⟨1, 1⟩, ⟨2, 1⟩], [⟨0, 2⟩, ⟨0, 2⟩], [(1, 0), (2, 1)], 1, 0⟩
    [⟨0, 0, -1⟩, ⟨0, 0, -1⟩] [⟨0, 0⟩, ⟨0, 0⟩] [⟨0, 0⟩, ⟨0, 0⟩] ⟨0, 0, -1⟩ 1 0
    (by
      intro x hx
      simp only [List.mem_cons, List.mem_singleton, List.not_mem_nil, or_false] at hx
      right
      rcases hx with h | h | h | h <;> subst h
      · exact ⟨0, by simp [mapFind]⟩
      · exact ⟨1, by simp [mapFind]⟩
      · exact ⟨0, by simp [mapFind]⟩
      · exact ⟨1, by simp [mapFind]⟩)
    (by
      intro q hq
      have hq2 : q = 0 ∨ q = 1 := by
        simp only [List.length_cons, List.length_nil] at hq
        omega
      rcases hq2 with h | h <;> subst h
      · refine ⟨1, ?_, ?_⟩
        · intro k
          simp only [mapFind]
          by_cases h1 : (1 : Int) = k
          · simp [h1]
          · by_cases h2 : (2 : Int) = k
            · subst h2; simp
            · simp [h1, h2, Ne.symm h1]
        · simp [ComputeNodeStat, nodeIdAt, gdAt, nodeStat.Add, nodeStat.zero, List.range_succ]
          norm_num
      · refine ⟨2, ?_, ?_⟩
        · intro k
          simp only [mapFind]
          by_cases h1 : (1 : Int) = k
          · subst h1; simp
          · by_cases h2 : (2 : Int) = k
            · subst h2; simp
            · simp [h1, h2, Ne.symm h2]
        · simp [ComputeNodeStat, nodeIdAt, gdAt, nodeStat.Add, nodeStat.zero, List.range_succ]
          norm_num)
    (by simp)
    (by
      intro g hg
      simp only [List.mem_cons, List.mem_singleton, List.not_mem_nil, or_false] at hg
      rcases hg with h | h | h | h <;> subst h <;> rfl)
    (by
      intro sp hsp
      simp only [List.mem_cons, List.mem_singleton, List.not_mem_nil, or_false] at hsp
      rcases hsp with h | h <;> exact h)
    (by decide) (by simp [mapFind]) (by simp) (by simp)

end Splitter

/-! ## The end-to-end scenario of the spec, evaluated -/

namespace Splitter

/-- The batched search on the scenario of the spec (values 1, 1, 3, 5 at the root,
gradients -1, -1, 1, 1, Hessians 1, lambda = 1, gamma = 0): threshold 2 with gain 8/3 on
feature 0, recorded right statistics (-2, 2) and left statistics (2, 2), map unchanged. -/
theorem FeaFinderAllNode_scenario :
    ((⟨[[⟨0, 1⟩, ⟨1, 1⟩, ⟨2, 3⟩, ⟨3, 5⟩]], [0, 0, 0, 0],
        [⟨-1, 1⟩, ⟨-1, 1⟩, ⟨1, 1⟩, ⟨1, 1⟩], [⟨0, 4⟩], [(0, 0)], 1, 0⟩ :
        Splitter).FeaFinderAllNode [⟨0, 0, -1⟩] [⟨0, 0⟩] [⟨0, 0⟩]).map
        (fun o => (o.vBest, o.rchildStat, o.lchildStat, o.map)) =
      some ([⟨8 / 3, 2, 0⟩], [⟨-2, 2⟩], [⟨2, 2⟩], [(0, 0)]) := by
  with_unfolding_all decide

/-- The single-node search on the scenario of the spec returns the same split point. -/
theorem EfficientFeaFinder_scenario :
    (⟨[[⟨0, 1⟩, ⟨1, 1⟩, ⟨2, 3⟩, ⟨3, 5⟩]], [0, 0, 0, 0],
        [⟨-1, 1⟩, ⟨-1, 1⟩, ⟨1, 1⟩, ⟨1, 1⟩], [⟨0, 4⟩], [(0, 0)], 1, 0⟩ :
        Splitter).EfficientFeaFinder ⟨0, 0, -1⟩ ⟨0, 0, -1⟩ ⟨0, 4⟩ 0 = some ⟨8 / 3, 2, 0⟩ := by
  with_unfolding_all decide

/-- Witness of C3: on the scenario of the spec the batched search updates vBest[0], and
the recorded child statistics at position 0 have sum_hess >= 1. -/
theorem min_child_weight_respected_witness :
    ∃ out, (⟨[[⟨0, 1⟩, ⟨1, 1⟩, ⟨2, 3⟩, ⟨3, 5⟩]], [0, 0, 0, 0],
        [⟨-1, 1⟩, ⟨-1, 1⟩, ⟨1, 1⟩, ⟨1, 1⟩], [⟨0, 4⟩], [(0, 0)], 1, 0⟩ :
        Splitter).FeaFinderAllNode [⟨0, 0, -1⟩] [⟨0, 0⟩] [⟨0, 0⟩] = some out ∧
      out.vBest.get? 0 ≠ [(⟨0, 0, -1⟩ : SplitPoint)].get? 0 ∧
      (∀ x, out.rchildStat.get? 0 = some x → x.sum_hess ≥ 1) ∧
      (∀ x, out.lchildStat.get? 0 = some x → x.sum_hess ≥ 1) := by
  obtain ⟨out, hout, h⟩ := (min_child_weight_respected
    ⟨[[⟨0, 1⟩, ⟨1, 1⟩, ⟨2, 3⟩, ⟨3, 5⟩]], [0, 0, 0, 0],
      [⟨-1, 1⟩, ⟨-1, 1⟩, ⟨1, 1⟩, ⟨1, 1⟩], [⟨0, 4⟩], [(0, 0)], 1, 0⟩ ⟨0, 0, -1⟩).1
    [⟨0, 0, -1⟩] [⟨0, 0⟩] [⟨0, 0⟩]
  have hne : out.vBest.get? 0 ≠ [(⟨0, 0, -1⟩ : SplitPoint)].get? 0 := by
    have hs := FeaFinderAllNode_scenario
    rw [hout] at hs
    simp only [Option.map_some', Option.some.injEq, Prod.mk.injEq] at hs
    rw [hs.1]
    simp
  exact ⟨out, hout, hne, h 0 hne⟩

end Splitter

/-! ## Node finalization -/

namespace Splitter

theorem MarkProcessedStep_length (n : Int) (l : List Int) (k : Nat) :
    (MarkProcessedStep n l k).length = l.length := by
  unfold MarkProcessedStep
  split <;> simp

theorem MarkProcessedStep_getD (n : Int) (l : List Int) (k i : Nat) (hk : k < l.length) :
    (MarkProcessedStep n l k).getD i (-1) =
      if i = k then (if l.getD k (-1) = n then -1 else l.getD k (-1)) else l.getD i (-1) := by
  unfold MarkProcessedStep
  by_cases hik : i = k
  · subst hik
    rw [if_pos rfl]
    split
    · exact getD_set_self _ _ _ _ hk
    · rfl
  · rw [if_neg hik]
    split
    · exact getD_set_other _ _ _ _ _ (Ne.symm hik)
    · rfl

theorem MarkProcessed_loop (n : Int) (ids : List Int) (k : Nat) (hk : k ≤ ids.length) :
    ((List.range k).foldl (MarkProcessedStep n) ids).length = ids.length ∧
    ∀ i, ((List.range k).foldl (MarkProcessedStep n) ids).getD i (-1) =
      if i < k then (if ids.getD i (-1) = n then -1 else ids.getD i (-1))
      else ids.getD i (-1) := by
  induction k with
  | zero => simp
  | succ k ih =>
    obtain ⟨hlen, hget⟩ := ih (Nat.le_of_succ_le hk)
    rw [List.range_succ, List.foldl_append]
    simp only [List.foldl_cons, List.foldl_nil]
    have hkk := hget k
    simp only [lt_irrefl, if_false] at hkk
    have hklt : k < ((List.range k).foldl (MarkProcessedStep n) ids).length := by
      rw [hlen]; exact hk
    constructor
    · rw [MarkProcessedStep_length, hlen]
    · intro i
      rw [MarkProcessedStep_getD n _ k i hklt, hkk, hget i]
      by_cases hik : i = k
      · subst hik
        simp
      · rw [if_neg hik]
        by_cases hlt : i < k
        · simp [hlt, Nat.lt_succ_of_lt hlt]
        · have : ¬ i < k + 1 := by omega
          simp [hlt, this]

/-- The assignment array after MarkProcessed: every entry equal to the node id is -1, the
others are unchanged. -/
theorem MarkProcessed_ids (s : Splitter) (n : Int) :
    (s.MarkProcessed n).m_nodeIds = s.m_nodeIds.map (fun x => if x = n then -1 else x) := by
  obtain ⟨hlen, hget⟩ := MarkProcessed_loop n s.m_nodeIds s.m_nodeIds.length (le_refl _)
  simp only [MarkProcessed]
  apply List.ext_getElem
  · rw [hlen, List.length_map]
  · intro i h1 h2
    have hi : i < s.m_nodeIds.length := by rw [← hlen]; exact h1
    have := hget i
    rw [if_pos hi] at this
    simp only [List.getD_eq_getElem?_getD, List.getElem?_eq_getElem h1,
      List.getElem?_eq_getElem hi, Option.getD_some] at this
    rw [this, List.getElem_map]

theorem mapErase_idem (m : List (Int × Nat)) (n : Int) :
    mapErase (mapErase m n) n = mapErase m n := by
  unfold mapErase
  rw [List.filter_filter]
  simp

theorem mapFind_mapErase_self (m : List (Int × Nat)) (n : Int) :
    mapFind (mapErase m n) n = none := by
  induction m with
  | nil => rfl
  | cons e t ih =>
    obtain ⟨a, b⟩ := e
    unfold mapErase at ih ⊢
    by_cases h : a = n
    · have hf : List.filter (fun e => decide (e.1 ≠ n)) ((a, b) :: t)
          = List.filter (fun e => decide (e.1 ≠ n)) t := by simp [h]
      rw [hf]; exact ih
    · have hf : List.filter (fun e => decide (e.1 ≠ n)) ((a, b) :: t)
          = (a, b) :: List.filter (fun e => decide (e.1 ≠ n)) t := by simp [h]
      rw [hf]
      simp only [mapFind]
      rw [if_neg h]; exact ih

theorem mapFind_mapErase_other (m : List (Int × Nat)) (n k : Int) (hk : k ≠ n) :
    mapFind (mapErase m n) k = mapFind m k := by
  induction m with
  | nil => rfl
  | cons e t ih =>
    obtain ⟨a, b⟩ := e
    unfold mapErase at ih ⊢
    by_cases h : a = n
    · have hak : ¬ a = k := fun hak => hk (hak ▸ h)
      have hf : List.filter (fun e => decide (e.1 ≠ n)) ((a, b) :: t)
          = List.filter (fun e => decide (e.1 ≠ n)) t := by simp [h]
      rw [hf]
      simp only [mapFind]
      rw [if_neg hak]; exact ih
    · have hf : List.filter (fun e => decide (e.1 ≠ n)) ((a, b) :: t)
          = (a, b) :: List.filter (fun e => decide (e.1 ≠ n)) t := by simp [h]
      rw [hf]
      simp only [mapFind]
      rw [ih]

/-- C11: MarkProcessed(n) followed by MarkProcessed(n) leaves the same state as a single
MarkProcessed(n): the second call changes no assignment entry and no map entry. -/
theorem MarkProcessed_idempotent (s : Splitter) (nodeId : Int) :
    (s.MarkProcessed nodeId).MarkProcessed nodeId = s.MarkProcessed nodeId ∧
    ((s.MarkProcessed nodeId).MarkProcessed nodeId).m_nodeIds = (s.MarkProcessed nodeId).m_nodeIds ∧
    ((s.MarkProcessed nodeId).MarkProcessed nodeId).mapNodeIdToBufferPos
      = (s.MarkProcessed nodeId).mapNodeIdToBufferPos := by
  have hids : ((s.MarkProcessed nodeId).MarkProcessed nodeId).m_nodeIds
      = (s.MarkProcessed nodeId).m_nodeIds := by
    rw [MarkProcessed_ids, MarkProcessed_ids, List.map_map]
    apply List.map_congr_left
    intro x _
    simp only [Function.comp]
    by_cases hx : x = nodeId
    · simp [hx]
    · simp [hx]
  have hmap : ((s.MarkProcessed nodeId).MarkProcessed nodeId).mapNodeIdToBufferPos
      = (s.MarkProcessed nodeId).mapNodeIdToBufferPos := mapErase_idem _ _
  refine ⟨?_, hids, hmap⟩
  have h1 : (s.MarkProcessed nodeId).MarkProcessed nodeId =
      { s.MarkProcessed nodeId with
        mapNodeIdToBufferPos := ((s.MarkProcessed nodeId).MarkProcessed nodeId).mapNodeIdToBufferPos,
        m_nodeIds := ((s.MarkProcessed nodeId).MarkProcessed nodeId).m_nodeIds } := rfl
  rw [h1, hids, hmap]

/-- After a split whose child ids differ from the parent id no entry of the assignment
array bears the parent id. -/
theorem UpdateNodeIdForSparseData_mem_ne_parent (s : Splitter) (sp : SplitPoint)
    (parent left right : Int) (hl : left ≠ parent) (hr : right ≠ parent) (x : Int)
    (hx : x ∈ (s.UpdateNodeIdForSparseData sp parent left right).m_nodeIds) : x ≠ parent := by
  obtain ⟨i, hi, hxi⟩ := List.getElem_of_mem hx
  have hlen := UpdateNodeIdForSparseData_length s sp parent left right
  have hlt : i < s.m_nodeIds.length := by rw [← hlen]; exact hi
  have hgd : (s.UpdateNodeIdForSparseData sp parent left right).m_nodeIds.getD i (-1) = x := by
    simp [List.getD_eq_getElem?_getD, List.getElem?_eq_getElem hi, hxi]
  by_cases hp : s.m_nodeIds.getD i (-1) = parent
  · rcases UpdateNodeIdForSparseData_child s sp parent left right hl hr i hlt hp with h | h
    · rw [← hgd, h]; exact hl
    · rw [← hgd, h]; exact hr
  · rw [← hgd, UpdateNodeIdForSparseData_other s sp parent left right i hlt hp]
    exact hp

/-- C12: after MarkProcessed(n), n is not a key of the buffer map and every other key keeps
its buffer position; the assignment array keeps its length, every entry that equalled n is
-1 and every other entry is unchanged; and MarkProcessed(parent) right after
UpdateNodeIdForSparseData with child ids different from the parent id changes no
assignment entry. -/
theorem MarkProcessed_post (s : Splitter) (nodeId : Int) :
    mapFind (s.MarkProcessed nodeId).mapNodeIdToBufferPos nodeId = none ∧
    (∀ k, k ≠ nodeId →
      mapFind (s.MarkProcessed nodeId).mapNodeIdToBufferPos k
        = mapFind s.mapNodeIdToBufferPos k) ∧
    (s.MarkProcessed nodeId).m_nodeIds.length = s.m_nodeIds.length ∧
    (∀ i x, s.m_nodeIds.get? i = some x →
      (s.MarkProcessed nodeId).m_nodeIds.get? i = some (if x = nodeId then -1 else x)) ∧
    (∀ (sp : SplitPoint) (leftNodeId rightNodeId : Int),
      leftNodeId ≠ nodeId → rightNodeId ≠ nodeId →
      ((s.UpdateNodeIdForSparseData sp nodeId leftNodeId rightNodeId).MarkProcessed
          nodeId).m_nodeIds
        = (s.UpdateNodeIdForSparseData sp nodeId leftNodeId rightNodeId).m_nodeIds) := by
  refine ⟨mapFind_mapErase_self _ _, fun k hk => mapFind_mapErase_other _ _ _ hk, ?_, ?_, ?_⟩
  · rw [MarkProcessed_ids, List.length_map]
  · intro i x hx
    rw [MarkProcessed_ids, List.get?_eq_getElem?, List.getElem?_map]
    rw [List.get?_eq_getElem?] at hx
    rw [hx]
    rfl
  · intro sp l r hl hr
    rw [MarkProcessed_ids]
    conv_rhs => rw [← List.map_id (s.UpdateNodeIdForSparseData sp nodeId l r).m_nodeIds]
    apply List.map_congr_left
    intro x hx
    have := UpdateNodeIdForSparseData_mem_ne_parent s sp nodeId l r hl hr x hx
    simp [this]

/-- C20: UpdateNodeIdForSparseData leaves the assignment of every instance that does not
belong to the parent as it is, whether or not the instance occurs in the split column, and
it keeps the length of m_nodeIds, the feature columns, the gradient pairs, m_nodeStat and
the buffer map. -/
theorem UpdateNodeIdForSparseData_frame (s : Splitter) (sp : SplitPoint)
    (parentNodeId leftNodeId rightNodeId : Int) :
    (∀ i x, s.m_nodeIds.get? i = some x → x ≠ parentNodeId →
      (s.UpdateNodeIdForSparseData sp parentNodeId leftNodeId rightNodeId).m_nodeIds.get? i
        = some x) ∧
    (s.UpdateNodeIdForSparseData sp parentNodeId leftNodeId rightNodeId).m_nodeIds.length
      = s.m_nodeIds.length ∧
    (s.UpdateNodeIdForSparseData sp parentNodeId leftNodeId rightNodeId).m_vvFeaInxPair
      = s.m_vvFeaInxPair ∧
    (s.UpdateNodeIdForSparseData sp parentNodeId leftNodeId rightNodeId).m_vGDPair_fixedPos
      = s.m_vGDPair_fixedPos ∧
    (s.UpdateNodeIdForSparseData sp parentNodeId leftNodeId rightNodeId).m_nodeStat
      = s.m_nodeStat ∧
    (s.UpdateNodeIdForSparseData sp parentNodeId leftNodeId rightNodeId).mapNodeIdToBufferPos
      = s.mapNodeIdToBufferPos := by
  have hlen := UpdateNodeIdForSparseData_length s sp parentNodeId leftNodeId rightNodeId
  refine ⟨?_, hlen, rfl, rfl, rfl, rfl⟩
  intro i x hx hne
  rw [List.get?_eq_getElem?] at hx
  have hlt : i < s.m_nodeIds.length := (List.getElem?_eq_some_iff.mp hx).1
  have hxd : s.m_nodeIds.getD i (-1) = x := by
    simp [List.getD_eq_getElem?_getD, hx]
  rw [getD_lt_get_some _ i (by rw [hlen]; exact hlt),
    UpdateNodeIdForSparseData_other s sp parentNodeId leftNodeId rightNodeId i hlt
      (by rw [hxd]; exact hne), hxd]

end Splitter

/-! ## Invariants of the batched search -/

namespace Splitter

/-- A property of the variables of FeaFinderAllNode that every entry of every column keeps
and that does not depend on the two per-feature buffers holds after the whole search,
which completes. -/
theorem FeaFinderAllNode_invariant (s : Splitter) (I : AllNodeLocals → Prop)
    (hreset : ∀ (st : AllNodeLocals) (ts : List nodeStat) (vl : List ℚ), I st →
      I { st with tempStat := ts, vLastValue := vl })
    (hstep : ∀ f st e, I st → ∃ st2, FeaFinderAllNodeStep s f st e = some st2 ∧ I st2)
    (vBest : List SplitPoint) (rchildStat lchildStat : List nodeStat)
    (h0 : I ⟨[], [], vBest, rchildStat, lchildStat, s.mapNodeIdToBufferPos, []⟩) :
    ∃ out, s.FeaFinderAllNode vBest rchildStat lchildStat = some out ∧ I out := by
  have hfeature : ∀ (fs : List Nat) (f : Nat) (st : AllNodeLocals), I st →
      ∃ st2, FeaFinderAllNodeFeature s st f = some st2 ∧ I st2 := by
    intro _ f st hst
    unfold FeaFinderAllNodeFeature
    have := foldlM_prefix_invariant (FeaFinderAllNodeStep s f) (fun _ x => I x)
      (fun _ a x hx => hstep f x a hx) (s.m_vvFeaInxPair.getD f []) []
      { st with tempStat := List.replicate st.map.length nodeStat.zero,
                vLastValue := List.replicate st.map.length 0 } (hreset st _ _ hst)
    exact this
  have := foldlM_prefix_invariant (FeaFinderAllNodeFeature s) (fun _ x => I x) hfeature
    (List.range s.m_vvFeaInxPair.length) [] _ h0
  exact this

/-- A property of the output vectors and of the record of calls that the try block keeps
is kept by every entry of a column. -/
theorem FeaFinderAllNodeStep_of_try (s : Splitter) (I : AllNodeLocals → Prop)
    (hframe : ∀ (st : AllNodeLocals) (ts : List nodeStat) (vl : List ℚ)
      (m : List (Int × Nat)), I st → I { st with tempStat := ts, vLastValue := vl, map := m })
    (htry : ∀ f st b v, I st → ∃ st1, FeaFinderAllNodeTry s f st b v = some st1 ∧ I st1)
    (f : Nat) (st : AllNodeLocals) (e : key_value) (h : I st) :
    ∃ st2, FeaFinderAllNodeStep s f st e = some st2 ∧ I st2 := by
  unfold FeaFinderAllNodeStep
  dsimp only
  split
  · exact ⟨st, rfl, h⟩
  · split
    · exact ⟨_, rfl, hframe st _ _ _ h⟩
    · obtain ⟨st1, h1, h2⟩ := htry f
        { st with map := (mapIndex st.map (s.nodeIdAt e.id)).1 }
        (mapIndex st.map (s.nodeIdAt e.id)).2 e.featureValue
        (hframe st st.tempStat st.vLastValue _ h)
      rw [h1]
      exact ⟨_, rfl, hframe st1 _ _ st1.map h2⟩

/-- The recorded child statistics of every position whose best split differs from the one
in vBest0 are the right statistics t and the left statistics m_nodeStat[p] - t of one
candidate. -/
theorem FeaFinderAllNodeTry_recorded (s : Splitter) (vBest0 : List SplitPoint)
    (f : Nat) (st : AllNodeLocals) (b : Nat) (v : ℚ)
    (h : ∀ p, st.vBest.get? p ≠ vBest0.get? p → ∀ x y, st.rchildStat.get? p = some x →
      st.lchildStat.get? p = some y →
      y = nodeStat.Subtract (s.m_nodeStat.getD p nodeStat.zero) x) :
    ∃ st1, FeaFinderAllNodeTry s f st b v = some st1 ∧
      ∀ p, st1.vBest.get? p ≠ vBest0.get? p → ∀ x y, st1.rchildStat.get? p = some x →
        st1.lchildStat.get? p = some y →
        y = nodeStat.Subtract (s.m_nodeStat.getD p nodeStat.zero) x := by
  by_cases hc : AllNodeCandidate s st b v
  · by_cases hg : s.splitGain (s.m_nodeStat.getD b nodeStat.zero)
        (st.tempStat.getD b nodeStat.zero) > (st.vBest.getD b ⟨0, 0, 0⟩).m_fGain
    · refine ⟨_, FeaFinderAllNodeTry_improved s f st b v hc hg, ?_⟩
      intro p hp x y hx hy
      dsimp only at hp hx hy
      by_cases hpb : b = p
      · subst hpb
        rw [List.get?_eq_getElem?, List.getElem?_set] at hx hy
        simp only [if_true] at hx hy
        split at hx
        · split at hy
          · cases hx; cases hy; rfl
          · cases hy
        · cases hx
      · simp only [List.get?_eq_getElem?, List.getElem?_set_ne hpb] at hp hx hy
        exact h p (by simpa only [List.get?_eq_getElem?] using hp) x y
          (by simpa only [List.get?_eq_getElem?] using hx)
          (by simpa only [List.get?_eq_getElem?] using hy)
    · exact ⟨_, FeaFinderAllNodeTry_not_improved s f st b v hc hg, h⟩
  · exact ⟨_, FeaFinderAllNodeTry_not_candidate s f st b v hc, h⟩

/-- C16: FeaFinderAllNode completes, and for every buffer position p whose vBest[p] was
updated during the run (its content after the run differs from the one before),
lchildStat[p].sum_hess + rchildStat[p].sum_hess = m_nodeStat[p].sum_hess and
lchildStat[p].sum_gd + rchildStat[p].sum_gd = m_nodeStat[p].sum_gd. -/
theorem recorded_children_sum_to_parent (s : Splitter) (vBest : List SplitPoint)
    (rchildStat lchildStat : List nodeStat) :
    ∃ out, s.FeaFinderAllNode vBest rchildStat lchildStat = some out ∧
      ∀ p, out.vBest.get? p ≠ vBest.get? p →
        ∀ x y par, out.rchildStat.get? p = some x → out.lchildStat.get? p = some y →
          s.m_nodeStat.get? p = some par →
          y.sum_hess + x.sum_hess = par.sum_hess ∧ y.sum_gd + x.sum_gd = par.sum_gd := by
  obtain ⟨out, hout, h⟩ := FeaFinderAllNode_invariant s
    (fun st => ∀ p, st.vBest.get? p ≠ vBest.get? p → ∀ x y, st.rchildStat.get? p = some x →
      st.lchildStat.get? p = some y →
      y = nodeStat.Subtract (s.m_nodeStat.getD p nodeStat.zero) x)
    (fun st _ _ hst => hst)
    (fun f st e hst => FeaFinderAllNodeStep_of_try s _ (fun st _ _ _ hst => hst)
      (fun f st b v hst => FeaFinderAllNodeTry_recorded s vBest f st b v hst) f st e hst)
    vBest rchildStat lchildStat (fun p hp => absurd rfl hp)
  refine ⟨out, hout, ?_⟩
  intro p hp x y par hx hy hpar
  have hy2 := h p hp x y hx hy
  have hpd : s.m_nodeStat.getD p nodeStat.zero = par := by
    rw [List.get?_eq_getElem?] at hpar
    simp [List.getD_eq_getElem?_getD, hpar]
  rw [hy2, hpd]
  simp only [nodeStat.Subtract]
  constructor <;> ring

/-- Witness of C16: on the scenario of the spec vBest[0] is updated, and the recorded
statistics (2, 2) and (-2, 2) add up to m_nodeStat[0] = (0, 4). -/
theorem recorded_children_sum_to_parent_witness :
    ∃ out, (⟨[[⟨0, 1⟩, ⟨1, 1⟩, ⟨2, 3⟩, ⟨3, 5⟩]], [0, 0, 0, 0],
        [⟨-1, 1⟩, ⟨-1, 1⟩, ⟨1, 1⟩, ⟨1, 1⟩], [⟨0, 4⟩], [(0, 0)], 1, 0⟩ :
        Splitter).FeaFinderAllNode [⟨0, 0, -1⟩] [⟨0, 0⟩] [⟨0, 0⟩] = some out ∧
      out.vBest.get? 0 ≠ [(⟨0, 0, -1⟩ : SplitPoint)].get? 0 ∧
      out.rchildStat.get? 0 = some ⟨-2, 2⟩ ∧ out.lchildStat.get? 0 = some ⟨2, 2⟩ ∧
      (2 : ℚ) + 2 = 4 ∧ (2 : ℚ) + -2 = 0 := by
  obtain ⟨out, hout, h⟩ := recorded_children_sum_to_parent
    ⟨[[⟨0, 1⟩, ⟨1, 1⟩, ⟨2, 3⟩, ⟨3, 5⟩]], [0, 0, 0, 0],
      [⟨-1, 1⟩, ⟨-1, 1⟩, ⟨1, 1⟩, ⟨1, 1⟩], [⟨0, 4⟩], [(0, 0)], 1, 0⟩
    [⟨0, 0, -1⟩] [⟨0, 0⟩] [⟨0, 0⟩]
  have hs := FeaFinderAllNode_scenario
  rw [hout] at hs
  simp only [Option.map_some', Option.some.injEq, Prod.mk.injEq] at hs
  have hne : out.vBest.get? 0 ≠ [(⟨0, 0, -1⟩ : SplitPoint)].get? 0 := by
    rw [hs.1]; simp
  have hr : out.rchildStat.get? 0 = some ⟨-2, 2⟩ := by rw [hs.2.1]; rfl
  have hl : out.lchildStat.get? 0 = some ⟨2, 2⟩ := by rw [hs.2.2.1]; rfl
  have := h 0 hne ⟨-2, 2⟩ ⟨2, 2⟩ ⟨0, 4⟩ hr hl rfl
  exact ⟨out, hout, hne, hr, hl, this.1, this.2⟩

theorem FeaFinderAllNodeTry_GainCallOK (s : Splitter) (f : Nat) (st : AllNodeLocals)
    (b : Nat) (v : ℚ) (h : ∀ c ∈ st.calls, GainCallOK c) :
    ∃ st1, FeaFinderAllNodeTry s f st b v = some st1 ∧ ∀ c ∈ st1.calls, GainCallOK c := by
  by_cases hc : AllNodeCandidate s st b v
  · have hnew : ∀ c ∈ st.calls ++ [(⟨s.m_nodeStat.getD b nodeStat.zero,
          st.tempStat.getD b nodeStat.zero,
          nodeStat.Subtract (s.m_nodeStat.getD b nodeStat.zero)
            (st.tempStat.getD b nodeStat.zero)⟩ : GainCall)], GainCallOK c := by
      intro c hcm
      rcases List.mem_append.mp hcm with hcm | hcm
      · exact h c hcm
      · rw [List.mem_singleton] at hcm
        subst hcm
        exact ⟨rfl, hc.1.2, hc.2⟩
    by_cases hg : s.splitGain (s.m_nodeStat.getD b nodeStat.zero)
        (st.tempStat.getD b nodeStat.zero) > (st.vBest.getD b ⟨0, 0, 0⟩).m_fGain
    · exact ⟨_, FeaFinderAllNodeTry_improved s f st b v hc hg, hnew⟩
    · exact ⟨_, FeaFinderAllNodeTry_not_improved s f st b v hc hg, hnew⟩
  · exact ⟨_, FeaFinderAllNodeTry_not_candidate s f st b v hc, h⟩

theorem BestSplitValueStep_GainCallOK (s : Splitter) (f : Nat) (parent : nodeStat) (n : Int)
    (st : BestSplitLocals) (e : key_value) (h : ∀ c ∈ st.calls, GainCallOK c) :
    ∃ st2, BestSplitValueStep s f parent n st e = some st2 ∧
      ∀ c ∈ st2.calls, GainCallOK c := by
  unfold BestSplitValueStep
  dsimp only
  split
  · exact ⟨st, rfl, h⟩
  · split
    · exact ⟨_, rfl, h⟩
    · by_cases hc : BestSplitCandidate parent st e.featureValue
      · rw [BestSplitValueTry_candidate s f parent st e.featureValue hc]
        refine ⟨_, rfl, ?_⟩
        intro c hcm
        simp only [Option.map_some', List.mem_append, List.mem_singleton] at hcm
        rcases hcm with hcm | hcm
        · exact h c hcm
        · subst hcm
          exact ⟨rfl, hc.1.2, hc.2⟩
      · obtain ⟨l, hl⟩ := BestSplitValueTry_not_candidate s f parent st e.featureValue hc
        rw [hl]
        exact ⟨_, rfl, h⟩

/-- The two assertions of CalGain hold and no denominator vanishes for arguments that
satisfy GainCallOK. -/
theorem GainCallOK_safe (s : Splitter) (c : GainCall) (h : GainCallOK c) :
    c.l_child.sum_gd + c.r_child.sum_gd = c.parent.sum_gd ∧
    c.l_child.sum_hess + c.r_child.sum_hess = c.parent.sum_hess ∧
    (s.CalGain c.parent c.r_child c.l_child).isSome = true ∧
    (s.m_labda ≥ 0 → c.l_child.sum_hess + s.m_labda ≠ 0 ∧
      c.r_child.sum_hess + s.m_labda ≠ 0 ∧ c.parent.sum_hess + s.m_labda ≠ 0) := by
  obtain ⟨hl, hr, hl1⟩ := h
  have hgd : c.l_child.sum_gd + c.r_child.sum_gd = c.parent.sum_gd := by
    rw [hl]; simp [nodeStat.Subtract]
  have hhs : c.l_child.sum_hess + c.r_child.sum_hess = c.parent.sum_hess := by
    rw [hl]; simp [nodeStat.Subtract]
  refine ⟨hgd, hhs, ?_, ?_⟩
  · rw [hl, CalGain_Subtract_splitGain]; rfl
  · intro hlam
    have h1 : c.l_child.sum_hess + s.m_labda > 0 := by linarith
    have h2 : c.r_child.sum_hess + s.m_labda > 0 := by linarith
    have h3 : c.parent.sum_hess + s.m_labda > 0 := by linarith
    exact ⟨ne_of_gt h1, ne_of_gt h2, ne_of_gt h3⟩

/-- C17: both searches complete, so no assertion of CalGain fails in them, and in every
call of CalGain made by FeaFinderAllNode and by BestSplitValue, l.sum_gd + r.sum_gd =
parent.sum_gd and l.sum_hess + r.sum_hess = parent.sum_hess, the two assertions hold, and
for lambda >= 0 none of the three denominators sum_hess + lambda is zero. -/
theorem CalGain_preconditions_hold (s : Splitter) (fresh : SplitPoint) :
    (∀ (vBest : List SplitPoint) (rchildStat lchildStat : List nodeStat),
      ∃ out, s.FeaFinderAllNode vBest rchildStat lchildStat = some out ∧
        ∀ c ∈ out.calls,
          c.l_child.sum_gd + c.r_child.sum_gd = c.parent.sum_gd ∧
          c.l_child.sum_hess + c.r_child.sum_hess = c.parent.sum_hess ∧
          (s.CalGain c.parent c.r_child c.l_child).isSome = true ∧
          (s.m_labda ≥ 0 → c.l_child.sum_hess + s.m_labda ≠ 0 ∧
            c.r_child.sum_hess + s.m_labda ≠ 0 ∧ c.parent.sum_hess + s.m_labda ≠ 0)) ∧
    (∀ (nFeatureId : Nat) (parent : nodeStat) (nodeId : Int),
      ∃ st, s.BestSplitValueLoop fresh nFeatureId parent nodeId = some st ∧
        ∀ c ∈ st.calls,
          c.l_child.sum_gd + c.r_child.sum_gd = c.parent.sum_gd ∧
          c.l_child.sum_hess + c.r_child.sum_hess = c.parent.sum_hess ∧
          (s.CalGain c.parent c.r_child c.l_child).isSome = true ∧
          (s.m_labda ≥ 0 → c.l_child.sum_hess + s.m_labda ≠ 0 ∧
            c.r_child.sum_hess + s.m_labda ≠ 0 ∧ c.parent.sum_hess + s.m_labda ≠ 0)) := by
  constructor
  · intro vBest rchildStat lchildStat
    obtain ⟨out, hout, h⟩ := FeaFinderAllNode_invariant s
      (fun st => ∀ c ∈ st.calls, GainCallOK c)
      (fun st _ _ hst => hst)
      (fun f st e hst => FeaFinderAllNodeStep_of_try s _ (fun st _ _ _ hst => hst)
        (fun f st b v hst => FeaFinderAllNodeTry_GainCallOK s f st b v hst) f st e hst)
      vBest rchildStat lchildStat (fun c hc => by simp at hc)
    exact ⟨out, hout, fun c hc => GainCallOK_safe s c (h c hc)⟩
  · intro nFeatureId parent nodeId
    obtain ⟨st, hst, h⟩ := foldlM_prefix_invariant
      (BestSplitValueStep s nFeatureId parent nodeId)
      (fun _ st => ∀ c ∈ st.calls, GainCallOK c)
      (fun _ a st hst => BestSplitValueStep_GainCallOK s nFeatureId parent nodeId st a hst)
      (s.m_vvFeaInxPair.getD nFeatureId []) []
      ⟨true, nodeStat.zero, nodeStat.zero, 0, fresh, []⟩
      (fun c hc => by simp at hc)
    exact ⟨st, hst, fun c hc => GainCallOK_safe s c (h c hc)⟩

/-- Witness of C17: on the scenario of the spec the batched search calls CalGain (twice),
so the statement is about actual calls. -/
theorem CalGain_preconditions_hold_witness :
    ((⟨[[⟨0, 1⟩, ⟨1, 1⟩, ⟨2, 3⟩, ⟨3, 5⟩]], [0, 0, 0, 0],
        [⟨-1, 1⟩, ⟨-1, 1⟩, ⟨1, 1⟩, ⟨1, 1⟩], [⟨0, 4⟩], [(0, 0)], 1, 0⟩ :
        Splitter).FeaFinderAllNode [⟨0, 0, -1⟩] [⟨0, 0⟩] [⟨0, 0⟩]).map (fun o => o.calls)
      = some [⟨⟨0, 4⟩, ⟨-2, 2⟩, ⟨2, 2⟩⟩, ⟨⟨0, 4⟩, ⟨-1, 3⟩, ⟨1, 1⟩⟩] ∧
    ∃ out, (⟨[[⟨0, 1⟩, ⟨1, 1⟩, ⟨2, 3⟩, ⟨3, 5⟩]], [0, 0, 0, 0],
        [⟨-1, 1⟩, ⟨-1, 1⟩, ⟨1, 1⟩, ⟨1, 1⟩], [⟨0, 4⟩], [(0, 0)], 1, 0⟩ :
        Splitter).FeaFinderAllNode [⟨0, 0, -1⟩] [⟨0, 0⟩] [⟨0, 0⟩] = some out ∧
      out.calls ≠ [] := by
  have hc : ((⟨[[⟨0, 1⟩, ⟨1, 1⟩, ⟨2, 3⟩, ⟨3, 5⟩]], [0, 0, 0, 0],
        [⟨-1, 1⟩, ⟨-1, 1⟩, ⟨1, 1⟩, ⟨1, 1⟩], [⟨0, 4⟩], [(0, 0)], 1, 0⟩ :
        Splitter).FeaFinderAllNode [⟨0, 0, -1⟩] [⟨0, 0⟩] [⟨0, 0⟩]).map (fun o => o.calls)
      = some [⟨⟨0, 4⟩, ⟨-2, 2⟩, ⟨2, 2⟩⟩, ⟨⟨0, 4⟩, ⟨-1, 3⟩, ⟨1, 1⟩⟩] := by
    with_unfolding_all decide
  refine ⟨hc, ?_⟩
  obtain ⟨out, hout, _⟩ := (CalGain_preconditions_hold
    ⟨[[⟨0, 1⟩, ⟨1, 1⟩, ⟨2, 3⟩, ⟨3, 5⟩]], [0, 0, 0, 0],
      [⟨-1, 1⟩, ⟨-1, 1⟩, ⟨1, 1⟩, ⟨1, 1⟩], [⟨0, 4⟩], [(0, 0)], 1, 0⟩ ⟨0, 0, -1⟩).1
    [⟨0, 0, -1⟩] [⟨0, 0⟩] [⟨0, 0⟩]
  refine ⟨out, hout, ?_⟩
  rw [hout] at hc
  simp only [Option.map_some', Option.some.injEq] at hc
  rw [hc]
  simp

/-- When every assignment is -1 or a key of the map, one entry of a column leaves the map
as it is. -/
theorem FeaFinderAllNodeStep_map (s : Splitter)
    (hids : ∀ x ∈ s.m_nodeIds, x = -1 ∨ ∃ q, mapFind s.mapNodeIdToBufferPos x = some q)
    (f : Nat) (st : AllNodeLocals) (e : key_value) (h : st.map = s.mapNodeIdToBufferPos) :
    ∃ st2, FeaFinderAllNodeStep s f st e = some st2 ∧ st2.map = s.mapNodeIdToBufferPos := by
  unfold FeaFinderAllNodeStep
  dsimp only
  by_cases h1 : s.nodeIdAt e.id = -1
  · rw [if_pos h1]; exact ⟨st, rfl, h⟩
  · rw [if_neg h1]
    obtain ⟨_, hmem⟩ := nodeIdAt_mem s e.id h1
    obtain ⟨q, hq⟩ := (hids _ hmem).resolve_left h1
    rw [h, mapIndex_found _ _ _ hq]
    dsimp only
    split
    · exact ⟨_, rfl, rfl⟩
    · obtain ⟨st1, h1, _, _, hmp, _⟩ := FeaFinderAllNodeTry_frame s f
        { st with map := s.mapNodeIdToBufferPos } q e.featureValue
      rw [h1]
      exact ⟨_, rfl, hmp⟩

/-- C18 fails as stated: with node 3 the only key and one instance assigned to node 5, a
search pass inserts key 5 at position 0 into the map. -/
theorem FeaFinderAllNode_map_counterexample :
    ((⟨[[⟨0, 1⟩]], [5], [⟨1, 1⟩], [⟨1, 1⟩], [(3, 0)], 1, 0⟩ : Splitter).FeaFinderAllNode
        [⟨0, 0, -1⟩] [⟨0, 0⟩] [⟨0, 0⟩]).map (fun o => o.map) = some [(3, 0), (5, 0)] ∧
    ((⟨[[⟨0, 1⟩]], [5], [⟨1, 1⟩], [⟨1, 1⟩], [(3, 0)], 1, 0⟩ : Splitter).FeaFinderAllNode
        [⟨0, 0, -1⟩] [⟨0, 0⟩] [⟨0, 0⟩]).map (fun o => o.map)
      ≠ some (⟨[[⟨0, 1⟩]], [5], [⟨1, 1⟩], [⟨1, 1⟩], [(3, 0)], 1, 0⟩ :
          Splitter).mapNodeIdToBufferPos := by
  constructor
  · with_unfolding_all decide
  · with_unfolding_all decide

/-- C18 (amended): in every state in which each assignment entry is -1 or a key of the
buffer map, FeaFinderAllNode completes and the buffer map after it equals the buffer map
before it, no key inserted and none erased. -/
theorem FeaFinderAllNode_map_unchanged (s : Splitter) (vBest : List SplitPoint)
    (rchildStat lchildStat : List nodeStat)
    (hids : ∀ x ∈ s.m_nodeIds, x = -1 ∨ ∃ q, mapFind s.mapNodeIdToBufferPos x = some q) :
    ∃ out, s.FeaFinderAllNode vBest rchildStat lchildStat = some out ∧
      out.map = s.mapNodeIdToBufferPos :=
  FeaFinderAllNode_invariant s (fun st => st.map = s.mapNodeIdToBufferPos)
    (fun _ _ _ hst => hst)
    (fun f st e hst => FeaFinderAllNodeStep_map s hids f st e hst)
    vBest rchildStat lchildStat rfl

/-- Witness of C18 (amended): the scenario of the spec, where every instance is assigned
to the root, the one key of the map. -/
theorem FeaFinderAllNode_map_unchanged_witness :
    ∃ out, (⟨[[⟨0, 1⟩, ⟨1, 1⟩, ⟨2, 3⟩, ⟨3, 5⟩]], [0, 0, 0, 0],
        [⟨-1, 1⟩, ⟨-1, 1⟩, ⟨1, 1⟩, ⟨1, 1⟩], [⟨0, 4⟩], [(0, 0)], 1, 0⟩ :
        Splitter).FeaFinderAllNode [⟨0, 0, -1⟩] [⟨0, 0⟩] [⟨0, 0⟩] = some out ∧
      out.map = [(0, 0)] :=
  FeaFinderAllNode_map_unchanged
    ⟨[[⟨0, 1⟩, ⟨1, 1⟩, ⟨2, 3⟩, ⟨3, 5⟩]], [0, 0, 0, 0],
      [⟨-1, 1⟩, ⟨-1, 1⟩, ⟨1, 1⟩, ⟨1, 1⟩], [⟨0, 4⟩], [(0, 0)], 1, 0⟩
    [⟨0, 0, -1⟩] [⟨0, 0⟩] [⟨0, 0⟩]
    (by
      intro x hx
      right
      simp only [List.mem_cons, List.mem_singleton, List.not_mem_nil, or_false, or_self] at hx
      subst hx
      exact ⟨0, by simp [mapFind]⟩)

end Splitter

/-! ## Buffer rebuild and child creation -/

theorem mapFind_mapInsert_new (m : List (Int × Nat)) (k : Int) (v : Nat)
    (h : mapFind m k = none) (x : Int) :
    mapFind (mapInsert m k v) x = if x = k then some v else mapFind m x := by
  induction m with
  | nil =>
    simp only [mapInsert, mapFind]
    by_cases hx : x = k
    · rw [if_pos hx.symm, if_pos hx]
    · rw [if_neg (Ne.symm hx), if_neg hx]
  | cons e t ih =>
    obtain ⟨a, b⟩ := e
    simp only [mapFind] at h
    have hak : ¬ a = k := by
      intro hak
      rw [if_pos hak] at h
      cases h
    rw [if_neg hak] at h
    simp only [mapInsert]
    by_cases h1 : k < a
    · rw [if_pos h1]
      simp only [mapFind]
      by_cases hx : x = k
      · rw [if_pos hx.symm, if_pos hx]
      · rw [if_neg (Ne.symm hx), if_neg hx]
    · rw [if_neg h1, if_neg (Ne.symm hak)]
      simp only [mapFind]
      rw [ih h]
      by_cases hax : a = x
      · have hxk : ¬ x = k := fun hxk => hak (hax.trans hxk)
        rw [if_pos hax, if_neg hxk, if_pos hax]
      · rw [if_neg hax, if_neg hax]

theorem mapInsert_length_new (m : List (Int × Nat)) (k : Int) (v : Nat)
    (h : mapFind m k = none) : (mapInsert m k v).length = m.length + 1 := by
  induction m with
  | nil => rfl
  | cons e t ih =>
    obtain ⟨a, b⟩ := e
    simp only [mapFind] at h
    have hak : ¬ a = k := by
      intro hak
      rw [if_pos hak] at h
      cases h
    rw [if_neg hak] at h
    simp only [mapInsert]
    by_cases h1 : k < a
    · rw [if_pos h1]; simp
    · rw [if_neg h1, if_neg (Ne.symm hak)]
      simp [ih h]

namespace Splitter

/-- State of the loop of UpdateNodeStat after the first k new nodes, when their node ids
are pairwise distinct and the map was empty. -/
theorem UpdateNodeStat_loop (mem : List TreeNode) (nodes : List Nat) (stats : List nodeStat)
    (hinj : ∀ i j, i < nodes.length → j < nodes.length →
      (derefNode mem (nodes.getD i 0)).nodeId = (derefNode mem (nodes.getD j 0)).nodeId → i = j)
    (hlen : nodes.length = stats.length) (k : Nat) (hk : k ≤ nodes.length) :
    ((List.range k).foldl (UpdateNodeStatStep mem nodes stats) ([], [])).2 = stats.take k ∧
    ((List.range k).foldl (UpdateNodeStatStep mem nodes stats) ([], [])).1.length = k ∧
    ∀ x q, mapFind ((List.range k).foldl (UpdateNodeStatStep mem nodes stats) ([], [])).1 x
        = some q ↔ q < k ∧ (derefNode mem (nodes.getD q 0)).nodeId = x := by
  induction k with
  | zero =>
    refine ⟨by simp, by simp, ?_⟩
    intro x q
    simp [mapFind]
  | succ k ih =>
    obtain ⟨h1, h2, h3⟩ := ih (Nat.le_of_succ_le hk)
    have hklt : k < nodes.length := hk
    have hnone : mapFind ((List.range k).foldl (UpdateNodeStatStep mem nodes stats) ([], [])).1
        (derefNode mem (nodes.getD k 0)).nodeId = none := by
      cases hf : mapFind ((List.range k).foldl (UpdateNodeStatStep mem nodes stats) ([], [])).1
          (derefNode mem (nodes.getD k 0)).nodeId with
      | none => rfl
      | some q =>
        obtain ⟨hq, hid⟩ := (h3 _ q).mp hf
        have := hinj q k (lt_trans hq hklt) hklt hid
        omega
    rw [List.range_succ, List.foldl_append]
    simp only [List.foldl_cons, List.foldl_nil, UpdateNodeStatStep]
    refine ⟨?_, ?_, ?_⟩
    · rw [h1]
      have hks : k < stats.length := by rw [← hlen]; exact hklt
      rw [List.take_succ]
      simp [List.getD_eq_getElem?_getD, List.getElem?_eq_getElem hks]
    · rw [mapInsert_length_new _ _ _ hnone, h2]
    · intro x q
      rw [mapFind_mapInsert_new _ _ _ hnone]
      by_cases hx : x = (derefNode mem (nodes.getD k 0)).nodeId
      · rw [if_pos hx]
        constructor
        · intro hq
          cases hq
          exact ⟨Nat.lt_succ_self _, hx.symm⟩
        · rintro ⟨hq, hid⟩
          have := hinj q k (lt_of_lt_of_le hq hk) hklt (hid.trans hx)
          rw [this]
      · rw [if_neg hx, h3 x q]
        constructor
        · rintro ⟨hq, hid⟩
          exact ⟨Nat.lt_succ_of_lt hq, hid⟩
        · rintro ⟨hq, hid⟩
          refine ⟨?_, hid⟩
          by_contra hnot
          have hqk : q = k := by omega
          rw [hqk] at hid
          exact hx hid.symm

/-- C19 fails as stated: for two new nodes that both bear node id 7 the rebuilt map has the
single key 7 at position 0, so the second node is not mapped to its index 1 and position 1
is no buffer position of the map. -/
theorem UpdateNodeStat_counterexample :
    ((⟨[], [], [], [], [], 1, 0⟩ : Splitter).UpdateNodeStat
        [⟨7, 0, 0, 0, 0, 0, 0⟩, ⟨7, 0, 0, 0, 0, 0, 0⟩] [0, 1] [⟨1, 1⟩, ⟨2, 1⟩]).map
        (fun s2 => s2.mapNodeIdToBufferPos) = some [(7, 0)] ∧
    (derefNode [⟨7, 0, 0, 0, 0, 0, 0⟩, ⟨7, 0, 0, 0, 0, 0, 0⟩] ([0, 1].getD 1 0)).nodeId = 7 ∧
    mapFind [(7, 0)] 7 ≠ some 1 := by
  refine ⟨?_, ?_, ?_⟩
  · with_unfolding_all decide
  · with_unfolding_all decide
  · with_unfolding_all decide

/-- C19 (amended): when mapNodeIdToBufferPos is empty, newSplittableNode and v_nodeStat have
the same length n and the node ids of the new nodes are pairwise distinct, UpdateNodeStat
completes, m_nodeStat equals v_nodeStat, the map has n entries, newSplittableNode[i].nodeId
is mapped to i for every i < n, the key set is the set of the new node ids, and the buffer
positions are exactly 0..n-1. -/
theorem UpdateNodeStat_dense (s : Splitter) (mem : List TreeNode)
    (newSplittableNode : List Nat) (v_nodeStat : List nodeStat)
    (hempty : s.mapNodeIdToBufferPos = [])
    (hlen : newSplittableNode.length = v_nodeStat.length)
    (hnd : (newSplittableNode.map (fun p => (derefNode mem p).nodeId)).Nodup) :
    ∃ s2, s.UpdateNodeStat mem newSplittableNode v_nodeStat = some s2 ∧
      s2.m_nodeStat = v_nodeStat ∧
      s2.mapNodeIdToBufferPos.length = newSplittableNode.length ∧
      (∀ i p, newSplittableNode.get? i = some p →
        mapFind s2.mapNodeIdToBufferPos (derefNode mem p).nodeId = some i) ∧
      (∀ x, (∃ q, mapFind s2.mapNodeIdToBufferPos x = some q) ↔
        x ∈ newSplittableNode.map (fun p => (derefNode mem p).nodeId)) ∧
      (∀ q, (∃ x, mapFind s2.mapNodeIdToBufferPos x = some q) ↔
        q < newSplittableNode.length) := by
  have hget : ∀ i, i < newSplittableNode.length →
      (newSplittableNode.map (fun p => (derefNode mem p).nodeId))[i]?
        = some (derefNode mem (newSplittableNode.getD i 0)).nodeId := by
    intro i hi
    simp [List.getD_eq_getElem?_getD, List.getElem?_eq_getElem hi]
  have hinj : ∀ i j, i < newSplittableNode.length → j < newSplittableNode.length →
      (derefNode mem (newSplittableNode.getD i 0)).nodeId
        = (derefNode mem (newSplittableNode.getD j 0)).nodeId → i = j := by
    intro i j hi hj hij
    have h1 := hget i hi
    have h2 := hget j hj
    rw [hij] at h1
    have hi2 : i < (newSplittableNode.map (fun p => (derefNode mem p).nodeId)).length := by
      simpa using hi
    have hj2 : j < (newSplittableNode.map (fun p => (derefNode mem p).nodeId)).length := by
      simpa using hj
    rw [List.getElem?_eq_getElem hi2] at h1
    rw [List.getElem?_eq_getElem hj2] at h2
    exact (List.Nodup.getElem_inj_iff hnd).mp (Option.some.inj (h1.trans h2.symm))
  obtain ⟨h1, h2, h3⟩ := UpdateNodeStat_loop mem newSplittableNode v_nodeStat hinj hlen
    newSplittableNode.length (le_refl _)
  unfold UpdateNodeStat
  rw [if_pos ⟨hempty, hlen⟩, hempty]
  refine ⟨_, rfl, ?_, h2, ?_, ?_, ?_⟩
  · dsimp only
    rw [h1, hlen, List.take_length]
  · intro i p hp
    dsimp only
    rw [List.get?_eq_getElem?] at hp
    have hi : i < newSplittableNode.length := (List.getElem?_eq_some_iff.mp hp).1
    have hpd : newSplittableNode.getD i 0 = p := by
      simp [List.getD_eq_getElem?_getD, hp]
    rw [h3]
    exact ⟨hi, by rw [hpd]⟩
  · intro x
    dsimp only
    constructor
    · rintro ⟨q, hq⟩
      obtain ⟨hql, hid⟩ := (h3 x q).mp hq
      rw [← hid]
      exact List.getElem?_mem (hget q hql)
    · intro hx
      obtain ⟨i, hi, hxi⟩ := List.getElem_of_mem hx
      have hi2 : i < newSplittableNode.length := by simpa using hi
      have := hget i hi2
      rw [List.getElem?_eq_getElem hi, hxi] at this
      exact ⟨i, (h3 x i).mpr ⟨hi2, (Option.some.inj this).symm⟩⟩
  · intro q
    dsimp only
    constructor
    · rintro ⟨x, hx⟩
      exact ((h3 x q).mp hx).1
    · intro hq
      exact ⟨_, (h3 _ q).mpr ⟨hq, rfl⟩⟩

/-- Witness of C19 (amended): two new nodes with ids 3 and 4. -/
theorem UpdateNodeStat_dense_witness :
    ∃ s2, (⟨[], [], [], [], [], 1, 0⟩ : Splitter).UpdateNodeStat
        [⟨3, 0, 0, 0, 0, 0, 1⟩, ⟨4, 0, 0, 0, 0, 0, 1⟩] [0, 1] [⟨1, 1⟩, ⟨2, 1⟩] = some s2 ∧
      s2.m_nodeStat = [⟨1, 1⟩, ⟨2, 1⟩] ∧
      s2.mapNodeIdToBufferPos.length = [0, 1].length ∧
      (∀ i p, [0, 1].get? i = some p →
        mapFind s2.mapNodeIdToBufferPos
          (derefNode [⟨3, 0, 0, 0, 0, 0, 1⟩, ⟨4, 0, 0, 0, 0, 0, 1⟩] p).nodeId = some i) ∧
      (∀ x, (∃ q, mapFind s2.mapNodeIdToBufferPos x = some q) ↔
        x ∈ [0, 1].map (fun p =>
          (derefNode [⟨3, 0, 0, 0, 0, 0, 1⟩, ⟨4, 0, 0, 0, 0, 0, 1⟩] p).nodeId)) ∧
      (∀ q, (∃ x, mapFind s2.mapNodeIdToBufferPos x = some q) ↔ q < [0, 1].length) :=
  UpdateNodeStat_dense ⟨[], [], [], [], [], 1, 0⟩
    [⟨3, 0, 0, 0, 0, 0, 1⟩, ⟨4, 0, 0, 0, 0, 0, 1⟩] [0, 1] [⟨1, 1⟩, ⟨2, 1⟩] rfl rfl
    (by with_unfolding_all decide)

end Splitter

theorem writeNode_length (mem : List TreeNode) (p : Nat) (f : TreeNode → TreeNode) :
    (writeNode mem p f).length = mem.length := by
  simp [writeNode]

theorem derefNode_writeNode_same (mem : List TreeNode) (p : Nat) (f : TreeNode → TreeNode)
    (h : p < mem.length) : derefNode (writeNode mem p f) p = f (derefNode mem p) := by
  unfold writeNode
  unfold derefNode
  exact getD_set_self _ _ _ _ h

theorem derefNode_writeNode_other (mem : List TreeNode) (p q : Nat) (f : TreeNode → TreeNode)
    (h : p ≠ q) : derefNode (writeNode mem p f) q = derefNode mem q := by
  unfold writeNode
  unfold derefNode
  exact getD_set_other _ _ _ _ _ h

theorem derefNode_append_left (mem ext : List TreeNode) (p : Nat) (h : p < mem.length) :
    derefNode (mem ++ ext) p = derefNode mem p := by
  simp [derefNode, List.getD_eq_getElem?_getD, List.getElem?_append_left h]

theorem derefNode_get (mem : List TreeNode) (p : Nat) (h : p < mem.length) :
    mem.get? p = some (derefNode mem p) := by
  simp [derefNode, List.getD_eq_getElem?_getD, List.getElem?_eq_getElem h]

namespace Splitter

theorem UpdateNodeIdAt_foldl_child (fPivot : ℚ) (parent left right : Int)
    (occ : List key_value) :
    ∀ st : Int × Int, (st.1 = left ∨ st.1 = right) →
      ((occ.foldl (UpdateNodeIdAt fPivot parent left right) st).1 = left ∨
       (occ.foldl (UpdateNodeIdAt fPivot parent left right) st).1 = right) := by
  induction occ with
  | nil => intro st h; exact h
  | cons e occ ih =>
    intro st h
    simp only [List.foldl_cons]
    apply ih
    unfold UpdateNodeIdAt
    split
    · exact h
    · dsimp only
      split
      · right; rfl
      · left; rfl

theorem UpdateNodeIdRestAt_child (parent left right : Int) (st : Int × Int)
    (h : st.1 = left ∨ st.1 = right) :
    UpdateNodeIdRestAt parent left st = left ∨ UpdateNodeIdRestAt parent left st = right := by
  unfold UpdateNodeIdRestAt
  split
  · exact h
  · split
    · left; rfl
    · exact h

/-- Every instance of the parent ends with the left or the right id, whatever the ids. -/
theorem UpdateNodeIdForSparseData_parent (s : Splitter) (sp : SplitPoint)
    (parent left right : Int) (i : Nat) (hi : i < s.m_nodeIds.length)
    (hp : s.m_nodeIds.getD i (-1) = parent) :
    (s.UpdateNodeIdForSparseData sp parent left right).m_nodeIds.getD i (-1) = left ∨
    (s.UpdateNodeIdForSparseData sp parent left right).m_nodeIds.getD i (-1) = right := by
  rw [UpdateNodeIdForSparseData_at s sp parent left right i hi, hp]
  cases hocc : (s.columnOf sp.m_nFeatureId).filter (fun e => e.id = i) with
  | nil =>
    left
    simp [UpdateNodeIdRestAt]
  | cons e occ =>
    simp only [List.foldl_cons]
    have hstep : UpdateNodeIdAt sp.m_fSplitValue parent left right (parent, 0) e
        = (if e.featureValue ≥ sp.m_fSplitValue then right else left, 1) := by
      unfold UpdateNodeIdAt; simp
    rw [hstep]
    have h0 : (if e.featureValue ≥ sp.m_fSplitValue then right else left) = left ∨
        (if e.featureValue ≥ sp.m_fSplitValue then right else left) = right := by
      split
      · right; rfl
      · left; rfl
    exact UpdateNodeIdRestAt_child parent left right _
      (UpdateNodeIdAt_foldl_child sp.m_fSplitValue parent left right occ
        (if e.featureValue ≥ sp.m_fSplitValue then right else left, 1) h0)

/-- C13: with k the value of m_nNumofNode on entry and node a valid pointer,
SplitNodeSparseData allocates two nodes; the left child gets nodeId k and the right child
nodeId k+1, both get parentId = node.nodeId and level = node.level + 1; the parent records
leftChildId = k, rightChildId = k+1, featureId = sp.m_nFeatureId and fSplitValue =
sp.m_fSplitValue; m_nNumofNode becomes k+2; newSplittableNode and tree.nodes each grow by
exactly the pointers [left, right] in that order; and m_nodeIds is rewritten by
UpdateNodeIdForSparseData with the ids k (left) and k+1 (right), so that every instance of
the parent bears k or k+1 afterwards. -/
theorem SplitNodeSparseData_children (s : Splitter) (fresh : TreeNode) (mem : List TreeNode)
    (node : Nat) (newSplittableNode : List Nat) (sp : SplitPoint) (tree : RegTree) (k : Int)
    (hnode : node < mem.length) :
    (s.SplitNodeSparseData fresh mem node newSplittableNode sp tree k).mem.get? mem.length
      = some { fresh with nodeId := k, parentId := (derefNode mem node).nodeId,
                          level := (derefNode mem node).level + 1 } ∧
    (s.SplitNodeSparseData fresh mem node newSplittableNode sp tree k).mem.get? (mem.length + 1)
      = some { fresh with nodeId := k + 1, parentId := (derefNode mem node).nodeId,
                          level := (derefNode mem node).level + 1 } ∧
    (s.SplitNodeSparseData fresh mem node newSplittableNode sp tree k).mem.get? node
      = some { derefNode mem node with
                 leftChildId := k, rightChildId := k + 1,
                 featureId := sp.m_nFeatureId, fSplitValue := sp.m_fSplitValue } ∧
    (s.SplitNodeSparseData fresh mem node newSplittableNode sp tree k).mem.length
      = mem.length + 2 ∧
    (s.SplitNodeSparseData fresh mem node newSplittableNode sp tree k).m_nNumofNode = k + 2 ∧
    (s.SplitNodeSparseData fresh mem node newSplittableNode sp tree k).newSplittableNode
      = newSplittableNode ++ [mem.length, mem.length + 1] ∧
    (s.SplitNodeSparseData fresh mem node newSplittableNode sp tree k).tree.nodes
      = tree.nodes ++ [mem.length, mem.length + 1] ∧
    (s.SplitNodeSparseData fresh mem node newSplittableNode sp tree k).splitter
      = s.UpdateNodeIdForSparseData sp (derefNode mem node).nodeId k (k + 1) ∧
    (∀ i, s.m_nodeIds.get? i = some (derefNode mem node).nodeId →
      (s.SplitNodeSparseData fresh mem node newSplittableNode sp tree k).splitter.m_nodeIds.get? i
          = some k ∨
      (s.SplitNodeSparseData fresh mem node newSplittableNode sp tree k).splitter.m_nodeIds.get? i
          = some (k + 1)) := by
  have hL : mem.length < (mem ++ [fresh, fresh]).length := by simp
  have hR : mem.length + 1 < (mem ++ [fresh, fresh]).length := by simp
  have hN : node < (mem ++ [fresh, fresh]).length := by simp; omega
  have hNL : node ≠ mem.length := by omega
  have hNR : node ≠ mem.length + 1 := by omega
  have hLN : mem.length ≠ node := by omega
  have hRN : mem.length + 1 ≠ node := by omega
  have hLR : mem.length ≠ mem.length + 1 := by omega
  have hRL : mem.length + 1 ≠ mem.length := by omega
  have h0L : derefNode (mem ++ [fresh, fresh]) mem.length = fresh := by
    unfold derefNode
    rw [List.getD_eq_getElem?_getD, List.getElem?_append_right (le_refl _)]
    simp
  have h0R : derefNode (mem ++ [fresh, fresh]) (mem.length + 1) = fresh := by
    unfold derefNode
    rw [List.getD_eq_getElem?_getD, List.getElem?_append_right (Nat.le_succ _)]
    simp
  have h0N : derefNode (mem ++ [fresh, fresh]) node = derefNode mem node :=
    derefNode_append_left mem _ node hnode
  have hsplit : (s.SplitNodeSparseData fresh mem node newSplittableNode sp tree k).splitter
      = s.UpdateNodeIdForSparseData sp (derefNode mem node).nodeId k (k + 1) := by
    simp (disch := first | assumption | (simp only [writeNode_length]; assumption))
      only [SplitNodeSparseData, derefNode_writeNode_same, derefNode_writeNode_other,
        h0L, h0R, h0N, ne_eq, not_false_eq_true]
  refine ⟨?_, ?_, ?_, ?_, rfl, ?_, ?_, hsplit, ?_⟩
  · rw [derefNode_get _ _ (by simp only [SplitNodeSparseData, writeNode_length]; exact hL)]
    simp (disch := first | assumption | (simp only [writeNode_length]; assumption))
      only [SplitNodeSparseData, derefNode_writeNode_same, derefNode_writeNode_other,
        h0L, h0R, h0N, ne_eq, not_false_eq_true]
  · rw [derefNode_get _ _ (by simp only [SplitNodeSparseData, writeNode_length]; exact hR)]
    simp (disch := first | assumption | (simp only [writeNode_length]; assumption))
      only [SplitNodeSparseData, derefNode_writeNode_same, derefNode_writeNode_other,
        h0L, h0R, h0N, ne_eq, not_false_eq_true]
  · rw [derefNode_get _ _ (by simp only [SplitNodeSparseData, writeNode_length]; exact hN)]
    simp (disch := first | assumption | (simp only [writeNode_length]; assumption))
      only [SplitNodeSparseData, derefNode_writeNode_same, derefNode_writeNode_other,
        h0L, h0R, h0N, ne_eq, not_false_eq_true]
  · simp [SplitNodeSparseData, writeNode_length]
  · simp [SplitNodeSparseData]
  · simp [SplitNodeSparseData]
  · intro i hi
    rw [hsplit]
    rw [List.get?_eq_getElem?] at hi
    have hlt : i < s.m_nodeIds.length := (List.getElem?_eq_some_iff.mp hi).1
    have hx : s.m_nodeIds.getD i (-1) = (derefNode mem node).nodeId := by
      simp [List.getD_eq_getElem?_getD, hi]
    have hlen := UpdateNodeIdForSparseData_length s sp (derefNode mem node).nodeId k (k + 1)
    rw [getD_lt_get_some _ i (by rw [hlen]; exact hlt)]
    rcases UpdateNodeIdForSparseData_parent s sp _ k (k + 1) i hlt hx with h | h
    · left; rw [h]
    · right; rw [h]

/-- Witness of C13: the root (node 0, level 0) of a one-node tree is split on feature 0 at
threshold 2 when m_nNumofNode is 1. -/
theorem SplitNodeSparseData_children_witness :
    ((⟨[[⟨0, 1⟩, ⟨1, 3⟩]], [0, 0], [⟨-1, 1⟩, ⟨1, 1⟩], [⟨0, 2⟩], [(0, 0)], 1, 0⟩ :
        Splitter).SplitNodeSparseData ⟨-1, -1, -1, -1, -1, 0, 0⟩ [⟨0, -1, -1, -1, -1, 0, 0⟩] 0 []
        ⟨1, 2, 0⟩ ⟨[0]⟩ 1).mem
      = [⟨0, -1, 1, 2, 0, 2, 0⟩, ⟨1, 0, -1, -1, -1, 0, 1⟩, ⟨2, 0, -1, -1, -1, 0, 1⟩] ∧
    ((⟨[[⟨0, 1⟩, ⟨1, 3⟩]], [0, 0], [⟨-1, 1⟩, ⟨1, 1⟩], [⟨0, 2⟩], [(0, 0)], 1, 0⟩ :
        Splitter).SplitNodeSparseData ⟨-1, -1, -1, -1, -1, 0, 0⟩ [⟨0, -1, -1, -1, -1, 0, 0⟩] 0 []
        ⟨1, 2, 0⟩ ⟨[0]⟩ 1).splitter.m_nodeIds = [1, 2] ∧
    ((⟨[[⟨0, 1⟩, ⟨1, 3⟩]], [0, 0], [⟨-1, 1⟩, ⟨1, 1⟩], [⟨0, 2⟩], [(0, 0)], 1, 0⟩ :
        Splitter).SplitNodeSparseData ⟨-1, -1, -1, -1, -1, 0, 0⟩ [⟨0, -1, -1, -1, -1, 0, 0⟩] 0 []
        ⟨1, 2, 0⟩ ⟨[0]⟩ 1).tree.nodes = [0] ++ [1, 1 + 1] := by
  have h := SplitNodeSparseData_children
    ⟨[[⟨0, 1⟩, ⟨1, 3⟩]], [0, 0], [⟨-1, 1⟩, ⟨1, 1⟩], [⟨0, 2⟩], [(0, 0)], 1, 0⟩
    ⟨-1, -1, -1, -1, -1, 0, 0⟩ [⟨0, -1, -1, -1, -1, 0, 0⟩] 0 [] ⟨1, 2, 0⟩ ⟨[0]⟩ 1 (by decide)
  refine ⟨?_, ?_, h.2.2.2.2.2.2.1⟩
  · with_unfolding_all decide
  · with_unfolding_all decide

end Splitter

/-! ## Where a recorded split comes from -/

/-- Invariant-carrying run of a fallible loop over a given list; each step may use that the
entries seen so far, the current entry and the entries to come make up the list. -/
theorem foldlM_list_invariant {σ α : Type} (f : σ → α → Option σ) (l : List α)
    (I : List α → σ → Prop)
    (hstep : ∀ pre a rest st, pre ++ a :: rest = l → I pre st →
      ∃ st2, f st a = some st2 ∧ I (pre ++ [a]) st2)
    (st : σ) (h0 : I [] st) : ∃ st2, l.foldlM f st = some st2 ∧ I l st2 := by
  have key : ∀ (rest pre : List α) (x : σ), pre ++ rest = l → I pre x →
      ∃ st2, rest.foldlM f x = some st2 ∧ I l st2 := by
    intro rest
    induction rest with
    | nil =>
      intro pre x hl hx
      rw [List.append_nil] at hl
      rw [← hl]
      exact ⟨x, rfl, hx⟩
    | cons a rest ih =>
      intro pre x hl hx
      obtain ⟨x1, h1, h2⟩ := hstep pre a rest x hl hx
      obtain ⟨x2, h3, h4⟩ := ih (pre ++ [a]) x1 (by simpa using hl) h2
      refine ⟨x2, ?_, h4⟩
      simp only [List.foldlM_cons, h1]
      exact h3
  exact key l [] st rfl h0

theorem get_take_of_split {α : Type} (pre rest : List α) (a : α) :
    (pre ++ a :: rest).get? pre.length = some a ∧ (pre ++ a :: rest).take pre.length = pre := by
  constructor
  · rw [List.get?_eq_getElem?, List.getElem?_append_right (le_refl _)]
    simp
  · simp

namespace Splitter

/-- The try block of FeaFinderAllNode at bufferPos leaves every other buffer position as
it is. -/
theorem FeaFinderAllNodeTry_other (s : Splitter) (f : Nat) (st : AllNodeLocals) (b p : Nat)
    (v : ℚ) (hbp : b ≠ p) :
    ∃ st1, FeaFinderAllNodeTry s f st b v = some st1 ∧
      st1.tempStat = st.tempStat ∧ st1.vLastValue = st.vLastValue ∧ st1.map = st.map ∧
      st1.vBest.length = st.vBest.length ∧ st1.vBest.get? p = st.vBest.get? p ∧
      st1.rchildStat.get? p = st.rchildStat.get? p ∧
      st1.lchildStat.get? p = st.lchildStat.get? p := by
  by_cases hc : AllNodeCandidate s st b v
  · by_cases hg : s.splitGain (s.m_nodeStat.getD b nodeStat.zero)
        (st.tempStat.getD b nodeStat.zero) > (st.vBest.getD b ⟨0, 0, 0⟩).m_fGain
    · refine ⟨_, FeaFinderAllNodeTry_improved s f st b v hc hg, rfl, rfl, rfl, ?_, ?_, ?_, ?_⟩
      · simp
      · simp only [List.get?_eq_getElem?, List.getElem?_set_ne hbp]
      · simp only [List.get?_eq_getElem?, List.getElem?_set_ne hbp]
      · simp only [List.get?_eq_getElem?, List.getElem?_set_ne hbp]
    · exact ⟨_, FeaFinderAllNodeTry_not_improved s f st b v hc hg, rfl, rfl, rfl, rfl, rfl,
        rfl, rfl⟩
  · exact ⟨_, FeaFinderAllNodeTry_not_candidate s f st b v hc, rfl, rfl, rfl, rfl, rfl,
      rfl, rfl⟩

/-- BatchOut only looks at the map and at position p of the three output vectors. -/
theorem BatchOut_frame (s : Splitter) (n : Int) (p : Nat) (vBest0 : List SplitPoint)
    (st st1 : AllNodeLocals) (h : s.BatchOut n p vBest0 st)
    (hmap : st1.map = s.mapNodeIdToBufferPos) (hlen : st1.vBest.length = st.vBest.length)
    (hv : st1.vBest.get? p = st.vBest.get? p)
    (hr : st1.rchildStat.get? p = st.rchildStat.get? p)
    (hl : st1.lchildStat.get? p = st.lchildStat.get? p) : s.BatchOut n p vBest0 st1 := by
  obtain ⟨_, h2, h3⟩ := h
  refine ⟨hmap, by rw [hlen, h2], ?_⟩
  rcases h3 with h3 | ⟨f, i, a, b, sp, hb, hsp, hf, hm, hrr, hll⟩
  · left; rw [hv, h3]
  · right
    exact ⟨f, i, a, b, sp, hb, by rw [hv, hsp], hf, hm, fun x hx => hrr x (by rw [← hr, hx]),
      fun y hy => hll y (by rw [← hl, hy])⟩

theorem accStat_nil (s : Splitter) : s.accStat [] = nodeStat.zero := rfl

end Splitter

namespace Splitter

theorem get_set_self_cases {α : Type} (l : List α) (p : Nat) (v x : α)
    (h : (l.set p v).get? p = some x) : x = v ∧ p < l.length := by
  rw [List.get?_eq_getElem?, List.getElem?_set] at h
  simp only [if_true] at h
  split at h
  · cases h
    exact ⟨rfl, by assumption⟩
  · cases h

/-- The try block of FeaFinderAllNode at bufferPos: it either leaves position bufferPos of
the output vectors as it is, or it met a candidate there and recorded it. -/
theorem FeaFinderAllNodeTry_own (s : Splitter) (f : Nat) (st : AllNodeLocals) (b : Nat)
    (v : ℚ) :
    ∃ st1, FeaFinderAllNodeTry s f st b v = some st1 ∧
      st1.tempStat = st.tempStat ∧ st1.vLastValue = st.vLastValue ∧ st1.map = st.map ∧
      st1.vBest.length = st.vBest.length ∧
      ((st1.vBest.get? b = st.vBest.get? b ∧ st1.rchildStat.get? b = st.rchildStat.get? b ∧
          st1.lchildStat.get? b = st.lchildStat.get? b) ∨
        (AllNodeCandidate s st b v ∧
          st1.vBest = st.vBest.set b
            ⟨s.splitGain (s.m_nodeStat.getD b nodeStat.zero) (st.tempStat.getD b nodeStat.zero),
              (v + st.vLastValue.getD b 0) * (1 / 2), f⟩ ∧
          st1.rchildStat = st.rchildStat.set b (st.tempStat.getD b nodeStat.zero) ∧
          st1.lchildStat = st.lchildStat.set b (nodeStat.Subtract
            (s.m_nodeStat.getD b nodeStat.zero) (st.tempStat.getD b nodeStat.zero)))) := by
  by_cases hc : AllNodeCandidate s st b v
  · by_cases hg : s.splitGain (s.m_nodeStat.getD b nodeStat.zero)
        (st.tempStat.getD b nodeStat.zero) > (st.vBest.getD b ⟨0, 0, 0⟩).m_fGain
    · exact ⟨_, FeaFinderAllNodeTry_improved s f st b v hc hg, rfl, rfl, rfl, by simp,
        Or.inr ⟨hc, rfl, rfl, rfl⟩⟩
    · exact ⟨_, FeaFinderAllNodeTry_not_improved s f st b v hc hg, rfl, rfl, rfl, rfl,
        Or.inl ⟨rfl, rfl, rfl⟩⟩
  · exact ⟨_, FeaFinderAllNodeTry_not_candidate s f st b v hc, rfl, rfl, rfl, rfl,
      Or.inl ⟨rfl, rfl, rfl⟩⟩

/-- One entry of the column of feature f keeps what the batched search has established
for the node n at buffer position p. -/
theorem FeaFinderAllNodeStep_BatchScan (s : Splitter) (n : Int) (p : Nat)
    (vBest0 : List SplitPoint) (f : Nat) (hctx : s.NodeAt n p)
    (pre : List key_value) (a : key_value) (rest : List key_value)
    (hcol : pre ++ a :: rest = s.m_vvFeaInxPair.getD f [])
    (st : AllNodeLocals) (h : s.BatchScan n p vBest0 pre st) :
    ∃ st2, FeaFinderAllNodeStep s f st a = some st2 ∧
      s.BatchScan n p vBest0 (pre ++ [a]) st2 := by
  obtain ⟨hout, hlen, hT, hV⟩ := h
  have hmap := hout.1
  unfold FeaFinderAllNodeStep
  dsimp only
  by_cases h1 : s.nodeIdAt a.id = -1
  · have hne : s.nodeIdAt a.id ≠ n := by rw [h1]; exact Ne.symm hctx.hn
    have hown := ownedBy_append_other s n pre a hne
    rw [if_pos h1]
    exact ⟨st, rfl, hout, hlen, by rw [hown]; exact hT, by rw [hown]; exact hV⟩
  · rw [if_neg h1]
    obtain ⟨_, hmem⟩ := nodeIdAt_mem s a.id h1
    obtain ⟨q, hq⟩ := (hctx.hkey _ hmem).resolve_left h1
    rw [hmap, mapIndex_found _ _ _ hq]
    dsimp only
    by_cases hn : s.nodeIdAt a.id = n
    · have hqp : q = p := by
        rw [hn, hctx.hp] at hq
        cases hq
        rfl
      subst hqp
      have hown := ownedBy_append_owned s n pre a hn
      have hlastNew : ∀ prev, (s.ownedBy n (pre ++ [a])).getLast? = some prev → prev = a := by
        intro prev hprev
        rw [hown, List.getLast?_append] at hprev
        simp at hprev
        exact hprev.symm
      by_cases hfirst : |(st.tempStat.getD q nodeStat.zero).sum_hess| < 1 / 10000
      · rw [if_pos hfirst]
        refine ⟨_, rfl, BatchOut_frame s n q vBest0 st _ hout rfl rfl rfl rfl rfl,
          by simp [hlen], ?_, ?_⟩
        · intro hp2
          have hp3 : q < st.tempStat.length := by simpa using hp2
          dsimp only
          rw [getD_set_self _ _ _ _ hp3, hT hp3, hown, accStat_append]
        · intro prev hprev hp2
          have hp3 : q < st.vLastValue.length := by simpa using hp2
          dsimp only
          rw [getD_set_self _ _ _ _ hp3, hlastNew prev hprev]
      · rw [if_neg hfirst]
        have hpT : q < st.tempStat.length := by
          by_contra hnot
          apply hfirst
          have : st.tempStat.getD q nodeStat.zero = nodeStat.zero := by
            simp [List.getD_eq_getElem?_getD, List.getElem?_eq_none (not_lt.mp hnot)]
          rw [this]
          simp [nodeStat.zero]
        have hpV : q < st.vLastValue.length := by rw [← hlen]; exact hpT
        have ht := hT hpT
        have hne : s.ownedBy n pre ≠ [] := by
          intro hnil
          apply hfirst
          rw [ht, hnil, accStat_nil]
          simp [nodeStat.zero]
        obtain ⟨prev, hprev⟩ : ∃ prev, (s.ownedBy n pre).getLast? = some prev := by
          cases hgl : (s.ownedBy n pre).getLast? with
          | none => exact absurd (List.getLast?_eq_none_iff.mp hgl) hne
          | some x => exact ⟨x, rfl⟩
        have hlast := hV prev hprev hpV
        have hsplit := get_take_of_split pre rest a
        rw [hcol] at hsplit
        have hfinal : ∀ st1 : AllNodeLocals, st1.tempStat = st.tempStat →
            st1.vLastValue = st.vLastValue → s.BatchOut n q vBest0 st1 →
            s.BatchScan n q vBest0 (pre ++ [a])
              { st1 with
                tempStat := st1.tempStat.set q
                  ((st1.tempStat.getD q nodeStat.zero).Add (s.gdAt a.id).grad (s.gdAt a.id).hess),
                vLastValue := st1.vLastValue.set q a.featureValue } := by
          intro st1 hts hvl hbo
          refine ⟨BatchOut_frame s n q vBest0 st1 _ hbo hbo.1 rfl rfl rfl rfl,
            by simp [hts, hvl, hlen], ?_, ?_⟩
          · intro _
            dsimp only
            rw [hts, getD_set_self _ _ _ _ hpT, ht, hown, accStat_append]
          · intro pv hpv _
            dsimp only
            rw [hvl, getD_set_self _ _ _ _ hpV, hlastNew pv hpv]
        obtain ⟨st1, hst1, hts, hvl, hmp, hvlen, hcase⟩ := FeaFinderAllNodeTry_own s f
          { st with map := s.mapNodeIdToBufferPos } q a.featureValue
        rw [hst1]
        simp only [Option.map_some']
        refine ⟨_, rfl, hfinal st1 hts hvl ?_⟩
        rcases hcase with ⟨hvb, hr, hl⟩ | ⟨hc, hvb, hr, hl⟩
        · exact BatchOut_frame s n q vBest0 st st1 hout hmp hvlen hvb hr hl
        · refine ⟨hmp, by rw [hvlen]; exact hout.2.1, ?_⟩
          by_cases hpv : q < st.vBest.length
          · right
            refine ⟨f, pre.length, prev.featureValue, a.featureValue,
              ⟨s.splitGain (s.m_nodeStat.getD q nodeStat.zero)
                (st.tempStat.getD q nodeStat.zero),
                (a.featureValue + st.vLastValue.getD q 0) * (1 / 2), f⟩,
              ?_, ?_, rfl, ?_, ?_, ?_⟩
            · refine ⟨a, prev, hsplit.1, hn, by rw [hsplit.2]; exact hprev, rfl, rfl, ?_⟩
              have := hc.1.1
              dsimp only at this
              rw [hlast] at this
              exact this
            · rw [hvb, List.get?_eq_getElem?, List.getElem?_set, if_pos rfl]
              simp [hpv]
            · dsimp only
              rw [hlast]
              ring
            · intro x hx
              rw [hr] at hx
              rw [(get_set_self_cases _ _ _ _ hx).1]
              dsimp only
              rw [ht]
              unfold scannedStat
              rw [hsplit.2]
            · intro y hy
              rw [hl] at hy
              rw [(get_set_self_cases _ _ _ _ hy).1]
              dsimp only
              rw [ht]
              unfold scannedStat
              rw [hsplit.2]
          · left
            have h0 : vBest0.length ≤ q := by rw [← hout.2.1]; exact not_lt.mp hpv
            rw [hvb, List.get?_eq_getElem?, List.get?_eq_getElem?, List.getElem?_eq_none h0,
              List.getElem?_eq_none (by simpa using not_lt.mp hpv)]
    · have hqp : q ≠ p := fun hqp => hn (hctx.huniq _ (hqp ▸ hq))
      have hown := ownedBy_append_other s n pre a hn
      by_cases hfirst : |(st.tempStat.getD q nodeStat.zero).sum_hess| < 1 / 10000
      · rw [if_pos hfirst]
        refine ⟨_, rfl, BatchOut_frame s n p vBest0 st _ hout rfl rfl rfl rfl rfl,
          by simp [hlen], ?_, ?_⟩
        · intro hp2
          have hp3 : p < st.tempStat.length := by simpa using hp2
          dsimp only
          rw [getD_set_other _ _ _ _ _ hqp, hown]
          exact hT hp3
        · intro prev hprev hp2
          have hp3 : p < st.vLastValue.length := by simpa using hp2
          dsimp only
          rw [getD_set_other _ _ _ _ _ hqp]
          rw [hown] at hprev
          exact hV prev hprev hp3
      · rw [if_neg hfirst]
        obtain ⟨st1, hst1, hts, hvl, hmp, hvlen, hvb, hr, hl⟩ := FeaFinderAllNodeTry_other s f
          { st with map := s.mapNodeIdToBufferPos } q p a.featureValue hqp
        rw [hst1]
        simp only [Option.map_some']
        refine ⟨_, rfl, BatchOut_frame s n p vBest0 st _ hout hmp hvlen hvb hr hl,
          by simp [hts, hvl, hlen], ?_, ?_⟩
        · intro hp2
          have hp3 : p < st.tempStat.length := by simpa [hts] using hp2
          dsimp only
          rw [getD_set_other _ _ _ _ _ hqp, hts, hown]
          exact hT hp3
        · intro prev hprev hp2
          have hp3 : p < st.vLastValue.length := by simpa [hvl] using hp2
          dsimp only
          rw [getD_set_other _ _ _ _ _ hqp, hvl]
          rw [hown] at hprev
          exact hV prev hprev hp3

end Splitter

namespace Splitter

/-- One feature keeps what the batched search has established for the node n at buffer
position p. -/
theorem FeaFinderAllNodeFeature_BatchOut (s : Splitter) (n : Int) (p : Nat)
    (vBest0 : List SplitPoint) (hctx : s.NodeAt n p) (st : AllNodeLocals) (f : Nat)
    (h : s.BatchOut n p vBest0 st) :
    ∃ st2, FeaFinderAllNodeFeature s st f = some st2 ∧ s.BatchOut n p vBest0 st2 := by
  unfold FeaFinderAllNodeFeature
  have h0 : s.BatchScan n p vBest0 []
      { st with tempStat := List.replicate st.map.length nodeStat.zero,
                vLastValue := List.replicate st.map.length 0 } := by
    refine ⟨BatchOut_frame s n p vBest0 st _ h h.1 rfl rfl rfl rfl, by simp, ?_, ?_⟩
    · intro hp
      have hp2 : p < st.map.length := by simpa using hp
      simp [List.getD_eq_getElem?_getD, List.getElem?_replicate, hp2, ownedBy, accStat]
    · intro prev hprev
      simp [ownedBy] at hprev
  obtain ⟨st2, hst2, hres⟩ := foldlM_list_invariant (FeaFinderAllNodeStep s f)
    (s.m_vvFeaInxPair.getD f []) (fun pre x => s.BatchScan n p vBest0 pre x)
    (fun pre a rest x hl hx => FeaFinderAllNodeStep_BatchScan s n p vBest0 f hctx pre a rest hl x hx)
    _ h0
  exact ⟨st2, hst2, hres.1⟩

/-- The batched search completes, and at the buffer position p of an active node n it
leaves vBest[p] as it was or as recorded at a candidate of n. -/
theorem FeaFinderAllNode_BatchOut (s : Splitter) (n : Int) (p : Nat) (hctx : s.NodeAt n p)
    (vBest : List SplitPoint) (rchildStat lchildStat : List nodeStat) :
    ∃ out, s.FeaFinderAllNode vBest rchildStat lchildStat = some out ∧
      s.BatchOut n p vBest out := by
  have := foldlM_prefix_invariant (FeaFinderAllNodeFeature s)
    (fun _ x => s.BatchOut n p vBest x)
    (fun _ f x hx => FeaFinderAllNodeFeature_BatchOut s n p vBest hctx x f hx)
    (List.range s.m_vvFeaInxPair.length) []
    ⟨[], [], vBest, rchildStat, lchildStat, s.mapNodeIdToBufferPos, []⟩
    ⟨rfl, rfl, Or.inl rfl⟩
  exact this

/-- One entry of the column keeps the midpoint property of the local best split of
BestSplitValue. -/
theorem BestSplitValueStep_MidSplit (s : Splitter) (f : Nat) (parent : nodeStat) (n : Int)
    (fresh : SplitPoint) (pre : List key_value) (a : key_value) (st : BestSplitLocals)
    (h : s.ScanInv n parent fresh pre st) (hm : s.MidSplit n f fresh pre st) :
    ∃ st2, BestSplitValueStep s f parent n st a = some st2 ∧
      s.ScanInv n parent fresh (pre ++ [a]) st2 ∧ s.MidSplit n f fresh (pre ++ [a]) st2 := by
  obtain ⟨st2, hst2, hinv2⟩ := BestSplitValueStep_ScanInv s f parent n fresh pre a st h
  refine ⟨st2, hst2, hinv2, ?_⟩
  obtain ⟨hF, _, hL, _, _, _⟩ := h
  have hmono : ∀ x : BestSplitLocals, x.bestSplit = st.bestSplit →
      s.MidSplit n f fresh (pre ++ [a]) x := by
    intro x hx
    rcases hm with hm | ⟨i, e, prev, h1, h2, h3, h4, h5, h6⟩
    · left; rw [hx, hm]
    · right
      obtain ⟨g1, g2⟩ := get_append_singleton_old pre a e i h1
      exact ⟨i, e, prev, g1, h2, by rw [g2]; exact h3, h4, by rw [hx]; exact h5,
        by rw [hx]; exact h6⟩
  unfold BestSplitValueStep at hst2
  dsimp only at hst2
  by_cases hn : s.nodeIdAt a.id = n
  · rw [if_neg (not_not.mpr hn)] at hst2
    by_cases hf : st.bFirst = true
    · rw [if_pos hf] at hst2
      cases hst2
      exact hmono _ rfl
    · rw [if_neg hf] at hst2
      have hne : s.ownedBy n pre ≠ [] := fun hnil => hf (hF.mpr hnil)
      obtain ⟨prev, hprev⟩ : ∃ prev, (s.ownedBy n pre).getLast? = some prev := by
        cases hgl : (s.ownedBy n pre).getLast? with
        | none => exact absurd (List.getLast?_eq_none_iff.mp hgl) hne
        | some x => exact ⟨x, rfl⟩
      have hlast := hL prev hprev
      by_cases hc : BestSplitCandidate parent st a.featureValue
      · rw [BestSplitValueTry_candidate s f parent st a.featureValue hc] at hst2
        simp only [Option.map_some'] at hst2
        cases hst2
        by_cases hg : s.splitGain parent st.r_child > st.bestSplit.m_fGain
        · right
          refine ⟨pre.length, a, prev, by simp, hn, by simp only [List.take_left']; exact hprev,
            ?_, ?_, ?_⟩
          · have := hc.1.1
            rw [hlast] at this
            exact this
          · dsimp only
            rw [UpdateSplitPoint_fst, if_pos hg, hlast]
            ring
          · dsimp only
            rw [UpdateSplitPoint_fst, if_pos hg]
        · apply hmono
          dsimp only
          rw [UpdateSplitPoint_fst, if_neg hg]
      · obtain ⟨l, hl⟩ := BestSplitValueTry_not_candidate s f parent st a.featureValue hc
        rw [hl] at hst2
        simp only [Option.map_some'] at hst2
        cases hst2
        exact hmono _ rfl
  · rw [if_pos hn] at hst2
    cases hst2
    exact hmono _ rfl

/-- BestSplitValue completes; its local best split is the fresh one or has as split value
the midpoint of a boundary pair of the column. -/
theorem BestSplitValueLoop_MidSplit (s : Splitter) (fresh : SplitPoint) (f : Nat)
    (parent : nodeStat) (n : Int) :
    ∃ st, s.BestSplitValueLoop fresh f parent n = some st ∧
      s.MidSplit n f fresh (s.m_vvFeaInxPair.getD f []) st := by
  have h0 : s.ScanInv n parent fresh [] ⟨true, nodeStat.zero, nodeStat.zero, 0, fresh, []⟩ := by
    refine ⟨by simp [ownedBy], by simp [ownedBy, accStat], ?_, le_refl _, ?_, Or.inl rfl⟩
    · intro prev hprev; simp [ownedBy] at hprev
    · intro i e hie; simp at hie
  obtain ⟨st, hst, _, hm⟩ := foldlM_prefix_invariant (BestSplitValueStep s f parent n)
    (fun pre st => s.ScanInv n parent fresh pre st ∧ s.MidSplit n f fresh pre st)
    (fun pre a st hst => BestSplitValueStep_MidSplit s f parent n fresh pre a st hst.1 hst.2)
    (s.m_vvFeaInxPair.getD f []) [] _ ⟨h0, Or.inl rfl⟩
  rw [List.nil_append] at hm
  exact ⟨st, hst, hm⟩

end Splitter

/-! ## The returned threshold is a boundary midpoint -/

namespace Splitter

/-- On the scenario of the spec the boundary pairs of the root in the one column are
(1, 3) at position 2 and (3, 5) at position 3, and no others. -/
theorem scenario_boundary_pairs (i : Nat) (a b : ℚ) :
    (⟨[[⟨0, 1⟩, ⟨1, 1⟩, ⟨2, 3⟩, ⟨3, 5⟩]], [0, 0, 0, 0],
        [⟨-1, 1⟩, ⟨-1, 1⟩, ⟨1, 1⟩, ⟨1, 1⟩], [⟨0, 4⟩], [(0, 0)], 1, 0⟩ :
        Splitter).BoundaryPair 0 0 i a b ↔
      (i = 2 ∧ a = 1 ∧ b = 3) ∨ (i = 3 ∧ a = 3 ∧ b = 5) := by
  unfold BoundaryPair
  rcases i with _ | _ | _ | _ | i
  · simp [ownedBy]
  · simp [ownedBy, nodeIdAt]
    intro ha hb
    subst ha hb
    norm_num
  · simp [ownedBy, nodeIdAt]
    intro ha hb
    subst ha hb
    norm_num
  · simp [ownedBy, nodeIdAt]
    intro ha hb
    subst ha hb
    norm_num
  · simp

/-- On the scenario of the spec the valid candidates of the root are the positions 2 and 3
of the one column. -/
theorem scenario_valid_candidates (i : Nat) :
    (⟨[[⟨0, 1⟩, ⟨1, 1⟩, ⟨2, 3⟩, ⟨3, 5⟩]], [0, 0, 0, 0],
        [⟨-1, 1⟩, ⟨-1, 1⟩, ⟨1, 1⟩, ⟨1, 1⟩], [⟨0, 4⟩], [(0, 0)], 1, 0⟩ :
        Splitter).ValidCandidate 0 ⟨0, 4⟩ 0 i ↔ i = 2 ∨ i = 3 := by
  unfold ValidCandidate CandidateAfter
  rcases i with _ | _ | _ | _ | i
  · simp [ownedBy]
  · simp [ownedBy, nodeIdAt]
    intro h
    norm_num at h
  · simp [ownedBy, nodeIdAt, accStat, gdAt, nodeStat.Add, nodeStat.zero, nodeStat.Subtract]
    norm_num
  · simp [ownedBy, nodeIdAt, accStat, gdAt, nodeStat.Add, nodeStat.zero, nodeStat.Subtract]
    norm_num
  · simp

/-- C14: BestSplitValue completes, and whenever it reports an improved split for node n on
feature f (its best split is not the fresh one) the split value is (a + b)/2 for the values
a, b of two consecutive n-owned entries of column f with |b - a| > 2e-6; FeaFinderAllNode
completes, and whenever it changes vBest[p] for the active node n at buffer position p, the
split point carries a feature f and the split value (a + b)/2 of such a pair of column f.
On the scenario of the spec the boundary pairs are (1, 3) and (3, 5) only, with thresholds
2 and 4; these two positions are the valid candidates, with gains 8/3 and 3/4; and both
searches return feature 0, threshold 2, gain 8/3. -/
theorem split_value_is_boundary_midpoint :
    (∀ (s : Splitter) (fresh : SplitPoint) (f : Nat) (parent : nodeStat) (n : Int),
      ∃ st, s.BestSplitValueLoop fresh f parent n = some st ∧
        (st.bestSplit ≠ fresh → ∃ i a b, s.BoundaryPair n f i a b ∧
          st.bestSplit.m_fSplitValue = (a + b) / 2)) ∧
    (∀ (s : Splitter) (vBest : List SplitPoint) (rchildStat lchildStat : List nodeStat)
        (n : Int) (p : Nat), s.NodeAt n p →
      ∃ out, s.FeaFinderAllNode vBest rchildStat lchildStat = some out ∧
        (out.vBest.get? p ≠ vBest.get? p → ∃ sp f i a b, out.vBest.get? p = some sp ∧
          s.BoundaryPair n f i a b ∧ sp.m_nFeatureId = (f : Int) ∧
          sp.m_fSplitValue = (a + b) / 2)) ∧
    ((∀ i a b, (⟨[[⟨0, 1⟩, ⟨1, 1⟩, ⟨2, 3⟩, ⟨3, 5⟩]], [0, 0, 0, 0],
          [⟨-1, 1⟩, ⟨-1, 1⟩, ⟨1, 1⟩, ⟨1, 1⟩], [⟨0, 4⟩], [(0, 0)], 1, 0⟩ :
          Splitter).BoundaryPair 0 0 i a b ↔
        (i = 2 ∧ a = 1 ∧ b = 3) ∨ (i = 3 ∧ a = 3 ∧ b = 5)) ∧
      ((1 : ℚ) + 3) / 2 = 2 ∧ ((3 : ℚ) + 5) / 2 = 4 ∧
      (∀ i, (⟨[[⟨0, 1⟩, ⟨1, 1⟩, ⟨2, 3⟩, ⟨3, 5⟩]], [0, 0, 0, 0],
          [⟨-1, 1⟩, ⟨-1, 1⟩, ⟨1, 1⟩, ⟨1, 1⟩], [⟨0, 4⟩], [(0, 0)], 1, 0⟩ :
          Splitter).ValidCandidate 0 ⟨0, 4⟩ 0 i ↔ i = 2 ∨ i = 3) ∧
      (⟨[[⟨0, 1⟩, ⟨1, 1⟩, ⟨2, 3⟩, ⟨3, 5⟩]], [0, 0, 0, 0],
          [⟨-1, 1⟩, ⟨-1, 1⟩, ⟨1, 1⟩, ⟨1, 1⟩], [⟨0, 4⟩], [(0, 0)], 1, 0⟩ : Splitter).CalGain
          ⟨0, 4⟩
          ((⟨[[⟨0, 1⟩, ⟨1, 1⟩, ⟨2, 3⟩, ⟨3, 5⟩]], [0, 0, 0, 0],
            [⟨-1, 1⟩, ⟨-1, 1⟩, ⟨1, 1⟩, ⟨1, 1⟩], [⟨0, 4⟩], [(0, 0)], 1, 0⟩ :
            Splitter).scannedStat 0 0 2)
          (nodeStat.Subtract ⟨0, 4⟩
            ((⟨[[⟨0, 1⟩, ⟨1, 1⟩, ⟨2, 3⟩, ⟨3, 5⟩]], [0, 0, 0, 0],
              [⟨-1, 1⟩, ⟨-1, 1⟩, ⟨1, 1⟩, ⟨1, 1⟩], [⟨0, 4⟩], [(0, 0)], 1, 0⟩ :
              Splitter).scannedStat 0 0 2)) = some (8 / 3) ∧
      (⟨[[⟨0, 1⟩, ⟨1, 1⟩, ⟨2, 3⟩, ⟨3, 5⟩]], [0, 0, 0, 0],
          [⟨-1, 1⟩, ⟨-1, 1⟩, ⟨1, 1⟩, ⟨1, 1⟩], [⟨0, 4⟩], [(0, 0)], 1, 0⟩ : Splitter).CalGain
          ⟨0, 4⟩
          ((⟨[[⟨0, 1⟩, ⟨1, 1⟩, ⟨2, 3⟩, ⟨3, 5⟩]], [0, 0, 0, 0],
            [⟨-1, 1⟩, ⟨-1, 1⟩, ⟨1, 1⟩, ⟨1, 1⟩], [⟨0, 4⟩], [(0, 0)], 1, 0⟩ :
            Splitter).scannedStat 0 0 3)
          (nodeStat.Subtract ⟨0, 4⟩
            ((⟨[[⟨0, 1⟩, ⟨1, 1⟩, ⟨2, 3⟩, ⟨3, 5⟩]], [0, 0, 0, 0],
              [⟨-1, 1⟩, ⟨-1, 1⟩, ⟨1, 1⟩, ⟨1, 1⟩], [⟨0, 4⟩], [(0, 0)], 1, 0⟩ :
              Splitter).scannedStat 0 0 3)) = some (3 / 4) ∧
      (⟨[[⟨0, 1⟩, ⟨1, 1⟩, ⟨2, 3⟩, ⟨3, 5⟩]], [0, 0, 0, 0],
          [⟨-1, 1⟩, ⟨-1, 1⟩, ⟨1, 1⟩, ⟨1, 1⟩], [⟨0, 4⟩], [(0, 0)], 1, 0⟩ :
          Splitter).EfficientFeaFinder ⟨0, 0, -1⟩ ⟨0, 0, -1⟩ ⟨0, 4⟩ 0 = some ⟨8 / 3, 2, 0⟩ ∧
      ((⟨[[⟨0, 1⟩, ⟨1, 1⟩, ⟨2, 3⟩, ⟨3, 5⟩]], [0, 0, 0, 0],
          [⟨-1, 1⟩, ⟨-1, 1⟩, ⟨1, 1⟩, ⟨1, 1⟩], [⟨0, 4⟩], [(0, 0)], 1, 0⟩ :
          Splitter).FeaFinderAllNode [⟨0, 0, -1⟩] [⟨0, 0⟩] [⟨0, 0⟩]).map (fun o => o.vBest)
        = some [⟨8 / 3, 2, 0⟩]) := by
  refine ⟨?_, ?_, scenario_boundary_pairs, by norm_num, by norm_num,
    scenario_valid_candidates, ?_, ?_, EfficientFeaFinder_scenario, ?_⟩
  · intro s fresh f parent n
    obtain ⟨st, hst, hm⟩ := BestSplitValueLoop_MidSplit s fresh f parent n
    refine ⟨st, hst, ?_⟩
    intro hne
    rcases hm with hm | ⟨i, e, prev, h1, h2, h3, h4, h5, _⟩
    · exact absurd hm hne
    · exact ⟨i, prev.featureValue, e.featureValue, ⟨e, prev, h1, h2, h3, rfl, rfl, h4⟩, h5⟩
  · intro s vBest rchildStat lchildStat n p hctx
    obtain ⟨out, hout, _, _, hrec⟩ := FeaFinderAllNode_BatchOut s n p hctx vBest rchildStat
      lchildStat
    refine ⟨out, hout, ?_⟩
    intro hne
    rcases hrec with hrec | ⟨f, i, a, b, sp, hb, hsp, hf, hmid, _, _⟩
    · exact absurd hrec hne
    · exact ⟨sp, f, i, a, b, hsp, hb, hf, hmid⟩
  · with_unfolding_all decide
  · with_unfolding_all decide
  · with_unfolding_all decide

/-- Witness of C14: two active nodes 1 and 2 at buffer positions 0 and 1 share one column;
the batched search changes vBest[0], whose split value 2 is the midpoint of the values 1
and 3 of the two entries of node 1. -/
theorem split_value_is_boundary_midpoint_witness :
    ∃ out, (⟨[[⟨0, 1⟩, ⟨1, 2⟩, ⟨2, 3⟩, ⟨3, 4⟩]], [1, 2, 1, 2],
        [⟨-1, 1⟩, ⟨-2, 1⟩, ⟨1, 1⟩, ⟨2, 1⟩], [⟨0, 2⟩, ⟨0, 2⟩], [(1, 0), (2, 1)], 1, 0⟩ :
        Splitter).FeaFinderAllNode [⟨0, 0, -1⟩, ⟨0, 0, -1⟩] [⟨0, 0⟩, ⟨0, 0⟩] [⟨0, 0⟩, ⟨0, 0⟩]
        = some out ∧
      out.vBest.get? 0 ≠ [(⟨0, 0, -1⟩ : SplitPoint), ⟨0, 0, -1⟩].get? 0 ∧
      ∃ sp f i a b, out.vBest.get? 0 = some sp ∧
        (⟨[[⟨0, 1⟩, ⟨1, 2⟩, ⟨2, 3⟩, ⟨3, 4⟩]], [1, 2, 1, 2],
          [⟨-1, 1⟩, ⟨-2, 1⟩, ⟨1, 1⟩, ⟨2, 1⟩], [⟨0, 2⟩, ⟨0, 2⟩], [(1, 0), (2, 1)], 1, 0⟩ :
          Splitter).BoundaryPair 1 f i a b ∧ sp.m_nFeatureId = (f : Int) ∧
        sp.m_fSplitValue = (a + b) / 2 := by
  have hctx : (⟨[[⟨0, 1⟩, ⟨1, 2⟩, ⟨2, 3⟩, ⟨3, 4⟩]], [1, 2, 1, 2],
      [⟨-1, 1⟩, ⟨-2, 1⟩, ⟨1, 1⟩, ⟨2, 1⟩], [⟨0, 2⟩, ⟨0, 2⟩], [(1, 0), (2, 1)], 1, 0⟩ :
      Splitter).NodeAt 1 0 := by
    refine ⟨by decide, ?_, ?_, by simp [mapFind]⟩
    · intro x hx
      simp only [List.mem_cons, List.mem_singleton, List.not_mem_nil, or_false] at hx
      right
      rcases hx with h | h | h | h <;> subst h
      · exact ⟨0, by simp [mapFind]⟩
      · exact ⟨1, by simp [mapFind]⟩
      · exact ⟨0, by simp [mapFind]⟩
      · exact ⟨1, by simp [mapFind]⟩
    · intro k hk
      simp only [mapFind] at hk
      by_cases h1 : (1 : Int) = k
      · exact h1.symm
      · rw [if_neg h1] at hk
        by_cases h2 : (2 : Int) = k
        · rw [if_pos h2] at hk
          cases hk
        · rw [if_neg h2] at hk
          cases hk
  obtain ⟨out, hout, h⟩ := split_value_is_boundary_midpoint.2.1
    ⟨[[⟨0, 1⟩, ⟨1, 2⟩, ⟨2, 3⟩, ⟨3, 4⟩]], [1, 2, 1, 2],
      [⟨-1, 1⟩, ⟨-2, 1⟩, ⟨1, 1⟩, ⟨2, 1⟩], [⟨0, 2⟩, ⟨0, 2⟩], [(1, 0), (2, 1)], 1, 0⟩
    [⟨0, 0, -1⟩, ⟨0, 0, -1⟩] [⟨0, 0⟩, ⟨0, 0⟩] [⟨0, 0⟩, ⟨0, 0⟩] 1 0 hctx
  have hv : ((⟨[[⟨0, 1⟩, ⟨1, 2⟩, ⟨2, 3⟩, ⟨3, 4⟩]], [1, 2, 1, 2],
        [⟨-1, 1⟩, ⟨-2, 1⟩, ⟨1, 1⟩, ⟨2, 1⟩], [⟨0, 2⟩, ⟨0, 2⟩], [(1, 0), (2, 1)], 1, 0⟩ :
        Splitter).FeaFinderAllNode [⟨0, 0, -1⟩, ⟨0, 0, -1⟩] [⟨0, 0⟩, ⟨0, 0⟩]
        [⟨0, 0⟩, ⟨0, 0⟩]).map (fun o => o.vBest) = some [⟨1, 2, 0⟩, ⟨4, 3, 0⟩] := by
    with_unfolding_all decide
  rw [hout] at hv
  simp only [Option.map_some', Option.some.injEq] at hv
  have hne : out.vBest.get? 0 ≠ [(⟨0, 0, -1⟩ : SplitPoint), ⟨0, 0, -1⟩].get? 0 := by
    rw [hv]; simp
  exact ⟨out, hout, hne, h hne⟩

end Splitter

/-! ## Recorded child statistics and split execution -/

theorem sum_indicator_list (N : Nat) (ids : List Nat) (hnd : ids.Nodup)
    (hlt : ∀ j ∈ ids, j < N) (w : Nat → ℚ) :
    ∑ j in Finset.range N, (if j ∈ ids then w j else 0) = (ids.map w).sum := by
  have h1 : ∀ j ∈ Finset.range N, (if j ∈ ids then w j else 0)
      = (if j ∈ ids.toFinset then w j else 0) := by
    intro j _
    simp [List.mem_toFinset]
  rw [Finset.sum_congr rfl h1, Finset.sum_ite_mem]
  have h2 : Finset.range N ∩ ids.toFinset = ids.toFinset := by
    apply Finset.inter_eq_right.mpr
    intro j hj
    exact Finset.mem_range.mpr (hlt j (List.mem_toFinset.mp hj))
  rw [h2, List.sum_toFinset w hnd]

theorem filter_id_of_mem (col : List key_value) (hnd : (col.map (fun e => e.id)).Nodup)
    (x : key_value) (hx : x ∈ col) : col.filter (fun e => e.id = x.id) = [x] := by
  induction col with
  | nil => simp at hx
  | cons c t ih =>
    simp only [List.map_cons, List.nodup_cons] at hnd
    obtain ⟨hc, ht⟩ := hnd
    rcases List.mem_cons.mp hx with hxc | hxt
    · subst hxc
      have hnil : t.filter (fun e => e.id = x.id) = [] := by
        apply List.filter_eq_nil_iff.mpr
        intro y hy hyx
        apply hc
        simp only [decide_eq_true_eq] at hyx
        rw [← hyx]
        exact List.mem_map.mpr ⟨y, hy, rfl⟩
      simp [List.filter_cons, hnil]
    · have hne : ¬ c.id = x.id := by
        intro hcx
        apply hc
        rw [hcx]
        exact List.mem_map.mpr ⟨x, hxt, rfl⟩
      simp only [List.filter_cons, hne, decide_False]
      exact ih ht hxt

theorem filter_id_of_not_mem (col : List key_value) (j : Nat)
    (h : j ∉ col.map (fun e => e.id)) : col.filter (fun e => e.id = j) = [] := by
  apply List.filter_eq_nil_iff.mpr
  intro y hy hyj
  apply h
  simp only [decide_eq_true_eq] at hyj
  rw [← hyj]
  exact List.mem_map.mpr ⟨y, hy, rfl⟩

theorem pairwise_getLast {α : Type} (R : α → α → Prop) (l : List α) (z : α)
    (hp : l.Pairwise R) (hz : l.getLast? = some z) : ∀ x ∈ l, x = z ∨ R x z := by
  have hl := List.dropLast_append_getLast? z (by rw [hz]; rfl)
  rw [← hl] at hp
  intro x hx
  rw [← hl] at hx
  rcases List.mem_append.mp hx with hx | hx
  · right
    exact (List.pairwise_append.mp hp).2.2 x hx z (by simp)
  · left
    simpa using hx

namespace Splitter

theorem accStat_foldl (s : Splitter) (l : List key_value) (init : nodeStat) :
    l.foldl (fun acc e => nodeStat.Add acc (s.gdAt e.id).grad (s.gdAt e.id).hess) init
      = ⟨init.sum_gd + (l.map (fun e => (s.gdAt e.id).grad)).sum,
         init.sum_hess + (l.map (fun e => (s.gdAt e.id).hess)).sum⟩ := by
  induction l generalizing init with
  | nil => simp
  | cons a t ih =>
    simp only [List.foldl_cons, List.map_cons, List.sum_cons]
    rw [ih]
    simp only [nodeStat.Add]
    congr 1 <;> ring

theorem accStat_eq_sum (s : Splitter) (l : List key_value) :
    s.accStat l = ⟨(l.map (fun e => (s.gdAt e.id).grad)).sum,
      (l.map (fun e => (s.gdAt e.id).hess)).sum⟩ := by
  unfold accStat
  rw [accStat_foldl]
  simp [nodeStat.zero]

end Splitter

namespace Splitter

theorem FeaFinderAllNodeTry_lengths (s : Splitter) (nr nl : Nat)
    (f : Nat) (st : AllNodeLocals) (b : Nat) (v : ℚ)
    (h : st.rchildStat.length = nr ∧ st.lchildStat.length = nl) :
    ∃ st1, FeaFinderAllNodeTry s f st b v = some st1 ∧
      (st1.rchildStat.length = nr ∧ st1.lchildStat.length = nl) := by
  by_cases hc : AllNodeCandidate s st b v
  · by_cases hg : s.splitGain (s.m_nodeStat.getD b nodeStat.zero)
        (st.tempStat.getD b nodeStat.zero) > (st.vBest.getD b ⟨0, 0, 0⟩).m_fGain
    · refine ⟨_, FeaFinderAllNodeTry_improved s f st b v hc hg, ?_⟩
      simpa using h
    · exact ⟨_, FeaFinderAllNodeTry_not_improved s f st b v hc hg, h⟩
  · exact ⟨_, FeaFinderAllNodeTry_not_candidate s f st b v hc, h⟩

/-- The batched search keeps the lengths of rchildStat and lchildStat. -/
theorem FeaFinderAllNode_lengths (s : Splitter) (vBest : List SplitPoint)
    (rchildStat lchildStat : List nodeStat) :
    ∃ out, s.FeaFinderAllNode vBest rchildStat lchildStat = some out ∧
      (out.rchildStat.length = rchildStat.length ∧
        out.lchildStat.length = lchildStat.length) :=
  FeaFinderAllNode_invariant s
    (fun st => st.rchildStat.length = rchildStat.length ∧
      st.lchildStat.length = lchildStat.length)
    (fun _ _ _ hst => hst)
    (fun f st e hst => FeaFinderAllNodeStep_of_try s _ (fun _ _ _ _ hst => hst)
      (fun f st b v hst =>
        FeaFinderAllNodeTry_lengths s rchildStat.length lchildStat.length f st b v hst)
      f st e hst)
    vBest rchildStat lchildStat ⟨rfl, rfl⟩

/-- Assignment of instance j after the split at the midpoint of a boundary pair of a
column sorted descending: the instances of n scanned before the boundary go right, the
other instances of n go left, the rest keep their node. -/
theorem UpdateNodeIdForSparseData_boundary (s : Splitter) (n left right : Int) (f i : Nat)
    (a b : ℚ) (sp : SplitPoint) (hb : s.BoundaryPair n f i a b)
    (hf : sp.m_nFeatureId = (f : Int)) (hv : sp.m_fSplitValue = (a + b) / 2)
    (hsorted : (s.m_vvFeaInxPair.getD f []).Pairwise
      (fun x y => x.featureValue ≥ y.featureValue))
    (hnodup : ((s.m_vvFeaInxPair.getD f []).map (fun e => e.id)).Nodup)
    (j : Nat) (hj : j < s.m_nodeIds.length) :
    (s.UpdateNodeIdForSparseData sp n left right).m_nodeIds.getD j (-1) =
      if s.nodeIdAt j = n then
        (if j ∈ (s.ownedBy n ((s.m_vvFeaInxPair.getD f []).take i)).map (fun e => e.id)
          then right else left)
      else s.nodeIdAt j := by
  obtain ⟨e, prev, hge, hne, hlast, ha, hb2, habs⟩ := hb
  have hcol : s.columnOf sp.m_nFeatureId = s.m_vvFeaInxPair.getD f [] := by
    simp [columnOf, hf]
  generalize hcoldef : s.m_vvFeaInxPair.getD f [] = col at *
  have hsplit : col = col.take i ++ e :: col.drop (i + 1) := by
    rw [List.get?_eq_getElem?] at hge
    obtain ⟨hi, hget⟩ := List.getElem?_eq_some_iff.mp hge
    rw [← hget, List.getElem_cons_drop, List.take_append_drop]
  have hPsub : (s.ownedBy n (col.take i)).Sublist col :=
    (List.filter_sublist _).trans (List.take_sublist _ _)
  have hPsorted : (s.ownedBy n (col.take i)).Pairwise
      (fun x y => x.featureValue ≥ y.featureValue) := hsorted.sublist hPsub
  have hprevmem : prev ∈ s.ownedBy n (col.take i) := by
    have h := List.dropLast_append_getLast? prev
      (show prev ∈ (s.ownedBy n (col.take i)).getLast? by rw [hlast]; rfl)
    rw [← h]
    simp
  have hprevtake : prev ∈ col.take i := (List.mem_filter.mp hprevmem).1
  have hab : a ≥ b := by
    rw [ha, hb2]
    rw [hsplit] at hsorted
    exact (List.pairwise_append.mp hsorted).2.2 prev hprevtake e (by simp)
  have hlt : b < a := by
    rcases lt_or_eq_of_le hab with h | h
    · exact h
    · rw [h] at habs; simp at habs; norm_num at habs
  by_cases hown : s.nodeIdAt j = n
  · rw [if_pos hown, UpdateNodeIdForSparseData_at s sp n left right j hj, hcol]
    have hownD : s.m_nodeIds.getD j (-1) = n := hown
    by_cases hmem : j ∈ col.map (fun e => e.id)
    · obtain ⟨x, hx, hxj⟩ := List.mem_map.mp hmem
      subst hxj
      rw [filter_id_of_mem col hnodup x hx]
      simp only [List.foldl_cons, List.foldl_nil, hownD]
      have hstep : UpdateNodeIdAt sp.m_fSplitValue n left right (n, 0) x
          = (if x.featureValue ≥ sp.m_fSplitValue then right else left, 1) := by
        unfold UpdateNodeIdAt
        simp
      rw [hstep]
      have hrest : ∀ c : Int, UpdateNodeIdRestAt n left (c, 1) = c := by
        intro c
        unfold UpdateNodeIdRestAt
        simp
      rw [hrest]
      by_cases hxP : x.id ∈ (s.ownedBy n (col.take i)).map (fun e => e.id)
      · rw [if_pos hxP]
        obtain ⟨y, hy, hyx⟩ := List.mem_map.mp hxP
        have hyx2 : y = x :=
          List.inj_on_of_nodup_map hnodup (hPsub.subset hy) hx hyx
        subst hyx2
        have hya : y.featureValue ≥ a := by
          rcases pairwise_getLast _ _ prev hPsorted hlast y hy with h | h
          · rw [h, ha]
          · rw [ha]; exact h
        rw [if_pos]
        rw [hv]
        have : (a + b) / 2 < a := by linarith
        exact le_of_lt (lt_of_lt_of_le this hya)
      · rw [if_neg hxP]
        have hxdrop : x ∈ e :: col.drop (i + 1) := by
          rw [hsplit] at hx
          rcases List.mem_append.mp hx with h | h
          · exfalso
            apply hxP
            exact List.mem_map.mpr ⟨x, List.mem_filter.mpr ⟨h, by simpa using hown⟩, rfl⟩
          · exact h
        have hxb : x.featureValue ≤ b := by
          rcases List.mem_cons.mp hxdrop with h | h
          · rw [h, hb2]
          · rw [hb2]
            rw [hsplit] at hsorted
            have := (List.pairwise_append.mp hsorted).2.1
            exact (List.pairwise_cons.mp this).1 x h
        rw [if_neg]
        rw [hv]
        intro hge2
        have : b < (a + b) / 2 := by linarith
        linarith
    · rw [filter_id_of_not_mem col j hmem]
      have hnP : j ∉ (s.ownedBy n (col.take i)).map (fun e => e.id) := by
        intro h
        exact hmem ((hPsub.map _).subset h)
      rw [if_neg hnP]
      simp only [List.foldl_nil, hownD]
      simp [UpdateNodeIdRestAt]
  · rw [if_neg hown]
    exact UpdateNodeIdForSparseData_other s sp n left right j hj hown

/-- After the split at the midpoint of a boundary pair of a column sorted descending, the
statistics of the right child are those of the entries of n scanned before the boundary,
and the statistics of the left child are those of n minus those of the right child. -/
theorem ComputeNodeStat_after_boundary_split (s : Splitter) (n left right : Int) (f i : Nat)
    (a b : ℚ) (sp : SplitPoint) (hb : s.BoundaryPair n f i a b)
    (hf : sp.m_nFeatureId = (f : Int)) (hv : sp.m_fSplitValue = (a + b) / 2)
    (hsorted : (s.m_vvFeaInxPair.getD f []).Pairwise
      (fun x y => x.featureValue ≥ y.featureValue))
    (hnodup : ((s.m_vvFeaInxPair.getD f []).map (fun e => e.id)).Nodup)
    (hn : n ≠ -1) (hl : left ∉ s.m_nodeIds) (hr : right ∉ s.m_nodeIds) (hlr : left ≠ right) :
    (s.UpdateNodeIdForSparseData sp n left right).ComputeNodeStat right nodeStat.zero
      = s.scannedStat n f i ∧
    (s.UpdateNodeIdForSparseData sp n left right).ComputeNodeStat left nodeStat.zero
      = nodeStat.Subtract (s.ComputeNodeStat n nodeStat.zero) (s.scannedStat n f i) := by
  have hfinal := UpdateNodeIdForSparseData_boundary s n left right f i a b sp hb hf hv
    hsorted hnodup
  have hPown : ∀ j ∈ (s.ownedBy n ((s.m_vvFeaInxPair.getD f []).take i)).map
      (fun e => e.id), s.nodeIdAt j = n := by
    intro j hjm
    obtain ⟨y, hy, hyj⟩ := List.mem_map.mp hjm
    have := (List.mem_filter.mp hy).2
    rw [← hyj]
    simpa using this
  have hPlt : ∀ j ∈ (s.ownedBy n ((s.m_vvFeaInxPair.getD f []).take i)).map
      (fun e => e.id), j < s.m_nodeIds.length := by
    intro j hjm
    have h1 := hPown j hjm
    by_contra hge
    have : s.nodeIdAt j = -1 := by
      unfold nodeIdAt
      rw [List.getD_eq_getElem?_getD, List.getElem?_eq_none (not_lt.mp hge)]
      rfl
    rw [this] at h1
    exact hn h1.symm
  have hPnd : ((s.ownedBy n ((s.m_vvFeaInxPair.getD f []).take i)).map
      (fun e => e.id)).Nodup :=
    hnodup.sublist (((List.filter_sublist _).trans (List.take_sublist _ _)).map _)
  have hmemIds : ∀ j, j < s.m_nodeIds.length → s.nodeIdAt j ∈ s.m_nodeIds := by
    intro j hj
    unfold nodeIdAt
    rw [List.getD_eq_getElem?_getD, List.getElem?_eq_getElem hj]
    exact List.getElem_mem _
  have hgd : ∀ j, (s.UpdateNodeIdForSparseData sp n left right).gdAt j = s.gdAt j :=
    fun _ => rfl
  have hid : ∀ j, (s.UpdateNodeIdForSparseData sp n left right).nodeIdAt j
      = (s.UpdateNodeIdForSparseData sp n left right).m_nodeIds.getD j (-1) := fun _ => rfl
  have hright : ∀ (w : Nat → ℚ), ∀ j ∈ Finset.range s.m_nodeIds.length,
      (if (s.UpdateNodeIdForSparseData sp n left right).nodeIdAt j = right then w j else 0)
      = (if j ∈ (s.ownedBy n ((s.m_vvFeaInxPair.getD f []).take i)).map (fun e => e.id)
          then w j else 0) := by
    intro w j hj
    have hj2 := Finset.mem_range.mp hj
    rw [hid, hfinal j hj2]
    by_cases hown : s.nodeIdAt j = n
    · rw [if_pos hown]
      by_cases hP : j ∈ (s.ownedBy n ((s.m_vvFeaInxPair.getD f []).take i)).map
          (fun e => e.id)
      · simp only [if_pos hP, if_true]
      · simp only [if_neg hP, if_neg hlr]
    · rw [if_neg hown]
      have h1 : s.nodeIdAt j ≠ right := fun h => hr (h ▸ hmemIds j hj2)
      have h2 : j ∉ (s.ownedBy n ((s.m_vvFeaInxPair.getD f []).take i)).map
          (fun e => e.id) := fun h => hown (hPown j h)
      simp only [if_neg h1, if_neg h2]
  have hleft : ∀ (w : Nat → ℚ), ∀ j ∈ Finset.range s.m_nodeIds.length,
      (if (s.UpdateNodeIdForSparseData sp n left right).nodeIdAt j = left then w j else 0)
      = (if s.nodeIdAt j = n then w j else 0) -
        (if j ∈ (s.ownedBy n ((s.m_vvFeaInxPair.getD f []).take i)).map (fun e => e.id)
          then w j else 0) := by
    intro w j hj
    have hj2 := Finset.mem_range.mp hj
    rw [hid, hfinal j hj2]
    by_cases hown : s.nodeIdAt j = n
    · rw [if_pos hown]
      by_cases hP : j ∈ (s.ownedBy n ((s.m_vvFeaInxPair.getD f []).take i)).map
          (fun e => e.id)
      · simp only [if_pos hP, if_neg (Ne.symm hlr), if_pos hown, sub_self]
      · simp only [if_neg hP, if_pos hown, if_true, sub_zero]
    · rw [if_neg hown]
      have h1 : s.nodeIdAt j ≠ left := fun h => hl (h ▸ hmemIds j hj2)
      have h2 : j ∉ (s.ownedBy n ((s.m_vvFeaInxPair.getD f []).take i)).map
          (fun e => e.id) := fun h => hown (hPown j h)
      simp only [if_neg h1, if_neg h2, if_neg hown, sub_zero]
  have hscan : s.scannedStat n f i
      = ⟨((s.ownedBy n ((s.m_vvFeaInxPair.getD f []).take i)).map
            (fun e => (s.gdAt e.id).grad)).sum,
         ((s.ownedBy n ((s.m_vvFeaInxPair.getD f []).take i)).map
            (fun e => (s.gdAt e.id).hess)).sum⟩ := by
    unfold scannedStat
    exact accStat_eq_sum s _
  have hsumP : ∀ (w : Nat → ℚ), ∑ j in Finset.range s.m_nodeIds.length,
      (if j ∈ (s.ownedBy n ((s.m_vvFeaInxPair.getD f []).take i)).map (fun e => e.id)
        then w j else 0)
      = ((s.ownedBy n ((s.m_vvFeaInxPair.getD f []).take i)).map
          (fun e => w e.id)).sum := by
    intro w
    rw [sum_indicator_list _ _ hPnd hPlt w, List.map_map]
    rfl
  constructor
  · rw [ComputeNodeStat_eq_sum, UpdateNodeIdForSparseData_length, hscan]
    simp only [hgd]
    rw [Finset.sum_congr rfl (hright (fun j => (s.gdAt j).grad)),
      Finset.sum_congr rfl (hright (fun j => (s.gdAt j).hess)),
      hsumP (fun j => (s.gdAt j).grad), hsumP (fun j => (s.gdAt j).hess)]
  · rw [ComputeNodeStat_eq_sum, UpdateNodeIdForSparseData_length, hscan,
      ComputeNodeStat_eq_sum s n]
    simp only [hgd, nodeStat.Subtract]
    rw [Finset.sum_congr rfl (hleft (fun j => (s.gdAt j).grad)),
      Finset.sum_congr rfl (hleft (fun j => (s.gdAt j).hess)),
      Finset.sum_sub_distrib, Finset.sum_sub_distrib,
      hsumP (fun j => (s.gdAt j).grad), hsumP (fun j => (s.gdAt j).hess)]

end Splitter

namespace Splitter

/-- The splitter that SplitNodeSparseData leaves behind is the one that
UpdateNodeIdForSparseData makes with the node's id as parent and the ids k and k+1. -/
theorem SplitNodeSparseData_splitter (s : Splitter) (fresh : TreeNode) (mem : List TreeNode)
    (node : Nat) (newSplittableNode : List Nat) (sp : SplitPoint) (tree : RegTree) (k : Int)
    (hnode : node < mem.length) :
    (s.SplitNodeSparseData fresh mem node newSplittableNode sp tree k).splitter
      = s.UpdateNodeIdForSparseData sp (derefNode mem node).nodeId k (k + 1) := by
  have hL : mem.length < (mem ++ [fresh, fresh]).length := by simp
  have hR : mem.length + 1 < (mem ++ [fresh, fresh]).length := by simp
  have hN : node < (mem ++ [fresh, fresh]).length := by simp; omega
  have hNL : node ≠ mem.length := by omega
  have hNR : node ≠ mem.length + 1 := by omega
  have hLN : mem.length ≠ node := by omega
  have hRN : mem.length + 1 ≠ node := by omega
  have hLR : mem.length ≠ mem.length + 1 := by omega
  have hRL : mem.length + 1 ≠ mem.length := by omega
  have h0L : derefNode (mem ++ [fresh, fresh]) mem.length = fresh := by
    unfold derefNode
    rw [List.getD_eq_getElem?_getD, List.getElem?_append_right (le_refl _)]
    simp
  have h0R : derefNode (mem ++ [fresh, fresh]) (mem.length + 1) = fresh := by
    unfold derefNode
    rw [List.getD_eq_getElem?_getD, List.getElem?_append_right (Nat.le_succ _)]
    simp
  have h0N : derefNode (mem ++ [fresh, fresh]) node = derefNode mem node :=
    derefNode_append_left mem _ node hnode
  simp (disch := first | assumption | (simp only [writeNode_length]; assumption))
    only [SplitNodeSparseData, derefNode_writeNode_same, derefNode_writeNode_other,
      h0L, h0R, h0N, ne_eq, not_false_eq_true]

/-- Counterexample to C15 as stated: the column of the scenario of the spec is sorted
ascending (values 1, 1, 3, 5) and holds every instance once; the batched search changes
vBest[0] of the root to (gain 8/3, threshold 2, feature 0) and records rchildStat[0] =
(-2, 2) and lchildStat[0] = (2, 2); SplitNodeSparseData on the root with that split point and
m_nNumofNode = 1 assigns the instances [1, 1, 2, 2], so that ComputeNodeStat gives (2, 2)
for the right child 2 and (-2, 2) for the left child 1: the recorded statistics are those
of the opposite children. -/
theorem recorded_stats_ascending_counterexample :
    ((⟨[[⟨0, 1⟩, ⟨1, 1⟩, ⟨2, 3⟩, ⟨3, 5⟩]], [0, 0, 0, 0],
        [⟨-1, 1⟩, ⟨-1, 1⟩, ⟨1, 1⟩, ⟨1, 1⟩], [⟨0, 4⟩], [(0, 0)], 1, 0⟩ :
        Splitter).FeaFinderAllNode [⟨0, 0, -1⟩] [⟨0, 0⟩] [⟨0, 0⟩]).map
        (fun o => (o.vBest.get? 0, o.rchildStat.get? 0, o.lchildStat.get? 0)) =
      some (some ⟨8 / 3, 2, 0⟩, some ⟨-2, 2⟩, some ⟨2, 2⟩) ∧
    ((⟨[[⟨0, 1⟩, ⟨1, 1⟩, ⟨2, 3⟩, ⟨3, 5⟩]], [0, 0, 0, 0],
        [⟨-1, 1⟩, ⟨-1, 1⟩, ⟨1, 1⟩, ⟨1, 1⟩], [⟨0, 4⟩], [(0, 0)], 1, 0⟩ :
        Splitter).SplitNodeSparseData ⟨-1, -1, -1, -1, -1, 0, 0⟩ [⟨0, -1, -1, -1, -1, 0, 0⟩] 0 []
        ⟨8 / 3, 2, 0⟩ ⟨[0]⟩ 1).splitter.m_nodeIds = [1, 1, 2, 2] ∧
    ((⟨[[⟨0, 1⟩, ⟨1, 1⟩, ⟨2, 3⟩, ⟨3, 5⟩]], [0, 0, 0, 0],
        [⟨-1, 1⟩, ⟨-1, 1⟩, ⟨1, 1⟩, ⟨1, 1⟩], [⟨0, 4⟩], [(0, 0)], 1, 0⟩ :
        Splitter).SplitNodeSparseData ⟨-1, -1, -1, -1, -1, 0, 0⟩ [⟨0, -1, -1, -1, -1, 0, 0⟩] 0 []
        ⟨8 / 3, 2, 0⟩ ⟨[0]⟩ 1).splitter.ComputeNodeStat 2 nodeStat.zero = ⟨2, 2⟩ ∧
    ((⟨[[⟨0, 1⟩, ⟨1, 1⟩, ⟨2, 3⟩, ⟨3, 5⟩]], [0, 0, 0, 0],
        [⟨-1, 1⟩, ⟨-1, 1⟩, ⟨1, 1⟩, ⟨1, 1⟩], [⟨0, 4⟩], [(0, 0)], 1, 0⟩ :
        Splitter).SplitNodeSparseData ⟨-1, -1, -1, -1, -1, 0, 0⟩ [⟨0, -1, -1, -1, -1, 0, 0⟩] 0 []
        ⟨8 / 3, 2, 0⟩ ⟨[0]⟩ 1).splitter.ComputeNodeStat 1 nodeStat.zero = ⟨-2, 2⟩ ∧
    (⟨-2, 2⟩ : nodeStat) ≠ ⟨2, 2⟩ := by
  refine ⟨?_, ?_, ?_, ?_, ?_⟩
  · with_unfolding_all decide
  · with_unfolding_all decide
  · with_unfolding_all decide
  · with_unfolding_all decide
  · with_unfolding_all decide

/-- C15 (amended): let every feature column be sorted descending by value and hold
every instance at most once, let n be an active node at buffer position p with m_nodeStat[p]
the statistics ComputeNodeStat gives for n, let rchildStat and lchildStat have an entry p, and
let no instance bear the ids k and k+1. Then FeaFinderAllNode completes, and if it changed
vBest[p] to sp, then after SplitNodeSparseData on the tree node of n with sp and
m_nNumofNode = k, rchildStat[p] is what ComputeNodeStat computes for the right child k+1
and lchildStat[p] is what it computes for the left child k. -/
theorem recorded_stats_describe_children (s : Splitter) (n : Int) (p : Nat)
    (hctx : s.NodeAt n p)
    (hsorted : ∀ col ∈ s.m_vvFeaInxPair,
      col.Pairwise (fun x y => x.featureValue ≥ y.featureValue))
    (hnodup : ∀ col ∈ s.m_vvFeaInxPair, (col.map (fun e => e.id)).Nodup)
    (hstat : s.m_nodeStat.get? p = some (s.ComputeNodeStat n nodeStat.zero))
    (fresh : TreeNode) (mem : List TreeNode) (node : Nat) (hnode : node < mem.length)
    (hid : (derefNode mem node).nodeId = n)
    (newSplittableNode : List Nat) (tree : RegTree) (k : Int)
    (hk : k ∉ s.m_nodeIds) (hk1 : k + 1 ∉ s.m_nodeIds)
    (vBest : List SplitPoint) (rchildStat lchildStat : List nodeStat)
    (hpr : p < rchildStat.length) (hpl : p < lchildStat.length) :
    ∃ out, s.FeaFinderAllNode vBest rchildStat lchildStat = some out ∧
      (out.vBest.get? p ≠ vBest.get? p →
        ∃ sp, out.vBest.get? p = some sp ∧
          out.rchildStat.get? p = some
            ((s.SplitNodeSparseData fresh mem node newSplittableNode sp tree k
              ).splitter.ComputeNodeStat (k + 1) nodeStat.zero) ∧
          out.lchildStat.get? p = some
            ((s.SplitNodeSparseData fresh mem node newSplittableNode sp tree k
              ).splitter.ComputeNodeStat k nodeStat.zero)) := by
  obtain ⟨out, hout, hbatch⟩ := FeaFinderAllNode_BatchOut s n p hctx vBest rchildStat
    lchildStat
  obtain ⟨out2, hout2, hlr, hll⟩ := FeaFinderAllNode_lengths s vBest rchildStat lchildStat
  rw [hout] at hout2
  cases hout2
  refine ⟨out, hout, ?_⟩
  intro hne
  rcases hbatch.2.2 with h | ⟨f, i, a, b, sp, hb, hsp, hf, hv, hr, hl⟩
  · exact absurd h hne
  · have hcolmem : s.m_vvFeaInxPair.getD f [] ∈ s.m_vvFeaInxPair := by
      obtain ⟨e, _, hge, _⟩ := hb
      by_cases hfl : f < s.m_vvFeaInxPair.length
      · rw [List.getD_eq_getElem?_getD, List.getElem?_eq_getElem hfl]
        exact List.getElem_mem _
      · rw [List.getD_eq_getElem?_getD, List.getElem?_eq_none (not_lt.mp hfl)] at hge
        simp at hge
    have hpart := ComputeNodeStat_after_boundary_split s n k (k + 1) f i a b sp hb hf hv
      (hsorted _ hcolmem) (hnodup _ hcolmem) hctx.hn hk hk1 (by omega)
    have hpd : s.m_nodeStat.getD p nodeStat.zero = s.ComputeNodeStat n nodeStat.zero := by
      rw [List.get?_eq_getElem?] at hstat
      simp [List.getD_eq_getElem?_getD, hstat]
    have hxr : out.rchildStat.get? p = some (out.rchildStat.get ⟨p, by rw [hlr]; exact hpr⟩) :=
      List.get?_eq_get _
    have hxl : out.lchildStat.get? p = some (out.lchildStat.get ⟨p, by rw [hll]; exact hpl⟩) :=
      List.get?_eq_get _
    refine ⟨sp, hsp, ?_, ?_⟩
    · rw [SplitNodeSparseData_splitter s fresh mem node newSplittableNode sp tree k hnode, hid,
        hpart.1, hxr, ← hr _ hxr]
    · rw [SplitNodeSparseData_splitter s fresh mem node newSplittableNode sp tree k hnode, hid,
        hpart.2, ← hpd, hxl, ← hl _ hxl]

/-- Witness of C15: the column of the scenario of the spec sorted descending (values 5, 3,
1, 1); the batched search changes vBest[0] of the root to (gain 8/3, threshold 2, feature
0) and records rchildStat[0] = (2, 2), lchildStat[0] = (-2, 2), which are the statistics of
the children 2 and 1 after the split. -/
theorem recorded_stats_describe_children_witness :
    ∃ out sp, (⟨[[⟨3, 5⟩, ⟨2, 3⟩, ⟨0, 1⟩, ⟨1, 1⟩]], [0, 0, 0, 0],
        [⟨-1, 1⟩, ⟨-1, 1⟩, ⟨1, 1⟩, ⟨1, 1⟩], [⟨0, 4⟩], [(0, 0)], 1, 0⟩ :
        Splitter).FeaFinderAllNode [⟨0, 0, -1⟩] [⟨0, 0⟩] [⟨0, 0⟩] = some out ∧
      out.vBest.get? 0 = some sp ∧ sp = ⟨8 / 3, 2, 0⟩ ∧
      out.rchildStat.get? 0 = some ⟨2, 2⟩ ∧ out.lchildStat.get? 0 = some ⟨-2, 2⟩ ∧
      out.rchildStat.get? 0 = some
        (((⟨[[⟨3, 5⟩, ⟨2, 3⟩, ⟨0, 1⟩, ⟨1, 1⟩]], [0, 0, 0, 0],
          [⟨-1, 1⟩, ⟨-1, 1⟩, ⟨1, 1⟩, ⟨1, 1⟩], [⟨0, 4⟩], [(0, 0)], 1, 0⟩ :
          Splitter).SplitNodeSparseData ⟨-1, -1, -1, -1, -1, 0, 0⟩
            [⟨0, -1, -1, -1, -1, 0, 0⟩] 0 [] sp ⟨[0]⟩ 1).splitter.ComputeNodeStat (1 + 1)
          nodeStat.zero) ∧
      out.lchildStat.get? 0 = some
        (((⟨[[⟨3, 5⟩, ⟨2, 3⟩, ⟨0, 1⟩, ⟨1, 1⟩]], [0, 0, 0, 0],
          [⟨-1, 1⟩, ⟨-1, 1⟩, ⟨1, 1⟩, ⟨1, 1⟩], [⟨0, 4⟩], [(0, 0)], 1, 0⟩ :
          Splitter).SplitNodeSparseData ⟨-1, -1, -1, -1, -1, 0, 0⟩
            [⟨0, -1, -1, -1, -1, 0, 0⟩] 0 [] sp ⟨[0]⟩ 1).splitter.ComputeNodeStat 1
          nodeStat.zero) := by
  have hctx : (⟨[[⟨3, 5⟩, ⟨2, 3⟩, ⟨0, 1⟩, ⟨1, 1⟩]], [0, 0, 0, 0],
      [⟨-1, 1⟩, ⟨-1, 1⟩, ⟨1, 1⟩, ⟨1, 1⟩], [⟨0, 4⟩], [(0, 0)], 1, 0⟩ :
      Splitter).NodeAt 0 0 := by
    refine ⟨by decide, ?_, ?_, by simp [mapFind]⟩
    · intro x hx
      simp only [List.mem_cons, List.mem_singleton, List.not_mem_nil, or_false, or_self]
        at hx
      right
      subst hx
      exact ⟨0, by simp [mapFind]⟩
    · intro k hk
      simp only [mapFind] at hk
      by_cases h1 : (0 : Int) = k
      · exact h1.symm
      · rw [if_neg h1] at hk
        cases hk
  have hsorted : ∀ col ∈ (⟨[[⟨3, 5⟩, ⟨2, 3⟩, ⟨0, 1⟩, ⟨1, 1⟩]], [0, 0, 0, 0],
      [⟨-1, 1⟩, ⟨-1, 1⟩, ⟨1, 1⟩, ⟨1, 1⟩], [⟨0, 4⟩], [(0, 0)], 1, 0⟩ :
      Splitter).m_vvFeaInxPair,
      col.Pairwise (fun x y => x.featureValue ≥ y.featureValue) := by
    intro col hcol
    simp only [List.mem_singleton] at hcol
    subst hcol
    simp only [List.pairwise_cons, List.mem_cons, List.mem_singleton, List.not_mem_nil,
      forall_eq_or_imp, forall_eq, List.Pairwise.nil, and_true, false_implies, implies_true,
      or_false]
    norm_num
  have hnodup : ∀ col ∈ (⟨[[⟨3, 5⟩, ⟨2, 3⟩, ⟨0, 1⟩, ⟨1, 1⟩]], [0, 0, 0, 0],
      [⟨-1, 1⟩, ⟨-1, 1⟩, ⟨1, 1⟩, ⟨1, 1⟩], [⟨0, 4⟩], [(0, 0)], 1, 0⟩ :
      Splitter).m_vvFeaInxPair, (col.map (fun e => e.id)).Nodup := by
    intro col hcol
    simp only [List.mem_singleton] at hcol
    subst hcol
    decide
  obtain ⟨out, hout, h⟩ := recorded_stats_describe_children
    ⟨[[⟨3, 5⟩, ⟨2, 3⟩, ⟨0, 1⟩, ⟨1, 1⟩]], [0, 0, 0, 0],
      [⟨-1, 1⟩, ⟨-1, 1⟩, ⟨1, 1⟩, ⟨1, 1⟩], [⟨0, 4⟩], [(0, 0)], 1, 0⟩ 0 0 hctx hsorted hnodup
    (by with_unfolding_all decide) ⟨-1, -1, -1, -1, -1, 0, 0⟩ [⟨0, -1, -1, -1, -1, 0, 0⟩] 0
    (by decide) (by with_unfolding_all decide) [] ⟨[0]⟩ 1 (by decide) (by decide)
    [⟨0, 0, -1⟩] [⟨0, 0⟩] [⟨0, 0⟩] (by decide) (by decide)
  have hv : ((⟨[[⟨3, 5⟩, ⟨2, 3⟩, ⟨0, 1⟩, ⟨1, 1⟩]], [0, 0, 0, 0],
        [⟨-1, 1⟩, ⟨-1, 1⟩, ⟨1, 1⟩, ⟨1, 1⟩], [⟨0, 4⟩], [(0, 0)], 1, 0⟩ :
        Splitter).FeaFinderAllNode [⟨0, 0, -1⟩] [⟨0, 0⟩] [⟨0, 0⟩]).map
        (fun o => (o.vBest, o.rchildStat, o.lchildStat)) =
      some ([⟨8 / 3, 2, 0⟩], [⟨2, 2⟩], [⟨-2, 2⟩]) := by
    with_unfolding_all decide
  rw [hout] at hv
  simp only [Option.map_some', Option.some.injEq, Prod.mk.injEq] at hv
  have hne : out.vBest.get? 0 ≠ [(⟨0, 0, -1⟩ : SplitPoint)].get? 0 := by
    rw [hv.1]; simp
  obtain ⟨sp, hsp, hr, hl⟩ := h hne
  have hspv : sp = ⟨8 / 3, 2, 0⟩ := by
    rw [hv.1] at hsp
    simpa using hsp.symm
  refine ⟨out, sp, hout, hsp, hspv, ?_, ?_, hr, hl⟩
  · rw [hv.2.1]; rfl
  · rw [hv.2.2]; rfl

end Splitter
